import Mathlib

/-!
# schroot: session engine, authorisation policy and keyfile

A shallow embedding of parts of `sbuild-session.c`, `sbuild-config.c`,
`sbuild-keyfile.h`, `sbuild-keyfile.cc`, `sbuild-chroot-plain.cc`,
`sbuild-chroot-lvm-snapshot.cc` and `schroot.cc`, followed by theorems about
the embedded functions.

Conventions of the embedding:

* C strings and string vectors that may be `NULL` are `Option String` and
  `Option (List String)`.
* Calls into the operating system take their results from an explicit record
  of results, so that every theorem quantifies over all results the calls may
  give.
* A function that may end the process with `exit` returns `Option`, where
  `none` stands for the process having exited.
-/

namespace Schroot

/-! ## Constants of the C library -/

/-- The value of `EXIT_FAILURE` from `<stdlib.h>`. -/
def EXIT_FAILURE : Int := 1

/-- The value of `EXIT_SUCCESS` from `<stdlib.h>`. -/
def EXIT_SUCCESS : Int := 0

/-- Lexicographic order of strings by character code: the order of
`std::less<std::string>` on the keys of a `std::map`, and the order that the
sign of `strcmp` reports. -/
def string_less : List Char → List Char → Bool
  | [], [] => false
  | [], _ :: _ => true
  | _ :: _, [] => false
  | a :: as, b :: bs =>
    if a.toNat < b.toNat then true
    else if b.toNat < a.toNat then false
    else string_less as bs

/-- The C function `strcmp`: zero exactly for equal strings, otherwise the
sign of the comparison. -/
def strcmp (a b : String) : Int :=
  if a = b then 0 else if string_less a.toList b.toList = true then -1 else 1

/-! ## Chroots and the configuration (`sbuild-config.c`) -/

/-- The fields of an `SbuildChroot` object that the embedded functions read.
Each getter of the C object returns a pointer that may be `NULL`. -/
structure SbuildChroot where
  name : Option String
  description : Option String
  location : Option String
  groups : Option (List String)
  root_groups : Option (List String)
  aliases : Option (List String)
  deriving DecidableEq, Repr

/-- The object made by `sbuild_chroot_new`: no field is set. -/
def sbuild_chroot_new : SbuildChroot :=
  { name := none, description := none, location := none,
    groups := none, root_groups := none, aliases := none }

/-- The setter `sbuild_chroot_set_name`. -/
def sbuild_chroot_set_name (c : SbuildChroot) (name : String) : SbuildChroot :=
  { c with name := some name }

/-- An `SbuildConfig` object: the list of loaded chroots, in load order. -/
structure SbuildConfig where
  chroots : List SbuildChroot
  deriving DecidableEq, Repr

/-- GLib's `g_list_find_custom`: the first element `e` of the list for which
`func e data` is zero. -/
def g_list_find_custom {α : Type} (l : List α) (data : α) (func : α → α → Int) :
    Option α :=
  l.find? (fun e => func e data == 0)

/-- The comparison `chroot_findfunc`: `FALSE` (zero) when either name is
`NULL`, otherwise `strcmp` of the two names. -/
def chroot_findfunc (a b : SbuildChroot) : Int :=
  match a.name, b.name with
  | some an, some bn => strcmp an bn
  | _, _ => 0

/-- The loop of `alias_findfunc` over the aliases of `a`. -/
def alias_findfunc_loop (bn : String) : List String → Int
  | [] => 1
  | al :: rest => if strcmp al bn == 0 then 0 else alias_findfunc_loop bn rest

/-- The comparison `alias_findfunc`: `FALSE` (zero) when either name is
`NULL`; zero when an alias of `a` equals the name of `b`; otherwise one. -/
def alias_findfunc (a b : SbuildChroot) : Int :=
  match a.name, b.name with
  | some _, some bn =>
    match a.aliases with
    | some aliases => alias_findfunc_loop bn aliases
    | none => 1
  | _, _ => 0

/-- The function `sbuild_config_find_generic`. -/
def sbuild_config_find_generic (config : SbuildConfig) (name : String)
    (func : SbuildChroot → SbuildChroot → Int) : Option SbuildChroot :=
  if config.chroots ≠ [] then
    let example_chroot := sbuild_chroot_set_name sbuild_chroot_new name
    g_list_find_custom config.chroots example_chroot func
  else
    none

/-- The function `sbuild_config_find_chroot`. -/
def sbuild_config_find_chroot (config : SbuildConfig) (name : String) :
    Option SbuildChroot :=
  sbuild_config_find_generic config name chroot_findfunc

/-- The function `sbuild_config_find_alias`: look for the name first, and for
an alias when no chroot has the name. -/
def sbuild_config_find_alias (config : SbuildConfig) (name : String) :
    Option SbuildChroot :=
  match sbuild_config_find_chroot config name with
  | some chroot => some chroot
  | none => sbuild_config_find_generic config name alias_findfunc

/-! ## Authorisation (`sbuild_session_require_auth`) -/

/-- Modelled from the spec: the enumeration `SbuildAuthStatus` is declared in
`sbuild-auth.h`, which is not among the sources.  The three outcomes are those
of the decision table of the authorisation policy. -/
inductive SbuildAuthStatus
  | NONE
  | USER
  | FAIL
  deriving DecidableEq, Repr

/-- Modelled from the spec: position of an outcome in the order
`Fail > User > None` of the aggregation rule. -/
def SbuildAuthStatus.rank : SbuildAuthStatus → Nat
  | .NONE => 0
  | .USER => 1
  | .FAIL => 2

/-- Modelled from the spec: `sbuild_auth_change_auth` is defined in
`sbuild-auth.h`, which is not among the sources.  The session aggregates
across chroots by taking the most restrictive outcome under
`Fail > User > None`, so the new status replaces the old one exactly when it
is more restrictive. -/
def sbuild_auth_change_auth (oldauth newauth : SbuildAuthStatus) : SbuildAuthStatus :=
  if newauth.rank > oldauth.rank then newauth else oldauth

/-- What the group database calls give to the running process: the lookup
`getgrnam` by group name (giving the group id), and the supplementary group
ids of the caller as `getgroups` reports them (`none` when the call fails). -/
structure GroupDb where
  getgrnam : String → Option Nat
  getgroups : Option (List Nat)

/-- The function `is_group_member`.  The result is `none` where the C function
calls `exit (EXIT_FAILURE)`: the group is not found, `getgroups` fails, or it
reports fewer than one group. -/
def is_group_member (db : GroupDb) (group : String) : Option Bool :=
  match db.getgrnam group with
  | none => none
  | some gr_gid =>
    match db.getgroups with
    | none => none
    | some supp_groups =>
      if supp_groups.length < 1 then none
      else
        some (supp_groups.foldl
          (fun group_member g => if gr_gid = g then true else group_member) false)

/-- The loops `for (y...) if (is_group_member(groups[y]) == TRUE) in_groups = TRUE`
of `sbuild_session_require_auth`, starting from `FALSE`. -/
def in_group_list (db : GroupDb) : List String → Bool → Option Bool
  | [], acc => some acc
  | g :: rest, acc =>
    match is_group_member db g with
    | none => none
    | some m => in_group_list db rest (if m = true then true else acc)

/-- The authentication data of the `SbuildAuth` parent object that the session
reads. -/
structure SbuildAuth where
  uid : Nat
  gid : Nat
  ruid : Nat
  user : Option String
  ruser : Option String
  shell : Option String
  command : Option (List String)
  environment : Option (List String)
  pam_environment : Option (List String)
  quiet : Bool
  pam_initialised : Bool

/-- The outcome that one iteration of the loop of
`sbuild_session_require_auth` passes to `sbuild_auth_change_auth` for the
chroot found (lines 282-327).  The getters `sbuild_chroot_get_groups` and
`sbuild_chroot_get_root_groups` give `NULL` for a `NULL` chroot. -/
def chroot_auth_status (db : GroupDb) (auth : SbuildAuth)
    (chroot : Option SbuildChroot) : Option SbuildAuthStatus :=
  let groups := chroot.bind (fun c => c.groups)
  let root_groups := chroot.bind (fun c => c.root_groups)
  match groups with
  | some gs =>
    match in_group_list db gs false with
    | none => none
    | some in_groups =>
      match (match root_groups with
             | some rgs => in_group_list db rgs false
             | none => some false) with
      | none => none
      | some in_root_groups =>
        if in_groups = true ∧
            ((auth.uid = 0 ∧ in_root_groups = true) ∨ auth.ruid = auth.uid) then
          some SbuildAuthStatus.NONE
        else if in_groups = true then
          some SbuildAuthStatus.USER
        else
          some SbuildAuthStatus.FAIL
  | none => some SbuildAuthStatus.FAIL

/-- One iteration of the loop of `sbuild_session_require_auth`: resolve the
name, escalate to `FAIL` when it does not resolve, then escalate by the
outcome for the chroot.  The escalation function is a parameter. -/
def require_auth_step (change : SbuildAuthStatus → SbuildAuthStatus → SbuildAuthStatus)
    (db : GroupDb) (auth : SbuildAuth) (config : SbuildConfig)
    (status : SbuildAuthStatus) (name : String) : Option SbuildAuthStatus :=
  let chroot := sbuild_config_find_alias config name
  let status1 :=
    match chroot with
    | none => change status SbuildAuthStatus.FAIL
    | some _ => status
  match chroot_auth_status db auth chroot with
  | none => none
  | some newauth => some (change status1 newauth)

/-- The loop of `sbuild_session_require_auth` over the chroot names. -/
def require_auth_loop (change : SbuildAuthStatus → SbuildAuthStatus → SbuildAuthStatus)
    (db : GroupDb) (auth : SbuildAuth) (config : SbuildConfig) :
    List String → SbuildAuthStatus → Option SbuildAuthStatus
  | [], status => some status
  | name :: rest, status =>
    match require_auth_step change db auth config status name with
    | none => none
    | some status1 => require_auth_loop change db auth config rest status1

/-- The function `sbuild_session_require_auth`, with the session's `chroots`
and `config` pointers (either may be `NULL`, which gives `FAIL`). -/
def sbuild_session_require_auth (db : GroupDb) (auth : SbuildAuth)
    (config : Option SbuildConfig) (chroots : Option (List String)) :
    Option SbuildAuthStatus :=
  match chroots, config with
  | none, _ => some SbuildAuthStatus.FAIL
  | some _, none => some SbuildAuthStatus.FAIL
  | some names, some cfg =>
    require_auth_loop sbuild_auth_change_auth db auth cfg names SbuildAuthStatus.NONE

/-! ## Running a session (`sbuild_session_run`) -/

/-- The phases `SbuildSessionChrootSetupType` of the setup scripts. -/
inductive SbuildSessionChrootSetupType
  | SETUP_START
  | SETUP_STOP
  deriving DecidableEq, Repr

/-- The errors that the session functions store in a `GError`, one constructor
for each place that sets one.  The comment of each names the error code of
the `SBUILD_SESSION_ERROR` domain, or the function the error comes from. -/
inductive SessionGError
  /-- Set by `g_spawn_sync`. -/
  | spawn (message : String)
  /-- Code `CHROOT_SETUP`: `Chroot setup failed during chroot start` or `stop`. -/
  | chroot_setup (setup_type : SbuildSessionChrootSetupType)
  /-- Code `CHROOT`: `Failed to find chroot`. -/
  | chroot_not_found (name : String)
  /-- Code `FORK`: `Failed to fork child`. -/
  | fork_failed
  /-- Code `CHILD`: `wait for child failed`. -/
  | wait_failed
  /-- Set by `sbuild_auth_close_session`. -/
  | pam (message : String)
  /-- Code `CHILD`: `Child terminated by signal`. -/
  | child_signalled (signal : Nat)
  /-- Code `CHILD`: `Child dumped core`. -/
  | child_dumped_core
  /-- Code `CHILD`: `Child exited abnormally (reason unknown...)`. -/
  | child_abnormal
  /-- Code `CHILD`: `Child exited abnormally with status`. -/
  | child_exit_status (status : Int)
  deriving DecidableEq, Repr

/-- What the parent process does that is visible outside it. -/
inductive SessionEvent
  /-- A call of `g_spawn_sync` with the argument and environment vectors. -/
  | spawn_sync (argv : List String) (envp : List String)
  /-- A call of `fork`. -/
  | fork
  /-- A call of `wait`. -/
  | wait
  /-- A call of `sbuild_auth_close_session`. -/
  | close_session
  deriving DecidableEq, Repr

/-- The two build-time strings of `config.h` that the setup runner uses. -/
structure BuildConfig where
  RUN_PARTS : String
  SCHROOT_CONF_SETUP_D : String

/-- What `g_spawn_sync` gives back: the error it sets, if any, and the exit
status of the spawned program. -/
structure SpawnResult where
  error : Option String
  exit_status : Int
  deriving DecidableEq, Repr

/-- What `fork` gives to the parent process: failure (`-1`), or the process
id of the child.  The branch `pid == 0` runs in the child process, which
never returns into `sbuild_session_run`; it is `sbuild_session_run_child`
below. -/
inductive ForkResult
  | failed
  | parent (pid : Int)
  deriving DecidableEq, Repr

/-- The results of the calls made for one chroot of the session. -/
structure ChrootResults where
  setup_start : SpawnResult
  fork : ForkResult
  wait : Int
  wait_status : Nat
  close_session_error : Option String
  setup_stop : SpawnResult
  deriving DecidableEq, Repr

/-- The macro `WTERMSIG` of `<sys/wait.h>`: the low seven bits. -/
def WTERMSIG (status : Nat) : Nat := status % 128

/-- The macro `WIFEXITED` of `<sys/wait.h>`. -/
def WIFEXITED (status : Nat) : Bool := WTERMSIG status == 0

/-- The macro `WEXITSTATUS` of `<sys/wait.h>`: bits 8 to 15. -/
def WEXITSTATUS (status : Nat) : Nat := (status / 256) % 256

/-- The macro `WIFSIGNALED` of `<sys/wait.h>`: the low seven bits are neither
zero nor all set. -/
def WIFSIGNALED (status : Nat) : Bool :=
  decide (1 ≤ WTERMSIG status ∧ WTERMSIG status ≤ 126)

/-- The macro `WCOREDUMP` of `<sys/wait.h>`: bit 7. -/
def WCOREDUMP (status : Nat) : Bool := (status / 128) % 2 == 1

/-- How `printf` with `%s` shows a string pointer (glibc prints `(null)` for
`NULL`). -/
def printf_s (s : Option String) : String := s.getD "(null)"

/-- The argument vector built by `sbuild_session_setup_chroot`. -/
def setup_argv (bc : BuildConfig) (setup_type : SbuildSessionChrootSetupType) :
    List String :=
  [bc.RUN_PARTS, "--lsbsysinit", "--exit-on-error"]
    ++ (if setup_type = .SETUP_STOP then ["--reverse"] else [])
    ++ (if setup_type = .SETUP_START then ["--arg=start"]
        else if setup_type = .SETUP_STOP then ["--arg=stop"] else [])
    ++ [bc.SCHROOT_CONF_SETUP_D]

/-- The environment vector built by `sbuild_session_setup_chroot`. -/
def setup_envp (auth : SbuildAuth) (session_chroot : SbuildChroot) : List String :=
  ["CHROOT_NAME=" ++ printf_s session_chroot.name,
   "CHROOT_DESCRIPTION=" ++ printf_s session_chroot.description,
   "CHROOT_LOCATION=" ++ printf_s session_chroot.location,
   "AUTH_USER=" ++ printf_s auth.user,
   "AUTH_QUIET=" ++ (if auth.quiet = true then "true" else "false")]

/-- What a session function gives back: the calls it made, its `gboolean`
return value, and the error it would store through a non-`NULL` `error`
argument. -/
structure CallResult where
  trace : List SessionEvent
  ok : Bool
  error : Option SessionGError
  deriving DecidableEq, Repr

/-- The function `sbuild_session_setup_chroot`.  The two `g_return_val_if_fail`
checks on the name and the location return `FALSE` before anything is run and
without setting an error. -/
def sbuild_session_setup_chroot (bc : BuildConfig) (auth : SbuildAuth)
    (session_chroot : SbuildChroot) (setup_type : SbuildSessionChrootSetupType)
    (r : SpawnResult) : CallResult :=
  if session_chroot.name = none then { trace := [], ok := false, error := none }
  else if session_chroot.location = none then { trace := [], ok := false, error := none }
  else
    let ev := SessionEvent.spawn_sync (setup_argv bc setup_type) (setup_envp auth session_chroot)
    match r.error with
    | some message => { trace := [ev], ok := false, error := some (.spawn message) }
    | none =>
      if r.exit_status ≠ 0 then
        { trace := [ev], ok := false, error := some (.chroot_setup setup_type) }
      else
        { trace := [ev], ok := true, error := none }

/-- What `sbuild_session_wait_for_child` gives back: the call result and the
value it leaves in `session->child_status`. -/
structure WaitResult where
  call : CallResult
  child_status : Int
  deriving DecidableEq, Repr

/-- The function `sbuild_session_wait_for_child`.  It first sets
`child_status` to `EXIT_FAILURE`, and replaces it by the exit status of the
child only when `wait` returned the child, the PAM session closed, and the
child exited. -/
def sbuild_session_wait_for_child (pid : Int) (r : ChrootResults) : WaitResult :=
  if r.wait ≠ pid then
    { call := { trace := [.wait], ok := false, error := some .wait_failed },
      child_status := EXIT_FAILURE }
  else
    match r.close_session_error with
    | some message =>
      { call := { trace := [.wait, .close_session], ok := false,
                  error := some (.pam message) },
        child_status := EXIT_FAILURE }
    | none =>
      if WIFEXITED r.wait_status = false then
        let e :=
          if WIFSIGNALED r.wait_status = true then
            SessionGError.child_signalled (WTERMSIG r.wait_status)
          else if WCOREDUMP r.wait_status = true then SessionGError.child_dumped_core
          else SessionGError.child_abnormal
        { call := { trace := [.wait, .close_session], ok := false, error := some e },
          child_status := EXIT_FAILURE }
      else
        let status : Int := (WEXITSTATUS r.wait_status : Nat)
        if status ≠ 0 then
          { call := { trace := [.wait, .close_session], ok := false,
                      error := some (.child_exit_status status) },
            child_status := status }
        else
          { call := { trace := [.wait, .close_session], ok := true, error := none },
            child_status := status }

/-- The function `sbuild_session_run_chroot`, seen from the parent process.
`child_status` is the value of `session->child_status` before the call. -/
def sbuild_session_run_chroot (session_chroot : SbuildChroot) (child_status : Int)
    (r : ChrootResults) : WaitResult :=
  if session_chroot.name = none then
    { call := { trace := [], ok := false, error := none }, child_status := child_status }
  else if session_chroot.location = none then
    { call := { trace := [], ok := false, error := none }, child_status := child_status }
  else
    match r.fork with
    | .failed =>
      { call := { trace := [.fork], ok := false, error := some .fork_failed },
        child_status := child_status }
    | .parent pid =>
      let w := sbuild_session_wait_for_child pid r
      match w.call.error with
      | some e =>
        { call := { trace := .fork :: w.call.trace, ok := false, error := some e },
          child_status := w.child_status }
      | none =>
        { call := { trace := .fork :: w.call.trace, ok := true, error := none },
          child_status := w.child_status }

/-- The state of `sbuild_session_run` between iterations: the calls made so
far, `tmp_error`, and `session->child_status`. -/
structure RunState where
  trace : List SessionEvent
  tmp_error : Option SessionGError
  child_status : Int
  deriving DecidableEq, Repr

/-- The body of the loop of `sbuild_session_run` for one chroot name, entered
with `tmp_error == NULL`.  The stop phase is given a `NULL` error argument
when `tmp_error` is already set, so its error is then dropped. -/
def session_run_body (bc : BuildConfig) (auth : SbuildAuth) (config : SbuildConfig)
    (name : String) (r : ChrootResults) (st : RunState) : RunState :=
  match sbuild_config_find_alias config name with
  | none =>
    { st with tmp_error := some (.chroot_not_found name) }
  | some chroot =>
    let start := sbuild_session_setup_chroot bc auth chroot .SETUP_START r.setup_start
    let tmp_error1 := start.error
    let run : WaitResult :=
      if tmp_error1 = none then sbuild_session_run_chroot chroot st.child_status r
      else { call := { trace := [], ok := false, error := none },
             child_status := st.child_status }
    let tmp_error2 := if tmp_error1 = none then run.call.error else tmp_error1
    let stop := sbuild_session_setup_chroot bc auth chroot .SETUP_STOP r.setup_stop
    let tmp_error3 := if tmp_error2 ≠ none then tmp_error2 else stop.error
    { trace := st.trace ++ start.trace ++ run.call.trace ++ stop.trace,
      tmp_error := tmp_error3,
      child_status := run.child_status }

/-- The loop of `sbuild_session_run` from index `x` on: it leaves at the first
iteration after which `tmp_error` is set.  `results x` holds the results of
the calls made in iteration `x`. -/
def session_run_loop (bc : BuildConfig) (auth : SbuildAuth) (config : SbuildConfig)
    (results : Nat → ChrootResults) : List String → Nat → RunState → RunState
  | [], _, st => st
  | name :: rest, x, st =>
    let st1 := session_run_body bc auth config name (results x) st
    if st1.tmp_error ≠ none then st1
    else session_run_loop bc auth config results rest (x + 1) st1

/-- What `sbuild_session_run` leaves behind: the calls made, the return value,
the error stored for the caller, and `session->child_status`. -/
structure RunResult where
  trace : List SessionEvent
  ok : Bool
  error : Option SessionGError
  child_status : Int
  deriving DecidableEq, Repr

/-- The function `sbuild_session_run`.  `child_status` is the value of
`session->child_status` on entry. -/
def sbuild_session_run (bc : BuildConfig) (auth : SbuildAuth)
    (config : Option SbuildConfig) (chroots : Option (List String))
    (child_status : Int) (results : Nat → ChrootResults) : RunResult :=
  match config, chroots with
  | none, _ => { trace := [], ok := false, error := none, child_status := child_status }
  | some _, none => { trace := [], ok := false, error := none, child_status := child_status }
  | some cfg, some names =>
    let st := session_run_loop bc auth cfg results names 0
      { trace := [], tmp_error := none, child_status := child_status }
    match st.tmp_error with
    | some e => { trace := st.trace, ok := false, error := some e,
                  child_status := st.child_status }
    | none => { trace := st.trace, ok := true, error := none,
                child_status := st.child_status }

/-- The value `sbuild_session_init` gives to `session->child_status`. -/
def sbuild_session_init_child_status : Int := EXIT_FAILURE

/-- The exit status of the process as `main` (`schroot.cc`) sets it after the
session ran: `exit(session.get_child_status())`, reached both when the run
succeeded and when its failure was caught and logged. -/
def main_exit_status (r : RunResult) : Int := r.child_status

/-! ## The child process (`sbuild_session_run_child`) -/

/-- The calls of the child process that change its identity or its root, each
with its arguments and the value it returned (`0` is success).  For `execve`
the value is `none` when the call did not return, that is when the program
was started. -/
inductive ChildEvent
  | open_session (error : Option String)
  | setgid (gid : Nat) (ret : Int)
  | initgroups (user : String) (gid : Nat) (ret : Int)
  | chdir (path : String) (ret : Int)
  | chroot (path : String) (ret : Int)
  | setuid (uid : Nat) (ret : Int)
  | execve (file : String) (argv : List String) (envp : List String) (ret : Option Int)
  deriving DecidableEq, Repr

/-- The results of the calls the child process makes, in the order of the
calls, and the two GLib path functions it uses to build the command. -/
structure ChildResults where
  open_session_error : Option String
  setgid : Int
  initgroups : Int
  chdir_location : Int
  chroot : Int
  setuid_uid : Int
  setuid_0 : Int
  chdir_cwd : Int
  find_program_in_path : String → Option String
  path_get_basename : String → String
  execve : Option Int

/-- How the child process ends: a failed `g_assert`, an `exit` with a status,
or the program started by `execve` taking its place. -/
inductive ChildEnd
  | aborted
  | exited (status : Int)
  | replaced
  deriving DecidableEq, Repr

/-- A run of the child process: the calls made, in order, and how it ended. -/
structure ChildRun where
  trace : List ChildEvent
  finish : ChildEnd
  deriving DecidableEq, Repr

/-- The file and argument vector that `sbuild_session_run_child` passes to
`execve`: the shell (as a login shell when the environment is not kept) when
there is no command, otherwise the command, looked up in the path. -/
def child_command (auth : SbuildAuth) (shell : String) (r : ChildResults) :
    String × List String :=
  match auth.command with
  | some (c0 :: rest) =>
    ((r.find_program_in_path c0).getD c0, c0 :: rest)
  | _ =>
    if auth.environment = none then (shell, ["-" ++ r.path_get_basename shell])
    else (shell, [shell])

/-- The function `sbuild_session_run_child`.  `cwd` is the directory
`g_get_current_dir` reports. -/
def sbuild_session_run_child (auth : SbuildAuth) (session_chroot : SbuildChroot)
    (cwd : String) (r : ChildResults) : ChildRun :=
  match session_chroot.name, session_chroot.location, auth.user, auth.shell,
      auth.pam_initialised with
  | some _, some location, some user, some shell, true =>
    let t1 := [ChildEvent.open_session r.open_session_error]
    if r.open_session_error ≠ none then { trace := t1, finish := .exited EXIT_FAILURE }
    else
    let t2 := t1 ++ [.setgid auth.gid r.setgid]
    if r.setgid ≠ 0 then { trace := t2, finish := .exited EXIT_FAILURE }
    else
    let t3 := t2 ++ [.initgroups user auth.gid r.initgroups]
    if r.initgroups ≠ 0 then { trace := t3, finish := .exited EXIT_FAILURE }
    else
    let t4 := t3 ++ [.chdir location r.chdir_location]
    if r.chdir_location ≠ 0 then { trace := t4, finish := .exited EXIT_FAILURE }
    else
    let t5 := t4 ++ [.chroot location r.chroot]
    if r.chroot ≠ 0 then { trace := t5, finish := .exited EXIT_FAILURE }
    else
    let t6 := t5 ++ [.setuid auth.uid r.setuid_uid]
    if r.setuid_uid ≠ 0 then { trace := t6, finish := .exited EXIT_FAILURE }
    else
    let t7 := t6 ++ [.setuid 0 r.setuid_0]
    if r.setuid_0 = 0 ∧ auth.uid ≠ 0 then { trace := t7, finish := .exited EXIT_FAILURE }
    else
    let t8 := t7 ++ [.chdir cwd r.chdir_cwd]
    match auth.pam_environment with
    | none => { trace := t8, finish := .aborted }
    | some env =>
      let fc := child_command auth shell r
      let t9 := t8 ++ [.execve fc.1 fc.2 env r.execve]
      match r.execve with
      | none => { trace := t9, finish := .replaced }
      | some _ => { trace := t9, finish := .exited EXIT_FAILURE }
  | _, _, _, _, _ => { trace := [], finish := .aborted }

/-! ## The keyfile (`sbuild-keyfile.h`, `sbuild-keyfile.cc`)

A `std::string` is a list of characters.  A `std::map` keyed by strings is an
association list kept in strictly increasing key order, which is the order
its iterators visit. -/

/-- The member `std::map::find`: the value stored under the key, if any. -/
def map_find {β : Type} (k : List Char) : List (List Char × β) → Option β
  | [] => none
  | (k1, v1) :: rest => if k1 = k then some v1 else map_find k rest

/-- The member `std::map::insert`: the pair goes to its place in key order;
nothing changes when the key is already present. -/
def map_insert {β : Type} (k : List Char) (v : β) :
    List (List Char × β) → List (List Char × β)
  | [] => [(k, v)]
  | (k1, v1) :: rest =>
    if k1 = k then (k1, v1) :: rest
    else if string_less k k1 = true then (k, v) :: (k1, v1) :: rest
    else (k1, v1) :: map_insert k v rest

/-- The member `std::map::erase` at the position of a key. -/
def map_erase {β : Type} (k : List Char) : List (List Char × β) → List (List Char × β)
  | [] => []
  | (k1, v1) :: rest => if k1 = k then rest else (k1, v1) :: map_erase k rest

/-- Assignment through a pointer to the value stored under a key: the value is
replaced in place. -/
def map_assign {β : Type} (k : List Char) (v : β) :
    List (List Char × β) → List (List Char × β)
  | [] => []
  | (k1, v1) :: rest => if k1 = k then (k1, v) :: rest else (k1, v1) :: map_assign k v rest

/-- The key-value-comment tuple `item_type`. -/
structure item_type where
  key : List Char
  value : List Char
  comment : List Char
  deriving DecidableEq, Repr

/-- The map `item_map_type` between key name and item. -/
abbrev item_map_type := List (List Char × item_type)

/-- The group-items-comment tuple `group_type`. -/
structure group_type where
  name : List Char
  items : item_map_type
  comment : List Char
  deriving DecidableEq, Repr

/-- The map `group_map_type` between group name and group. -/
abbrev group_map_type := List (List Char × group_type)

/-- The class `keyfile`: the top-level groups and the list separator. -/
structure keyfile where
  groups : group_map_type
  separator : Char
  deriving DecidableEq, Repr

/-- The default constructor `keyfile::keyfile()`. -/
def keyfile_new : keyfile := { groups := [], separator := ',' }

/-- The member `keyfile::get_groups`. -/
def keyfile.get_groups (kf : keyfile) : List (List Char) :=
  kf.groups.map (fun pos => pos.1)

/-- The member `keyfile::find_group`. -/
def keyfile.find_group (kf : keyfile) (group : List Char) : Option group_type :=
  map_find group kf.groups

/-- The member `keyfile::get_keys`. -/
def keyfile.get_keys (kf : keyfile) (group : List Char) : List (List Char) :=
  match kf.find_group group with
  | some found_group => found_group.items.map (fun pos => pos.1)
  | none => []

/-- The member `keyfile::find_item`. -/
def keyfile.find_item (kf : keyfile) (group key : List Char) : Option item_type :=
  match kf.find_group group with
  | some found_group => map_find key found_group.items
  | none => none

/-- The member `keyfile::has_group`. -/
def keyfile.has_group (kf : keyfile) (group : List Char) : Bool :=
  (kf.find_group group).isSome

/-- The member `keyfile::has_key`. -/
def keyfile.has_key (kf : keyfile) (group key : List Char) : Bool :=
  (kf.find_item group key).isSome

/-- Modelled from the spec: the body of `keyfile::set_group` is not among the
sources.  Its declaration says that the group is created, and the comment
set, only if the group does not already exist. -/
def keyfile.set_group (kf : keyfile) (group comment : List Char) : keyfile :=
  if kf.has_group group = true then kf
  else
    { kf with groups :=
        map_insert group { name := group, items := [], comment := comment } kf.groups }

/-- Modelled from the spec: the bodies of the two `keyfile::get_comment` are
not among the sources.  They give the comment of a group, and of a key. -/
def keyfile.get_group_comment (kf : keyfile) (group : List Char) : List Char :=
  match kf.find_group group with
  | some found_group => found_group.comment
  | none => []

/-- Modelled from the spec: see `keyfile.get_group_comment`. -/
def keyfile.get_item_comment (kf : keyfile) (group key : List Char) : List Char :=
  match kf.find_item group key with
  | some found_item => found_item.comment
  | none => []

/-- The member `keyfile::set_value` for a string value: make sure the group
exists, erase the key if present, and insert the new item. -/
def keyfile.set_value (kf : keyfile) (group key value comment : List Char) : keyfile :=
  let kf1 := kf.set_group group []
  match kf1.find_group group with
  | none => kf1
  | some found_group =>
    let items := found_group.items
    let items1 := if (map_find key items).isSome = true then map_erase key items else items
    let items2 := map_insert key { key := key, value := value, comment := comment } items1
    { kf1 with groups := map_assign group { found_group with items := items2 } kf1.groups }

/-- The member `keyfile::get_value` for a string value (`parse_value` of a
string into a string succeeds and copies it; the caller's variable is kept
when the key is not found).  The result is the return value and the variable
after the call. -/
def keyfile.get_value (kf : keyfile) (group key : List Char) (value : List Char) :
    Bool × List Char :=
  match kf.find_item group key with
  | some found_item => (true, found_item.value)
  | none => (false, value)

/-- The member `keyfile::remove_group`. -/
def keyfile.remove_group (kf : keyfile) (group : List Char) : keyfile :=
  { kf with groups := map_erase group kf.groups }

/-- The member `keyfile::remove_key`. -/
def keyfile.remove_key (kf : keyfile) (group key : List Char) : keyfile :=
  match kf.find_group group with
  | some found_group =>
    let items1 := map_erase key found_group.items
    { kf with groups := map_assign group { found_group with items := items1 } kf.groups }
  | none => kf

/-- Modelled from the spec: the body of `keyfile::operator +=` is not among
the sources.  Its declaration says that it adds a keyfile to the keyfile:
each group of `rhs` is set with its comment, and each of its items is set
with its value and comment, in the order of the maps. -/
def keyfile.operator_add_assign (kf rhs : keyfile) : keyfile :=
  rhs.groups.foldl
    (fun acc gp =>
      gp.2.items.foldl
        (fun acc1 it => acc1.set_value gp.2.name it.2.key it.2.value it.2.comment)
        (acc.set_group gp.2.name gp.2.comment))
    kf

/-- The exceptions thrown by `operator >>`, each with the line count and the
line. -/
inductive keyfile_error
  /-- The message `line %1%: invalid group entry: %2%`. -/
  | invalid_group (linecount : Nat) (line : List Char)
  /-- The message `line %1%: invalid line: %2%`. -/
  | invalid_line (linecount : Nat) (line : List Char)
  /-- The message `line %1%: no key specified: %2%`. -/
  | no_key (linecount : Nat) (line : List Char)
  deriving DecidableEq, Repr

/-- The lines that repeated calls of `std::getline` extract from a stream
until it fails: the text between newline characters, where a last line
without a newline counts when it is not empty. -/
def getlines : List Char → List (List Char)
  | [] => []
  | c :: rest =>
    if c = '\n' then [] :: getlines rest
    else
      match getlines rest with
      | [] => [[c]]
      | l :: ls => (c :: l) :: ls

/-- Index of the first character at or after `start` that satisfies `p`;
`i` is the index of the head of the list. -/
def find_index_from (p : Char → Bool) (start : Nat) : List Char → Nat → Option Nat
  | [], _ => none
  | c :: rest, i =>
    if start ≤ i ∧ p c = true then some i else find_index_from p start rest (i + 1)

/-- The member `std::string::find_first_of` for one character, from a
position; `none` is `npos`, as a position and as a result. -/
def find_first_of (s : List Char) (c : Char) (pos : Option Nat) : Option Nat :=
  match pos with
  | none => none
  | some q => find_index_from (fun x => x == c) q s 0

/-- The member `std::string::find_first_not_of` for one character, from a
position; `none` is `npos`. -/
def find_first_not_of (s : List Char) (c : Char) (pos : Option Nat) : Option Nat :=
  match pos with
  | none => none
  | some q => find_index_from (fun x => x != c) q s 0

/-- Index of the last character that satisfies `p`, given the best index so
far; `i` is the index of the head of the list. -/
def find_last_index (p : Char → Bool) : List Char → Nat → Option Nat → Option Nat
  | [], _, best => best
  | c :: rest, i, best => find_last_index p rest (i + 1) (if p c = true then some i else best)

/-- The member `std::string::find_last_of` for one character. -/
def find_last_of (s : List Char) (c : Char) : Option Nat :=
  find_last_index (fun x => x == c) s 0 none

/-- The member `std::string::substr` with a position and a count. -/
def substr (s : List Char) (pos n : Nat) : List Char := (s.drop pos).take n

/-- The local variables of `operator >>` that live across lines. -/
structure parse_state where
  tmp : keyfile
  linecount : Nat
  group : List Char
  comment : List Char
  deriving DecidableEq, Repr

/-- The body of the loop of `operator >>` for one line. -/
def parse_line (st : parse_state) (line : List Char) : Except keyfile_error parse_state :=
  let linecount := st.linecount + 1
  if line.head? = some '#' then
    let comment1 := if st.comment ≠ [] then st.comment ++ ['\n'] else st.comment
    .ok { st with linecount := linecount, comment := comment1 ++ line.drop 1 }
  else if line.head? = some '[' then
    let fpos := find_first_of line ']' (some 0)
    let lpos := find_last_of line ']'
    match fpos with
    | none => .error (.invalid_group linecount line)
    | some fp =>
      if fpos ≠ lpos then .error (.invalid_group linecount line)
      else
        let group := substr line 1 (fp - 1)
        let tmp1 := if st.tmp.has_group group = true then st.tmp
                    else st.tmp.set_group group st.comment
        .ok { tmp := tmp1, linecount := linecount, group := group, comment := [] }
  else if line.length = 0 then
    .ok { st with linecount := linecount }
  else
    match find_first_of line '=' (some 0) with
    | none => .error (.invalid_line linecount line)
    | some pos =>
      if pos = 0 then .error (.no_key linecount line)
      else
        let key := substr line 0 pos
        let value := if pos = line.length - 1 then [] else line.drop (pos + 1)
        let tmp1 := if st.tmp.has_key st.group key = true then st.tmp
                    else st.tmp.set_value st.group key value st.comment
        .ok { st with tmp := tmp1, linecount := linecount, comment := [] }

/-- The loop of `operator >>` over the lines of the stream. -/
def parse_lines : List (List Char) → parse_state → Except keyfile_error parse_state
  | [], st => .ok st
  | line :: rest, st =>
    match parse_line st line with
    | .error e => .error e
    | .ok st1 => parse_lines rest st1

/-- The friend `operator >>`: parse the stream into a temporary keyfile and
add it to `kf`. -/
def operator_extract (stream : List Char) (kf : keyfile) : Except keyfile_error keyfile :=
  match parse_lines (getlines stream)
      { tmp := keyfile_new, linecount := 0, group := [], comment := [] } with
  | .error e => .error e
  | .ok st => .ok (kf.operator_add_assign st.tmp)

/-- The constructor `keyfile::keyfile(std::istream&)`. -/
def keyfile_from_stream (stream : List Char) : Except keyfile_error keyfile :=
  operator_extract stream keyfile_new

/-- The loop of `keyfile::print_comment`, with the values of `last_pos` and
`pos` (`none` is `npos`) and the text written so far.  Each round writes `#`
and one line of the comment; no newline is written.  The first argument
bounds the number of rounds. -/
def print_comment_loop (comment : List Char) :
    Nat → Option Nat → Option Nat → List Char → List Char
  | 0, _, _, stream => stream
  | fuel + 1, last_pos, pos, stream =>
    if pos ≠ none ∨ last_pos ≠ none then
      match last_pos with
      | none => stream
      | some lp =>
        let piece :=
          match pos with
          | some p => substr comment lp (p - lp)
          | none => comment.drop lp
        let last_pos1 := find_first_not_of comment '\n' pos
        let pos1 := find_first_of comment '\n' last_pos1
        print_comment_loop comment fuel last_pos1 pos1 (stream ++ '#' :: piece)
    else stream

/-- The member `keyfile::print_comment`.  Every round of its loop moves
`last_pos` forward, so one round more than the length of the comment is
enough. -/
def print_comment (comment : List Char) (stream : List Char) : List Char :=
  print_comment_loop comment (comment.length + 1) (some 0)
    (find_first_of comment '\n' (some 0)) stream

/-- The inner loop of `operator <<` over the items of a group. -/
def print_items : item_map_type → List Char → List Char
  | [], stream => stream
  | (_, item) :: rest, stream =>
    let stream1 := if item.comment.length > 0 then print_comment item.comment stream else stream
    print_items rest (stream1 ++ item.key ++ ['='] ++ item.value ++ ['\n'])

/-- The outer loop of `operator <<` over the groups, with `group_count`. -/
def print_groups : group_map_type → Nat → List Char → List Char
  | [], _, stream => stream
  | (_, group) :: rest, group_count, stream =>
    let stream1 := if group_count > 0 then stream ++ ['\n'] else stream
    let stream2 := if group.comment.length > 0 then print_comment group.comment stream1
                   else stream1
    let stream3 := stream2 ++ ['['] ++ group.name ++ [']', '\n']
    print_groups rest (group_count + 1) (print_items group.items stream3)

/-- The friend `operator <<`, writing to an empty stream. -/
def operator_insert (kf : keyfile) : List Char :=
  print_groups kf.groups 0 []

/-! ## Predicates used to state the authorisation theorems -/

/-- The caller is a member of `group`: the group exists and its id is among
the caller's supplementary group ids. -/
def IsGroupMember (db : GroupDb) (group : String) : Prop :=
  ∃ gid supp, db.getgrnam group = some gid ∧ db.getgroups = some supp ∧ gid ∈ supp

/-- The caller is a member of some group of the list. -/
def InSomeGroup (db : GroupDb) (groups : List String) : Prop :=
  ∃ g ∈ groups, IsGroupMember db g

/-- Every lookup that `is_group_member` makes for the groups of the list
succeeds: `getgroups` reports at least one group and each name is found. -/
def LookupsSucceed (db : GroupDb) (groups : List String) : Prop :=
  (∃ supp, db.getgroups = some supp ∧ supp ≠ []) ∧
    ∀ g ∈ groups, ∃ gid, db.getgrnam g = some gid

/-- The outcome for one chroot name of the session: the name is resolved by
`sbuild_config_find_alias` and the chroot found is judged. -/
def chroot_outcome (db : GroupDb) (auth : SbuildAuth) (config : SbuildConfig)
    (name : String) : Option SbuildAuthStatus :=
  chroot_auth_status db auth (sbuild_config_find_alias config name)

/-! ## Example data -/

/-- A group database with the groups `sbuild` (id 100) and `admin` (id 50),
for a caller whose supplementary groups are 50 and 7. -/
def example_db : GroupDb :=
  { getgrnam := fun g =>
      if g = "sbuild" then some 100 else if g = "admin" then some 50 else none,
    getgroups := some [50, 7] }

/-- A caller with real uid 1000 who asks to run as root. -/
def example_auth : SbuildAuth :=
  { uid := 0, gid := 0, ruid := 1000, user := some "root", ruser := some "me",
    shell := some "/bin/sh", command := none, environment := none,
    pam_environment := some [], quiet := false, pam_initialised := true }

/-- A chroot open to the group `sbuild`, and as root to the group `admin`. -/
def example_chroot : SbuildChroot :=
  { name := some "sid", description := none, location := some "/srv/sid",
    groups := some ["sbuild"], root_groups := some ["admin"], aliases := none }

/-- A chroot open to the group `admin` only. -/
def example_chroot_admin : SbuildChroot :=
  { name := some "etch", description := none, location := some "/srv/etch",
    groups := some ["admin"], root_groups := none, aliases := some ["stable"] }

/-- A configuration holding the two example chroots. -/
def example_config : SbuildConfig :=
  { chroots := [example_chroot, example_chroot_admin] }

/-- Whether an event of the child process is a call of `execve`. -/
def ChildEvent.is_execve : ChildEvent → Bool
  | .execve _ _ _ _ => true
  | _ => false

/-- Results of the child's calls in which every call succeeds, the verifying
`setuid(0)` fails, and `execve` starts the program. -/
def example_child_results : ChildResults :=
  { open_session_error := none, setgid := 0, initgroups := 0, chdir_location := 0,
    chroot := 0, setuid_uid := 0, setuid_0 := -1, chdir_cwd := 0,
    find_program_in_path := fun _ => none,
    path_get_basename := fun _ => "sh",
    execve := none }

/-- A caller with real uid 1000 who runs the login shell as themselves. -/
def example_auth_user : SbuildAuth :=
  { uid := 1000, gid := 1000, ruid := 1000, user := some "me", ruser := some "me",
    shell := some "/bin/sh", command := none, environment := none,
    pam_environment := some [], quiet := false, pam_initialised := true }

/-! ## Notions used to state the session theorems -/

/-- The start-phase run of the setup scripts for a chroot, as an event. -/
def start_event (bc : BuildConfig) (auth : SbuildAuth) (c : SbuildChroot) : SessionEvent :=
  .spawn_sync (setup_argv bc .SETUP_START) (setup_envp auth c)

/-- The stop-phase run of the setup scripts for a chroot, as an event. -/
def stop_event (bc : BuildConfig) (auth : SbuildAuth) (c : SbuildChroot) : SessionEvent :=
  .spawn_sync (setup_argv bc .SETUP_STOP) (setup_envp auth c)

/-- Whether an event belongs to running the child: `fork`, `wait` or closing
the PAM session. -/
def SessionEvent.is_child_call : SessionEvent → Bool
  | .fork => true
  | .wait => true
  | .close_session => true
  | .spawn_sync _ _ => false

/-- The chroot a name resolves to, when the session starts setting it up: it
is found by `sbuild_config_find_alias` and passes the checks on name and
location of `sbuild_session_setup_chroot`. -/
def started_chroot (config : SbuildConfig) (name : String) : Option SbuildChroot :=
  match sbuild_config_find_alias config name with
  | some c => if c.name ≠ none ∧ c.location ≠ none then some c else none
  | none => none

/-- The state in which `sbuild_session_run` enters its loop. -/
def initial_state (child_status : Int) : RunState :=
  { trace := [], tmp_error := none, child_status := child_status }

/-- The value of `tmp_error` after the iteration of the loop for one name. -/
def iteration_error (bc : BuildConfig) (auth : SbuildAuth) (config : SbuildConfig)
    (name : String) (r : ChrootResults) : Option SessionGError :=
  (session_run_body bc auth config name r (initial_state 0)).tmp_error

/-- The calls made by the iteration of the loop for one name. -/
def iteration_trace (bc : BuildConfig) (auth : SbuildAuth) (config : SbuildConfig)
    (name : String) (r : ChrootResults) : List SessionEvent :=
  (session_run_body bc auth config name r (initial_state 0)).trace

/-- Build-time strings for the examples. -/
def example_build : BuildConfig :=
  { RUN_PARTS := "/bin/run-parts", SCHROOT_CONF_SETUP_D := "/etc/schroot/setup.d" }

/-- Results for one chroot in which everything succeeds and the child (process
id 4242) exits with status 0. -/
def results_success : ChrootResults :=
  { setup_start := { error := none, exit_status := 0 },
    fork := .parent 4242, wait := 4242, wait_status := 0,
    close_session_error := none,
    setup_stop := { error := none, exit_status := 0 } }

/-- Results for one chroot in which the child exits with status 0 and the
stop-phase setup scripts then fail with exit status 1. -/
def results_stop_fails : ChrootResults :=
  { results_success with setup_stop := { error := none, exit_status := 1 } }

/-- Results for one chroot in which the child is terminated by signal 11
(`SIGSEGV`): the wait status is the signal number. -/
def results_signalled : ChrootResults :=
  { results_success with wait_status := 11 }

/-- Results for one chroot in which the child exits normally with code 1: the
wait status holds the code in bits 8 to 15. -/
def results_exit_one : ChrootResults :=
  { results_success with wait_status := 256 }

/-- Results for one chroot in which the start-phase setup scripts fail with
exit status 2, and the stop-phase scripts fail too. -/
def results_start_fails : ChrootResults :=
  { results_success with
    setup_start := { error := none, exit_status := 2 },
    setup_stop := { error := none, exit_status := 1 } }

/-! ## Example keyfiles -/

/-- A text with a commented group and a commented item. -/
def example_text_commented : List Char :=
  "#about g\n[g]\n#first\n#second\nk=v\n".toList

/-- The keyfile that `example_text_commented` parses to. -/
def example_keyfile_commented : keyfile :=
  { groups :=
      [("g".toList,
        { name := "g".toList,
          items := [("k".toList,
            { key := "k".toList, value := "v".toList, comment := "first\nsecond".toList })],
          comment := "about g".toList })],
    separator := ',' }

/-! ## Priorities of keyfile parameters (`keyfile::check_priority`) -/

/-- The enumeration `keyfile::priority`. -/
inductive priority
  | PRIORITY_OPTIONAL
  | PRIORITY_REQUIRED
  | PRIORITY_DISALLOWED
  | PRIORITY_DEPRECATED
  | PRIORITY_OBSOLETE
  deriving DecidableEq, Repr

/-- The three log streams `log_error`, `log_warning` and `log_info` that
`check_priority` writes to. -/
inductive log_level
  | error
  | warning
  | info
  deriving DecidableEq, Repr

/-- The texts that `check_priority` writes, with the group and key they are
formatted with. -/
inductive log_text
  /-- The text `%1% chroot: A required parameter "%2%" is missing.` -/
  | required_missing (group key : List Char)
  /-- The text `%1% chroot: A deprecated parameter "%2%" has been specified.` -/
  | deprecated_specified (group key : List Char)
  /-- The text `This option will be removed in the future.` -/
  | will_be_removed
  /-- The text `%1% chroot: An obsolete parameter "%2%" has been specified.` -/
  | obsolete_specified (group key : List Char)
  /-- The text `This option has been removed, and no longer has any effect.` -/
  | has_been_removed
  /-- The text `%1% chroot: A disallowed parameter "%2%" has been specified.` -/
  | disallowed_specified (group key : List Char)
  /-- The text `This option is not allowed in this context.` -/
  | not_allowed_in_context
  deriving DecidableEq, Repr

/-- One message written to a log stream. -/
structure log_entry where
  level : log_level
  text : log_text
  deriving DecidableEq, Repr

/-- The statements of `case PRIORITY_DISALLOWED:` in `check_priority`, which
end with `break`. -/
def check_priority_disallowed (group key : List Char) : List log_entry :=
  [{ level := .error, text := .disallowed_specified group key },
   { level := .info, text := .not_allowed_in_context }]

/-- The member `keyfile::check_priority`: the messages it writes, in order.
In the switch for a key that is present, `case PRIORITY_OBSOLETE:` has no
`break`, so control goes on into `case PRIORITY_DISALLOWED:`. -/
def check_priority (group key : List Char) (p : priority) (valid : Bool) :
    List log_entry :=
  if valid = false then
    match p with
    | .PRIORITY_REQUIRED => [{ level := .error, text := .required_missing group key }]
    | _ => []
  else
    match p with
    | .PRIORITY_DEPRECATED =>
      [{ level := .warning, text := .deprecated_specified group key },
       { level := .info, text := .will_be_removed }]
    | .PRIORITY_OBSOLETE =>
      [{ level := .warning, text := .obsolete_specified group key },
       { level := .info, text := .has_been_removed }]
        ++ check_priority_disallowed group key
    | .PRIORITY_DISALLOWED => check_priority_disallowed group key
    | _ => []

/-- What a read with a priority gives back: the return value, the caller's
variable after the call, and the messages written. -/
structure read_result where
  status : Bool
  value : List Char
  log : List log_entry
  deriving DecidableEq, Repr

/-- The member `keyfile::get_value` with a priority, for a string value: the
plain read, then `check_priority` with its status; the status is returned. -/
def keyfile.get_value_priority (kf : keyfile) (group key : List Char) (p : priority)
    (value : List Char) : read_result :=
  let r := kf.get_value group key value
  { status := r.1, value := r.2, log := check_priority group key p r.1 }

/-! ## LVM snapshot chroots (`sbuild-chroot-lvm-snapshot.cc`) -/

/-- The fields of a `ChrootLvmSnapshot` object that the embedded members read:
`name` and `active` of the base class `Chroot`, `device` of the base class
`ChrootBlockDevice`, and its own `snapshot_device` and `snapshot_options`. -/
structure ChrootLvmSnapshot where
  name : List Char
  active : Bool
  device : List Char
  snapshot_device : List Char
  snapshot_options : List Char
  deriving DecidableEq, Repr

/-- The constructors `ChrootLvmSnapshot::ChrootLvmSnapshot`: the two own
fields start empty; the fields of the base classes are given. -/
def ChrootLvmSnapshot_new (name : List Char) (active : Bool) (device : List Char) :
    ChrootLvmSnapshot :=
  { name := name, active := active, device := device,
    snapshot_device := [], snapshot_options := [] }

/-- The member `ChrootLvmSnapshot::get_snapshot_device`. -/
def ChrootLvmSnapshot.get_snapshot_device (c : ChrootLvmSnapshot) : List Char :=
  c.snapshot_device

/-- The member `ChrootLvmSnapshot::set_snapshot_device`. -/
def ChrootLvmSnapshot.set_snapshot_device (c : ChrootLvmSnapshot)
    (snapshot_device : List Char) : ChrootLvmSnapshot :=
  { c with snapshot_device := snapshot_device }

/-- The member `ChrootLvmSnapshot::get_mount_device`. -/
def ChrootLvmSnapshot.get_mount_device (c : ChrootLvmSnapshot) : List Char :=
  c.snapshot_device

/-- The member `ChrootLvmSnapshot::get_snapshot_options`. -/
def ChrootLvmSnapshot.get_snapshot_options (c : ChrootLvmSnapshot) : List Char :=
  c.snapshot_options

/-- The member `ChrootLvmSnapshot::set_snapshot_options`. -/
def ChrootLvmSnapshot.set_snapshot_options (c : ChrootLvmSnapshot)
    (snapshot_options : List Char) : ChrootLvmSnapshot :=
  { c with snapshot_options := snapshot_options }

/-- A keyfile with the group `sid` holding the key `aliases`. -/
def example_keyfile_sid : keyfile :=
  { groups :=
      [("sid".toList,
        { name := "sid".toList,
          items := [("aliases".toList,
            { key := "aliases".toList, value := "unstable".toList, comment := [] })],
          comment := [] })],
    separator := ',' }

/-- An LVM snapshot chroot that is not active: the origin device is set and
the snapshot device is empty. -/
def example_lvm_inactive : ChrootLvmSnapshot :=
  ChrootLvmSnapshot_new "unstable".toList false "/dev/vg/unstable".toList

/-! ## Notions used to state the keyfile theorems -/

/-- A line that starts with `[` and holds no `]` or more than one `]`. -/
@[reducible] def invalid_group_line (l : List Char) : Prop :=
  l.head? = some '[' ∧ l.count ']' ≠ 1

/-- A line that is not empty, starts with neither `#` nor `[`, and holds no `=`. -/
@[reducible] def invalid_item_line (l : List Char) : Prop :=
  l ≠ [] ∧ l.head? ≠ some '#' ∧ l.head? ≠ some '[' ∧ '=' ∉ l

/-- A line whose first character is `=`. -/
@[reducible] def no_key_line (l : List Char) : Prop :=
  l.head? = some '='

/-- A line of one of the three kinds that `operator >>` throws for. -/
@[reducible] def bad_line (l : List Char) : Prop :=
  invalid_group_line l ∨ invalid_item_line l ∨ no_key_line l

/-- The state in which `operator >>` enters its loop. -/
def parse_start : parse_state :=
  { tmp := keyfile_new, linecount := 0, group := [], comment := [] }

/-- The keyfile that `operator >>` makes of the lines of a stream, for a
keyfile that starts empty. -/
def keyfile_of_lines (lines : List (List Char)) : Except keyfile_error keyfile :=
  match parse_lines lines parse_start with
  | .error e => .error e
  | .ok st => .ok (keyfile_new.operator_add_assign st.tmp)

/-- The keys of a map are in strictly increasing order, as a `std::map` keeps
them. -/
def map_sorted {β : Type} (m : List (List Char × β)) : Prop :=
  (m.map Prod.fst).Pairwise (fun a b => string_less a b = true)

/-- The shape of a keyfile that the members of `keyfile` keep: the separator
is the comma, the groups and the items of each group are in key order, each
group is stored under its name and each item under its key. -/
def keyfile_well_formed (kf : keyfile) : Prop :=
  kf.separator = ',' ∧ map_sorted kf.groups ∧
    ∀ p ∈ kf.groups, p.2.name = p.1 ∧ map_sorted p.2.items ∧
      ∀ q ∈ p.2.items, q.2.key = q.1

/-- Every group of the first keyfile is a group of the second with the same
comment, and every item of it is an item of that group with the same value
and comment. -/
def keyfile_keeps (kf kf1 : keyfile) : Prop :=
  ∀ g grp, kf.find_group g = some grp →
    ∃ grp1, kf1.find_group g = some grp1 ∧ grp1.comment = grp.comment ∧
      ∀ k it, map_find k grp.items = some it → map_find k grp1.items = some it

/-- The keyfile with the group `g` holding the key `k` with the value ` a=b `. -/
def example_keyfile_spaces : keyfile :=
  { groups :=
      [("g".toList,
        { name := "g".toList,
          items := [("k".toList,
            { key := "k".toList, value := " a=b ".toList, comment := [] })],
          comment := [] })],
    separator := ',' }

/-- The text `operator <<` writes for a comment: nothing for the empty
comment, otherwise what `print_comment` writes. -/
def comment_text (comment : List Char) : List Char :=
  if comment.length > 0 then print_comment comment [] else []

/-- The text `operator <<` writes for an item: its comment, then the line
`key=value`. -/
def item_type.text (item : item_type) : List Char :=
  comment_text item.comment ++ item.key ++ ['='] ++ item.value ++ ['\n']

/-- The text `operator <<` writes for a group, apart from the empty line
between groups: its comment, the header line, then its items in the order of
the map. -/
def group_type.text (group : group_type) : List Char :=
  comment_text group.comment ++ ['['] ++ group.name ++ [']', '\n']
    ++ (group.items.map (fun it => it.2.text)).flatten

/-- The text for the key `k` of group `g`, from what `get_comment` and
`get_value` report for it. -/
def keyfile.item_text (kf : keyfile) (g k : List Char) : List Char :=
  comment_text (kf.get_item_comment g k) ++ k ++ ['='] ++ (kf.get_value g k []).2 ++ ['\n']

/-- The text for the group `g`, from what `get_comment` and `get_keys` report
for it: its comment, the header line, then its keys in the order of
`get_keys`. -/
def keyfile.group_text (kf : keyfile) (g : List Char) : List Char :=
  comment_text (kf.get_group_comment g) ++ ['['] ++ g ++ [']', '\n']
    ++ ((kf.get_keys g).map (kf.item_text g)).flatten

/-- The text for a keyfile: its groups in the order of `get_groups`, with an
empty line before every group but the first. -/
def keyfile.text (kf : keyfile) : List Char :=
  match kf.get_groups with
  | [] => []
  | g :: gs => kf.group_text g ++ (gs.map (fun g2 => '\n' :: kf.group_text g2)).flatten

/-- The keyfile with the groups `a` (no items) and `b` (keys `y` and `z`). -/
def example_keyfile_sorted : keyfile :=
  { groups :=
      [("a".toList, { name := "a".toList, items := [], comment := [] }),
       ("b".toList,
        { name := "b".toList,
          items := [("y".toList, { key := "y".toList, value := "2".toList, comment := [] }),
                    ("z".toList, { key := "z".toList, value := "1".toList, comment := [] })],
          comment := [] })],
    separator := ',' }

/-- The texts joined by newlines. -/
def join_lines (texts : List (List Char)) : List Char :=
  List.intercalate ['\n'] texts

/-- The comment held after a run of `#` lines with the given texts, read with
the accumulator `comment`: the accumulator and the texts joined by newlines,
once the empty ones at the front are left out. -/
def accumulated (comment : List Char) (texts : List (List Char)) : List Char :=
  join_lines ((comment :: texts).dropWhile List.isEmpty)

/-- The keyfile with the group `g` whose comment is `x`. -/
def example_keyfile_comment_x : keyfile :=
  { groups := [("g".toList, { name := "g".toList, items := [], comment := "x".toList })],
    separator := ',' }

/-- The keyfile with the group `g` and its key `k`, both without comment. -/
def example_keyfile_plain : keyfile :=
  { groups :=
      [("g".toList,
        { name := "g".toList,
          items := [("k".toList, { key := "k".toList, value := "v".toList, comment := [] })],
          comment := [] })],
    separator := ',' }

/-- The keyfile with the group `g` whose comment is `a`, `b` and `c` on
three lines. -/
def example_keyfile_comment_abc : keyfile :=
  { groups := [("g".toList, { name := "g".toList, items := [], comment := "a\nb\nc".toList })],
    separator := ',' }

/-- What `operator >>` keeps of its loop state besides the line count: the
keyfile being built, the current group and the accumulated comment. -/
def parse_state.view (st : parse_state) : keyfile × List Char × List Char :=
  (st.tmp, st.group, st.comment)

/-- The keyfile with the group `g` whose comment is `a` and `b` on two
lines. -/
def example_keyfile_comment_ab : keyfile :=
  { groups := [("g".toList, { name := "g".toList, items := [], comment := "a\nb".toList })],
    separator := ',' }

/-- The keyfile with the group of the empty name, without comment, and its
key `k`. -/
def example_keyfile_unnamed : keyfile :=
  { groups :=
      [([],
        { name := [],
          items := [("k".toList, { key := "k".toList, value := "v".toList, comment := [] })],
          comment := [] })],
    separator := ',' }

/-- The keyfile with the group `g` whose comment is `c`, and its key `k` with
the value `1`. -/
def example_keyfile_first_kept : keyfile :=
  { groups :=
      [("g".toList,
        { name := "g".toList,
          items := [("k".toList, { key := "k".toList, value := "1".toList, comment := [] })],
          comment := "c".toList })],
    separator := ',' }

/-! ## Keyfile and locks of the chroot variants
(`sbuild-chroot-plain.cc`, `sbuild-chroot-lvm-snapshot.cc`)

The bodies of the base-class members `chroot::get_keyfile`,
`chroot::set_keyfile`, `ChrootBlockDevice::get_keyfile` and
`ChrootBlockDevice::set_keyfile` are not among the sources.  Each member below
starts with a call of one of them; its argument here is the keyfile, or the
object, as that call leaves it, so that the theorems hold whatever the
base-class call does. -/

/-- The three-argument member `keyfile::set_value` for a string value: the
four-argument member with the empty comment. -/
def keyfile.set_value_plain (kf : keyfile) (group key value : List Char) : keyfile :=
  kf.set_value group key value []

/-- The fields of a `ChrootPlain` object that the embedded members read:
`name` of the base class `chroot`, and its own `location`. -/
structure ChrootPlain where
  name : List Char
  location : List Char
  deriving DecidableEq, Repr

/-- The constructors `ChrootPlain::ChrootPlain`: the own field starts empty;
the field of the base class is given. -/
def ChrootPlain_new (name : List Char) : ChrootPlain :=
  { name := name, location := [] }

/-- The member `ChrootPlain::get_location`. -/
def ChrootPlain.get_location (c : ChrootPlain) : List Char :=
  c.location

/-- The member `ChrootPlain::set_location`. -/
def ChrootPlain.set_location (c : ChrootPlain) (location : List Char) : ChrootPlain :=
  { c with location := location }

/-- The member `ChrootPlain::get_keyfile`, after its call of
`chroot::get_keyfile`: the location is set under the key `location` of the
group named after the chroot. -/
def ChrootPlain.get_keyfile (c : ChrootPlain) (kf : keyfile) : keyfile :=
  kf.set_value_plain c.name "location".toList c.get_location

/-- The member `ChrootPlain::set_keyfile`, after its call of
`chroot::set_keyfile`: the key `location` is read with `PRIORITY_REQUIRED`
into an empty local string, and the location is set when the read returns
true.  The result is the object and the messages written. -/
def ChrootPlain.set_keyfile (c : ChrootPlain) (kf : keyfile) :
    ChrootPlain × List log_entry :=
  let r := kf.get_value_priority c.name "location".toList .PRIORITY_REQUIRED []
  let c1 := if r.status = true then c.set_location r.value else c
  (c1, r.log)

/-- The member `ChrootLvmSnapshot::get_keyfile`, after its call of
`ChrootBlockDevice::get_keyfile`: the snapshot device and the snapshot options
are set under their keys of the group named after the chroot. -/
def ChrootLvmSnapshot.get_keyfile (c : ChrootLvmSnapshot) (kf : keyfile) : keyfile :=
  let kf1 := kf.set_value_plain c.name "lvm-snapshot-device".toList c.get_snapshot_device
  kf1.set_value_plain c.name "lvm-snapshot-options".toList c.get_snapshot_options

/-- The member `ChrootLvmSnapshot::set_keyfile`, after its call of
`ChrootBlockDevice::set_keyfile`: the key `lvm-snapshot-device` is read with
`PRIORITY_REQUIRED` for an active chroot and `PRIORITY_DISALLOWED` otherwise,
the key `lvm-snapshot-options` with `PRIORITY_REQUIRED`, each into an empty
local string, and each field is set when its read returns true.  The result
is the object and the messages written. -/
def ChrootLvmSnapshot.set_keyfile (c : ChrootLvmSnapshot) (kf : keyfile) :
    ChrootLvmSnapshot × List log_entry :=
  let r1 := kf.get_value_priority c.name "lvm-snapshot-device".toList
    (if c.active = true then .PRIORITY_REQUIRED else .PRIORITY_DISALLOWED) []
  let c1 := if r1.status = true then c.set_snapshot_device r1.value else c
  let r2 := kf.get_value_priority c1.name "lvm-snapshot-options".toList
    .PRIORITY_REQUIRED []
  let c2 := if r2.status = true then c1.set_snapshot_options r2.value else c1
  (c2, r1.log ++ r2.log)

/-- The enumeration `Chroot::SetupType`. -/
inductive SetupType
  | SETUP_START
  | SETUP_STOP
  | RUN_START
  | RUN_STOP
  deriving DecidableEq, Repr

/-- The calls that `ChrootLvmSnapshot::setup_lock` makes. -/
inductive LockCall
  /-- The call `stat(device.c_str(), &statbuf)`. -/
  | stat (device : List Char)
  /-- The call `dlock.set_lock(Lock::LOCK_EXCLUSIVE, 15)` on the lock of the
  device. -/
  | set_lock (device : List Char)
  /-- The call `dlock.unset_lock()` on the lock of the device. -/
  | unset_lock (device : List Char)
  /-- The call `setup_session_info(start)`, which writes the session file
  when `start` is true and removes it otherwise. -/
  | setup_session_info (start : Bool)
  deriving DecidableEq, Repr

/-- The exceptions that leave `ChrootLvmSnapshot::setup_lock`. -/
inductive LockError
  /-- The message `%1% chroot: device name not set`. -/
  | device_not_set
  /-- The message `%1% chroot: failed to stat device %2%: %3%`. -/
  | stat_failed (device : List Char)
  /-- The message `%1% chroot: %2% is not a block device`. -/
  | not_block_device (device : List Char)
  /-- The message `%1%: failed to lock device: %2%`. -/
  | lock_failed (device : List Char)
  /-- The message `%1%: failed to unlock device: %2%`. -/
  | unlock_failed (device : List Char)
  /-- An exception thrown by `setup_session_info`. -/
  | session_info
  deriving DecidableEq, Repr

/-- The results of the calls that `ChrootLvmSnapshot::setup_lock` makes. -/
structure LockResults where
  /-- Whether `stat` returns -1. -/
  stat_fails : Bool
  /-- The value of `S_ISBLK(statbuf.st_mode)`. -/
  is_blk : Bool
  /-- Whether `set_lock` or `unset_lock` throws `Lock::error`. -/
  lock_fails : Bool
  /-- Whether `setup_session_info` throws. -/
  session_info_fails : Bool
  deriving DecidableEq, Repr

/-- A run of `ChrootLvmSnapshot::setup_lock`: the calls made, in order, and the
exception that left the member, if any. -/
structure LockRun where
  trace : List LockCall
  error : Option LockError
  deriving DecidableEq, Repr

/-- The last statement of `ChrootLvmSnapshot::setup_lock`, which creates or
unlinks the session information, after the calls in `trace`. -/
def setup_lock_session_info (type : SetupType) (lock : Bool) (r : LockResults)
    (trace : List LockCall) : LockRun :=
  if (type = .SETUP_START ∧ lock = true) ∨ (type = .SETUP_STOP ∧ lock = false) then
    let start : Bool := decide (type = .SETUP_START)
    { trace := trace ++ [.setup_session_info start],
      error := if r.session_info_fails = true then some .session_info else none }
  else
    { trace := trace, error := none }

/-- The member `ChrootLvmSnapshot::setup_lock`. -/
def ChrootLvmSnapshot.setup_lock (c : ChrootLvmSnapshot) (type : SetupType) (lock : Bool)
    (r : LockResults) : LockRun :=
  if ¬ (type = .SETUP_STOP ∧ lock = false) then
    let device := if type = .SETUP_START then c.device else c.get_snapshot_device
    if device = [] then
      { trace := [], error := some .device_not_set }
    else if r.stat_fails = true then
      { trace := [.stat device], error := some (.stat_failed device) }
    else if r.is_blk = false then
      { trace := [.stat device], error := some (.not_block_device device) }
    else if (type = .RUN_START ∧ lock = false) ∨ (type = .RUN_STOP ∧ lock = true) then
      { trace := [.stat device], error := none }
    else if lock = true then
      if r.lock_fails = true then
        { trace := [.stat device, .set_lock device], error := some (.lock_failed device) }
      else
        setup_lock_session_info type lock r [.stat device, .set_lock device]
    else
      if r.lock_fails = true then
        { trace := [.stat device, .unset_lock device],
          error := some (.unlock_failed device) }
      else
        setup_lock_session_info type lock r [.stat device, .unset_lock device]
  else
    setup_lock_session_info type lock r []

/-- Whether a call acquires or releases a device lock. -/
def LockCall.is_lock_operation : LockCall → Bool
  | .set_lock _ => true
  | .unset_lock _ => true
  | _ => false

/-- Whether a call is a `stat` of a device. -/
def LockCall.is_stat : LockCall → Bool
  | .stat _ => true
  | _ => false

/-- The results with which every call of `setup_lock` succeeds on a block
device. -/
def lock_results_ok : LockResults :=
  { stat_fails := false, is_blk := true, lock_fails := false, session_info_fails := false }

/-- An active LVM snapshot chroot with its snapshot device set. -/
def example_lvm_active : ChrootLvmSnapshot :=
  { name := "unstable-session".toList, active := true, device := "/dev/vg/unstable".toList,
    snapshot_device := "/dev/vg/snap".toList, snapshot_options := "-L,1G".toList }

/-- A keyfile whose group `unstable` holds the keys `lvm-snapshot-device` and
`lvm-snapshot-options`. -/
def example_keyfile_lvm : keyfile :=
  { groups :=
      [("unstable".toList,
        { name := "unstable".toList,
          items :=
            [("lvm-snapshot-device".toList,
              { key := "lvm-snapshot-device".toList, value := "/dev/vg/snap".toList,
                comment := [] }),
             ("lvm-snapshot-options".toList,
              { key := "lvm-snapshot-options".toList, value := "-L,1G".toList,
                comment := [] })],
          comment := [] })],
    separator := ',' }

/-- A plain chroot with its location set. -/
def example_plain : ChrootPlain :=
  { name := "sid".toList, location := "/srv/chroot/sid".toList }

/-! ## Loading and validating the configuration (`sbuild-config.c`) -/

/-- The function `sbuild_config_validate_chroots`, first loop: the names that
`sbuild_config_find_alias` does not find are appended to `invalid_list`. -/
def validate_chroots_loop (config : SbuildConfig) :
    List String → List String → List String
  | [], invalid_list => invalid_list
  | name :: rest, invalid_list =>
    match sbuild_config_find_alias config name with
    | none => validate_chroots_loop config rest (invalid_list ++ [name])
    | some _ => validate_chroots_loop config rest invalid_list

/-- The function `sbuild_config_validate_chroots`: `NULL` when `invalid_list`
is empty, otherwise a vector with a copy of each of its strings. -/
def sbuild_config_validate_chroots (config : SbuildConfig) (chroots : List String) :
    Option (List String) :=
  let invalid_list := validate_chroots_loop config chroots []
  if invalid_list ≠ [] then some invalid_list else none

/-- The fields of `struct stat` that the configuration code reads. -/
structure StatBuf where
  st_uid : Nat
  st_mode : Nat
  deriving DecidableEq, Repr

/-- The mode bit `S_IWOTH` (octal 2) of a file mode. -/
def S_IWOTH_set (mode : Nat) : Bool := (mode / 2) % 2 == 1

/-- The macro `S_ISREG`: the file type bits `S_IFMT` (octal 170000) are
`S_IFREG` (octal 100000). -/
def S_ISREG (mode : Nat) : Bool := (mode / 4096) % 16 == 8

/-- The error codes of `SBUILD_CONFIG_FILE_ERROR` that
`sbuild_config_check_security` sets. -/
inductive SbuildConfigFileError
  | SBUILD_CONFIG_FILE_ERROR_STAT_FAIL
  | SBUILD_CONFIG_FILE_ERROR_OWNERSHIP
  | SBUILD_CONFIG_FILE_ERROR_PERMISSIONS
  | SBUILD_CONFIG_FILE_ERROR_NOT_REGULAR
  deriving DecidableEq, Repr

/-- The function `sbuild_config_check_security`, from the result of `fstat`
(`none` when it fails): the error on `FALSE`, nothing on `TRUE`. -/
def sbuild_config_check_security (fstat_result : Option StatBuf) :
    Except SbuildConfigFileError Unit :=
  match fstat_result with
  | none => .error .SBUILD_CONFIG_FILE_ERROR_STAT_FAIL
  | some statbuf =>
    if statbuf.st_uid ≠ 0 then .error .SBUILD_CONFIG_FILE_ERROR_OWNERSHIP
    else if S_IWOTH_set statbuf.st_mode = true then
      .error .SBUILD_CONFIG_FILE_ERROR_PERMISSIONS
    else if S_ISREG statbuf.st_mode = false then
      .error .SBUILD_CONFIG_FILE_ERROR_NOT_REGULAR
    else .ok ()

/-- The results of the calls that `sbuild_config_load` makes for one file. -/
structure LoadResults where
  /-- Whether `open` returns a negative descriptor. -/
  open_fails : Bool
  /-- Whether `sbuild_lock_set_lock` sets an error. -/
  lock_fails : Bool
  /-- The result of `fstat` on the descriptor. -/
  fstat_result : Option StatBuf
  /-- Whether `g_io_channel_read_to_end` sets an error. -/
  read_fails : Bool
  /-- Whether `sbuild_lock_unset_lock` sets an error. -/
  unlock_fails : Bool
  /-- Whether `g_io_channel_shutdown` sets an error. -/
  close_fails : Bool
  /-- Whether `g_key_file_load_from_data` sets an error. -/
  parse_fails : Bool
  /-- For each group that `g_key_file_get_groups` lists, in order, the result
  of `sbuild_chroot_new_from_keyfile` for it, which may be `NULL`. -/
  groups : List (Option SbuildChroot)
  deriving DecidableEq, Repr

/-- The failures on which `sbuild_config_load` and
`sbuild_config_add_config_directory` print a message and call
`exit (EXIT_FAILURE)`. -/
inductive LoadFailure
  /-- The message `%s: failed to load configuration: %s`. -/
  | load_failed
  /-- The message `%s: lock acquisition failure: %s`. -/
  | lock_acquisition
  /-- The message `%s: security failure: %s`. -/
  | security (error : SbuildConfigFileError)
  /-- The message `%s: read failure: %s`. -/
  | read
  /-- The message `%s: lock discard failure: %s`. -/
  | lock_discard
  /-- The message `%s: close failure: %s`. -/
  | close
  /-- The message `%s: parse failure: %s`. -/
  | parse
  /-- The message `%s: failed to open directory: %s`. -/
  | open_directory
  deriving DecidableEq, Repr

/-- The chroot list after a call, and the failure with which the process
exited, if it did. -/
structure LoadRun where
  list : List SbuildChroot
  exit : Option LoadFailure
  deriving DecidableEq, Repr

/-- The last loop of `sbuild_config_load`: every chroot made from a group is
appended to the list. -/
def load_groups : List (Option SbuildChroot) → List SbuildChroot → List SbuildChroot
  | [], list => list
  | some chroot :: rest, list => load_groups rest (list ++ [chroot])
  | none :: rest, list => load_groups rest list

/-- The function `sbuild_config_load`. -/
def sbuild_config_load (r : LoadResults) (list : List SbuildChroot) : LoadRun :=
  if r.open_fails = true then { list := list, exit := some .load_failed }
  else if r.lock_fails = true then { list := list, exit := some .lock_acquisition }
  else
    match sbuild_config_check_security r.fstat_result with
    | .error e => { list := list, exit := some (.security e) }
    | .ok _ =>
      if r.read_fails = true then { list := list, exit := some .read }
      else if r.unlock_fails = true then { list := list, exit := some .lock_discard }
      else if r.close_fails = true then { list := list, exit := some .close }
      else if r.parse_fails = true then { list := list, exit := some .parse }
      else { list := load_groups r.groups list, exit := none }

/-- A configuration after a call, and the failure with which the process
exited, if it did. -/
structure ConfigRun where
  config : SbuildConfig
  exit : Option LoadFailure
  deriving DecidableEq, Repr

/-- The function `sbuild_config_add_config_file`: nothing is done for a
`NULL` or empty file name; otherwise the file is loaded into the list of the
configuration. -/
def sbuild_config_add_config_file (config : SbuildConfig) (file : Option String)
    (r : LoadResults) : ConfigRun :=
  match file with
  | none => { config := config, exit := none }
  | some f =>
    if f.length = 0 then { config := config, exit := none }
    else
      let run := sbuild_config_load r config.chroots
      { config := { chroots := run.list }, exit := run.exit }

/-- One entry that `readdir` gives, with the result of `stat` on the file
name made from it (`none` when `stat` fails) and the results of the calls
made if it is loaded. -/
structure DirEntry where
  d_name : String
  stat_result : Option StatBuf
  load : LoadResults
  deriving DecidableEq, Repr

/-- The loop of `sbuild_config_add_config_directory` over the entries of the
directory: an entry is skipped when `stat` fails or when it is not a regular
file, and loaded otherwise. -/
def add_config_directory_loop : List DirEntry → List SbuildChroot → LoadRun
  | [], list => { list := list, exit := none }
  | de :: rest, list =>
    match de.stat_result with
    | none => add_config_directory_loop rest list
    | some statbuf =>
      if S_ISREG statbuf.st_mode = false then add_config_directory_loop rest list
      else
        let run := sbuild_config_load de.load list
        match run.exit with
        | some e => { list := run.list, exit := some e }
        | none => add_config_directory_loop rest run.list

/-- The function `sbuild_config_add_config_directory`: nothing is done for a
`NULL` or empty directory name; the process exits when `opendir` fails;
otherwise the loop runs over the entries that `readdir` gives. -/
def sbuild_config_add_config_directory (config : SbuildConfig) (dir : Option String)
    (opendir_fails : Bool) (entries : List DirEntry) : ConfigRun :=
  match dir with
  | none => { config := config, exit := none }
  | some d =>
    if d.length = 0 then { config := config, exit := none }
    else if opendir_fails = true then { config := config, exit := some .open_directory }
    else
      let run := add_config_directory_loop entries config.chroots
      { config := { chroots := run.list }, exit := run.exit }

/-- One call of `sbuild_config_add_config_file` or of
`sbuild_config_add_config_directory`, with the results of its calls. -/
inductive ConfigCall
  | add_config_file (file : Option String) (r : LoadResults)
  | add_config_directory (dir : Option String) (opendir_fails : Bool)
      (entries : List DirEntry)
  deriving DecidableEq, Repr

/-- A sequence of calls on a configuration, up to the first one on which the
process exits. -/
def run_config_calls : List ConfigCall → SbuildConfig → ConfigRun
  | [], config => { config := config, exit := none }
  | call :: rest, config =>
    let run :=
      match call with
      | .add_config_file file r => sbuild_config_add_config_file config file r
      | .add_config_directory dir opendir_fails entries =>
        sbuild_config_add_config_directory config dir opendir_fails entries
    match run.exit with
    | some e => { config := run.config, exit := some e }
    | none => run_config_calls rest run.config

/-- The configuration made by `sbuild_config_init`: no chroots. -/
def sbuild_config_init : SbuildConfig := { chroots := [] }

/-- The names and aliases of the chroots of a configuration, in the order of
`sbuild_config_get_chroot_list_foreach`: for each chroot with a name, the
name and then its aliases. -/
def chroot_names (config : SbuildConfig) : List String :=
  config.chroots.flatMap
    (fun c => match c.name with
      | none => []
      | some n => n :: c.aliases.getD [])

/-- A chroot without a name, as `sbuild_chroot_new` makes it. -/
def example_chroot_unnamed : SbuildChroot := sbuild_chroot_new

/-- A configuration whose first chroot has no name and whose second chroot is
`example_chroot`. -/
def example_config_unnamed : SbuildConfig :=
  { chroots := [example_chroot_unnamed, example_chroot] }

/-- A root-owned regular file of mode 0644. -/
def stat_root_0644 : StatBuf := { st_uid := 0, st_mode := 0o100644 }

/-- A root-owned regular file of mode 0666. -/
def stat_root_0666 : StatBuf := { st_uid := 0, st_mode := 0o100666 }

/-- The results for a file that passes every check and holds one group, from
which `example_chroot` is made. -/
def load_results_ok : LoadResults :=
  { open_fails := false, lock_fails := false, fstat_result := some stat_root_0644,
    read_fails := false, unlock_fails := false, close_fails := false,
    parse_fails := false, groups := [some example_chroot] }

/-- The chroots that a load of a file makes from its groups, in order. -/
def LoadResults.chroots (r : LoadResults) : List SbuildChroot :=
  r.groups.filterMap id

/-- Whether `sbuild_config_add_config_directory` loads an entry: `stat`
succeeds and shows a regular file. -/
def DirEntry.is_loaded (de : DirEntry) : Bool :=
  match de.stat_result with
  | none => false
  | some statbuf => S_ISREG statbuf.st_mode

/-- The chroots made from the groups of the files that a call loads, in load
order. -/
def ConfigCall.chroots : ConfigCall → List SbuildChroot
  | .add_config_file none _ => []
  | .add_config_file (some f) r => if f.length = 0 then [] else r.chroots
  | .add_config_directory none _ _ => []
  | .add_config_directory (some d) _ entries =>
    if d.length = 0 then []
    else (entries.filter DirEntry.is_loaded).flatMap (fun de => de.load.chroots)

/-- Results by iteration: in iteration 0 everything succeeds and the child
exits with status 0; in the later ones the start-phase setup scripts fail. -/
def results_second_start_fails (x : Nat) : ChrootResults :=
  if x = 0 then results_success else results_start_fails

/-- The names that `operator >>` can give to groups and keys, and the values
it can give: a group name holds no `]` and no newline; a key is not empty,
starts with neither `#` nor `[`, and holds no `=` and no newline; a value
holds no newline. -/
def keyfile_printable (kf : keyfile) : Prop :=
  ∀ p ∈ kf.groups, ']' ∉ p.1 ∧ '\n' ∉ p.1 ∧
    ∀ q ∈ p.2.items, q.1 ≠ [] ∧ q.1.head? ≠ some '#' ∧ q.1.head? ≠ some '[' ∧
      '=' ∉ q.1 ∧ '\n' ∉ q.1 ∧ '\n' ∉ q.2.value

/-- Every group comment and every item comment of the keyfile is empty. -/
@[reducible] def keyfile_without_comments (kf : keyfile) : Prop :=
  ∀ p ∈ kf.groups, p.2.comment = [] ∧ ∀ q ∈ p.2.items, q.2.comment = []

/-- The lines that `operator <<` writes for a group without comments: the
header, then one line for each item. -/
def group_type.lines (group : group_type) : List (List Char) :=
  ('[' :: group.name ++ [']']) :: group.items.map (fun it => it.2.key ++ '=' :: it.2.value)

/-- The lines that `operator <<` writes for a keyfile without comments: the
lines of each group, with an empty line before every group but the first. -/
def keyfile.lines (kf : keyfile) : List (List Char) :=
  match kf.groups with
  | [] => []
  | p :: rest => p.2.lines ++ rest.flatMap (fun q => [] :: q.2.lines)

/-- The text made of the given lines, each ended by a newline. -/
def unlines (lines : List (List Char)) : List Char :=
  (lines.map (fun l => l ++ ['\n'])).flatten

/-- The keyfile with the group of the empty name holding the key `k`, and the
group `g` holding the key `a` with the value ` x=y `. -/
def example_keyfile_two_groups : keyfile :=
  { groups :=
      [([],
        { name := [],
          items := [("k".toList, { key := "k".toList, value := "v".toList, comment := [] })],
          comment := [] }),
       ("g".toList,
        { name := "g".toList,
          items := [("a".toList, { key := "a".toList, value := " x=y ".toList, comment := [] })],
          comment := [] })],
    separator := ',' }

/-- A chroot open to the group `admin`, and as root to the group `wheel`,
which `example_db` does not know. -/
def example_chroot_wheel : SbuildChroot :=
  { name := some "lenny", description := none, location := some "/srv/lenny",
    groups := some ["admin"], root_groups := some ["wheel"], aliases := none }

/-- A configuration holding the chroot `etch` and the chroot `lenny`, whose
root group is unknown. -/
def example_config_wheel : SbuildConfig :=
  { chroots := [example_chroot_admin, example_chroot_wheel] }

/-- A chroot named `etch` that has `sid` among its aliases. -/
def example_chroot_alias_sid : SbuildChroot :=
  { name := some "etch", description := none, location := some "/srv/etch",
    groups := some ["admin"], root_groups := none, aliases := some ["stable", "sid"] }

/-- A configuration in which the alias `sid` of the first chroot comes before
the chroot named `sid`. -/
def example_config_alias_first : SbuildConfig :=
  { chroots := [example_chroot_alias_sid, example_chroot] }

/-! # Theorems -/

/-! ## Theorems: authorisation -/

theorem member_fold_eq (gid : Nat) (supp : List Nat) (acc : Bool) :
    supp.foldl (fun group_member g => if gid = g then true else group_member) acc
      = (acc || decide (gid ∈ supp)) := by
  induction supp generalizing acc with
  | nil => simp
  | cons g rest ih =>
    simp only [List.foldl_cons, ih]
    by_cases h : gid = g
    · simp [h]
    · simp [h]

theorem is_group_member_of_lookups (db : GroupDb) (g : String) (gid : Nat)
    (supp : List Nat) (hs : db.getgroups = some supp) (hne : supp ≠ [])
    (hg : db.getgrnam g = some gid) :
    is_group_member db g = some (decide (gid ∈ supp)) := by
  have hlen : ¬ supp.length < 1 := by
    cases supp with
    | nil => exact absurd rfl hne
    | cons a l => simp
  simp only [is_group_member, hg, hs]
  rw [if_neg hlen, member_fold_eq]
  simp

theorem in_group_list_spec (db : GroupDb) (groups : List String)
    (h : LookupsSucceed db groups) (acc : Bool) :
    ∃ b, in_group_list db groups acc = some b ∧
      (b = true ↔ (acc = true ∨ InSomeGroup db groups)) := by
  obtain ⟨⟨supp, hs, hne⟩, hall⟩ := h
  induction groups generalizing acc with
  | nil =>
    refine ⟨acc, rfl, ?_⟩
    simp [InSomeGroup]
  | cons g rest ih =>
    obtain ⟨gid, hg⟩ := hall g (List.mem_cons_self g rest)
    have hrest : ∀ x ∈ rest, ∃ gid, db.getgrnam x = some gid :=
      fun x hx => hall x (List.mem_cons_of_mem g hx)
    obtain ⟨b, hb, hiff⟩ := ih (if decide (gid ∈ supp) = true then true else acc) hrest
    refine ⟨b, ?_, ?_⟩
    · simp only [in_group_list, is_group_member_of_lookups db g gid supp hs hne hg]
      exact hb
    · rw [hiff]
      have hmem : IsGroupMember db g ↔ gid ∈ supp := by
        constructor
        · rintro ⟨gid1, supp1, h1, h2, h3⟩
          rw [hg] at h1
          rw [hs] at h2
          cases h1
          cases h2
          exact h3
        · intro hm
          exact ⟨gid, supp, hg, hs, hm⟩
      constructor
      · rintro (h1 | ⟨x, hx, hxm⟩)
        · by_cases hm : gid ∈ supp
          · exact Or.inr ⟨g, List.mem_cons_self g rest, hmem.mpr hm⟩
          · simp [hm] at h1
            exact Or.inl h1
        · exact Or.inr ⟨x, List.mem_cons_of_mem g hx, hxm⟩
      · rintro (h1 | ⟨x, hx, hxm⟩)
        · left
          simp [h1]
        · rcases List.mem_cons.mp hx with hxg | hxr
          · left
            subst hxg
            simp [hmem.mp hxm]
          · exact Or.inr ⟨x, hxr, hxm⟩

theorem lookups_succeed_left (db : GroupDb) (a b : List String)
    (h : LookupsSucceed db (a ++ b)) : LookupsSucceed db a :=
  ⟨h.1, fun g hg => h.2 g (List.mem_append_left b hg)⟩

theorem lookups_succeed_right (db : GroupDb) (a b : List String)
    (h : LookupsSucceed db (a ++ b)) : LookupsSucceed db b :=
  ⟨h.1, fun g hg => h.2 g (List.mem_append_right a hg)⟩

/-- The outcome for a chroot with a groups list, in terms of the two
memberships, when every group lookup succeeds. -/
theorem chroot_auth_status_cases (db : GroupDb) (auth : SbuildAuth) (c : SbuildChroot)
    (gs : List String) (hg : c.groups = some gs)
    (hl : LookupsSucceed db (gs ++ c.root_groups.getD [])) :
    ∃ s, chroot_auth_status db auth (some c) = some s ∧
      (s = SbuildAuthStatus.FAIL ↔ ¬ InSomeGroup db gs) ∧
      (s = SbuildAuthStatus.NONE ↔ InSomeGroup db gs ∧
        (auth.uid = auth.ruid ∨
          (auth.uid = 0 ∧ InSomeGroup db (c.root_groups.getD [])))) := by
  obtain ⟨b, hb, hbiff⟩ := in_group_list_spec db gs (lookups_succeed_left db _ _ hl) false
  obtain ⟨r, hr, hriff⟩ :=
    in_group_list_spec db (c.root_groups.getD []) (lookups_succeed_right db _ _ hl) false
  have hroot : (match c.root_groups with
      | some rgs => in_group_list db rgs false
      | none => some false) = some r := by
    cases hc : c.root_groups with
    | none =>
      rw [hc] at hr
      simpa [in_group_list] using hr
    | some rgs =>
      rw [hc] at hr
      simpa using hr
  simp only [Bool.false_eq_true, false_or] at hbiff hriff
  simp only [chroot_auth_status, Option.bind, hg, hb, hroot]
  by_cases h1 : b = true
  · have hin : InSomeGroup db gs := hbiff.mp h1
    by_cases h2 : (auth.uid = 0 ∧ r = true) ∨ auth.ruid = auth.uid
    · refine ⟨.NONE, by simp [h1, h2], by simp [hin], ?_⟩
      simp only [true_iff]
      refine ⟨hin, ?_⟩
      rcases h2 with ⟨hu, hr1⟩ | he
      · exact Or.inr ⟨hu, hriff.mp hr1⟩
      · exact Or.inl he.symm
    · refine ⟨.USER, by simp [h1, h2], by simp [hin], ?_⟩
      simp only [false_iff, reduceCtorEq]
      rintro ⟨_, he | ⟨hu, hrr⟩⟩
      · exact h2 (Or.inr he.symm)
      · exact h2 (Or.inl ⟨hu, hriff.mpr hrr⟩)
  · have hin : ¬ InSomeGroup db gs := fun h => h1 (hbiff.mpr h)
    refine ⟨.FAIL, by simp [h1], by simp [hin], ?_⟩
    simp [hin]

/-- The lookups of `is_group_member` that end the process: the group is not
found, `getgroups` fails, or it reports no group. -/
theorem is_group_member_eq_none_iff (db : GroupDb) (g : String) :
    is_group_member db g = none ↔
      db.getgrnam g = none ∨ db.getgroups = none ∨ db.getgroups = some [] := by
  unfold is_group_member
  cases hg : db.getgrnam g with
  | none => simp
  | some gid =>
    cases hs : db.getgroups with
    | none => simp
    | some supp =>
      cases supp with
      | nil => simp
      | cons a l => simp

theorem in_group_list_none_iff (db : GroupDb) (groups : List String) :
    ∀ acc, in_group_list db groups acc = none ↔ ∃ g ∈ groups, is_group_member db g = none := by
  induction groups with
  | nil =>
    intro acc
    simp [in_group_list]
  | cons g rest ih =>
    intro acc
    unfold in_group_list
    cases hm : is_group_member db g with
    | none =>
      simp only [true_iff]
      exact ⟨g, List.mem_cons_self _ _, hm⟩
    | some m =>
      simp only
      rw [ih]
      constructor
      · rintro ⟨x, hx, hxm⟩
        exact ⟨x, List.mem_cons_of_mem _ hx, hxm⟩
      · rintro ⟨x, hx, hxm⟩
        rcases List.mem_cons.mp hx with h | h
        · rw [h, hm] at hxm
          cases hxm
        · exact ⟨x, h, hxm⟩

theorem lookups_succeed_of_no_failure (db : GroupDb) (groups : List String)
    (hne : groups ≠ []) (h : ∀ g ∈ groups, is_group_member db g ≠ none) :
    LookupsSucceed db groups := by
  have hall : ∀ g ∈ groups,
      db.getgrnam g ≠ none ∧ db.getgroups ≠ none ∧ db.getgroups ≠ some [] := by
    intro g hg
    have := h g hg
    rw [ne_eq, is_group_member_eq_none_iff] at this
    simp only [not_or] at this
    exact this
  constructor
  · cases groups with
    | nil => exact absurd rfl hne
    | cons g rest =>
      obtain ⟨-, h2, h3⟩ := hall g (List.mem_cons_self _ _)
      cases hs : db.getgroups with
      | none => exact absurd hs h2
      | some supp =>
        refine ⟨supp, rfl, ?_⟩
        intro e
        rw [e] at hs
        exact h3 hs
  · intro g hg
    obtain ⟨h1, -, -⟩ := hall g hg
    cases hx : db.getgrnam g with
    | none => exact absurd hx h1
    | some gid => exact ⟨gid, rfl⟩

theorem in_group_list_spec_no_failure (db : GroupDb) (groups : List String)
    (h : ∀ g ∈ groups, is_group_member db g ≠ none) (acc : Bool) :
    ∃ b, in_group_list db groups acc = some b ∧
      (b = true ↔ (acc = true ∨ InSomeGroup db groups)) := by
  by_cases hne : groups = []
  · subst hne
    refine ⟨acc, rfl, ?_⟩
    simp [InSomeGroup]
  · exact in_group_list_spec db groups (lookups_succeed_of_no_failure db groups hne h) acc

/-- The outcome for a chroot with a groups list, in terms of the two
memberships, when no group lookup fails. -/
theorem chroot_auth_status_cases_no_failure (db : GroupDb) (auth : SbuildAuth)
    (c : SbuildChroot) (gs : List String) (hg : c.groups = some gs)
    (hno : ∀ g ∈ gs ++ c.root_groups.getD [], is_group_member db g ≠ none) :
    ∃ s, chroot_auth_status db auth (some c) = some s ∧
      (s = SbuildAuthStatus.FAIL ↔ ¬ InSomeGroup db gs) ∧
      (s = SbuildAuthStatus.NONE ↔ InSomeGroup db gs ∧
        (auth.uid = auth.ruid ∨
          (auth.uid = 0 ∧ InSomeGroup db (c.root_groups.getD [])))) := by
  obtain ⟨b, hb, hbiff⟩ := in_group_list_spec_no_failure db gs
    (fun g hgm => hno g (List.mem_append_left _ hgm)) false
  obtain ⟨r, hr, hriff⟩ := in_group_list_spec_no_failure db (c.root_groups.getD [])
    (fun g hgm => hno g (List.mem_append_right _ hgm)) false
  have hroot : (match c.root_groups with
      | some rgs => in_group_list db rgs false
      | none => some false) = some r := by
    cases hc : c.root_groups with
    | none =>
      rw [hc] at hr
      simpa [in_group_list] using hr
    | some rgs =>
      rw [hc] at hr
      simpa using hr
  simp only [Bool.false_eq_true, false_or] at hbiff hriff
  simp only [chroot_auth_status, Option.bind, hg, hb, hroot]
  by_cases h1 : b = true
  · have hin : InSomeGroup db gs := hbiff.mp h1
    by_cases h2 : (auth.uid = 0 ∧ r = true) ∨ auth.ruid = auth.uid
    · refine ⟨.NONE, by simp [h1, h2], by simp [hin], ?_⟩
      simp only [true_iff]
      refine ⟨hin, ?_⟩
      rcases h2 with ⟨hu, hr1⟩ | he
      · exact Or.inr ⟨hu, hriff.mp hr1⟩
      · exact Or.inl he.symm
    · refine ⟨.USER, by simp [h1, h2], by simp [hin], ?_⟩
      simp only [false_iff, reduceCtorEq]
      rintro ⟨_, he | ⟨hu, hrr⟩⟩
      · exact h2 (Or.inr he.symm)
      · exact h2 (Or.inl ⟨hu, hriff.mpr hrr⟩)
  · have hin : ¬ InSomeGroup db gs := fun h => h1 (hbiff.mpr h)
    refine ⟨.FAIL, by simp [h1], by simp [hin], ?_⟩
    simp [hin]

/-- For a chroot with a groups list no outcome is computed, the process having
exited, exactly when a lookup fails for a group of `groups` or of
`root_groups`. -/
theorem chroot_auth_status_none_iff (db : GroupDb) (auth : SbuildAuth)
    (c : SbuildChroot) (gs : List String) (hg : c.groups = some gs) :
    chroot_auth_status db auth (some c) = none ↔
      ∃ g ∈ gs ++ c.root_groups.getD [], is_group_member db g = none := by
  constructor
  · intro hnone
    by_contra hex
    have hno : ∀ g ∈ gs ++ c.root_groups.getD [], is_group_member db g ≠ none :=
      fun g hgm hx => hex ⟨g, hgm, hx⟩
    obtain ⟨s, hs, -, -⟩ := chroot_auth_status_cases_no_failure db auth c gs hg hno
    rw [hs] at hnone
    cases hnone
  · rintro ⟨g, hgm, hx⟩
    simp only [chroot_auth_status, Option.bind, hg]
    cases hb : in_group_list db gs false with
    | none => rfl
    | some b =>
      have hgs : ¬ ∃ x ∈ gs, is_group_member db x = none := by
        rw [← in_group_list_none_iff db gs false, hb]
        simp
      have hgr : g ∈ c.root_groups.getD [] := by
        rcases List.mem_append.mp hgm with h | h
        · exact absurd ⟨g, h, hx⟩ hgs
        · exact h
      cases hc : c.root_groups with
      | none =>
        rw [hc] at hgr
        cases hgr
      | some rgs =>
        rw [hc] at hgr
        have hr : in_group_list db rgs false = none :=
          (in_group_list_none_iff db rgs false).mpr ⟨g, hgr, hx⟩
        simp only [hr]

/-- C1 (counterexample). The caller is a member of the group `admin` of
`groups` and asks for their own uid, for which the decision table has `NONE`; the
group `wheel` of `root_groups` is not known, so `is_group_member` ends the
process and no outcome is computed. -/
theorem unknown_root_group_ends_the_process :
    example_chroot_wheel.groups = some ["admin"] ∧
    example_chroot_wheel.root_groups = some ["wheel"] ∧
    is_group_member example_db "admin" = some true ∧
    example_auth_user.uid = example_auth_user.ruid ∧
    example_db.getgrnam "wheel" = none ∧
    is_group_member example_db "wheel" = none ∧
    chroot_auth_status example_db example_auth_user (some example_chroot_wheel) = none ∧
    chroot_auth_status example_db example_auth_user (some example_chroot_wheel)
      ≠ some SbuildAuthStatus.NONE := by
  decide

/-- C1 (amended). For one chroot with a non-null groups list, when no group
lookup of `is_group_member` fails for a group of `groups` or of `root_groups`,
the outcome computed by `sbuild_session_require_auth` for the chroot is `FAIL`
when the caller is a member of none of `groups`, `NONE` when the caller is in
`groups` and either `uid == ruid` or `uid == 0` with the caller in
`root_groups`, and `USER` in every remaining case.  When such a lookup fails
(the group is not found, or `getgroups` fails or reports no group),
`is_group_member` ends the process and no outcome is computed. -/
theorem chroot_auth_status_decision_table (db : GroupDb) (auth : SbuildAuth)
    (c : SbuildChroot) (gs : List String) (hg : c.groups = some gs) :
    ((∀ g ∈ gs ++ c.root_groups.getD [], is_group_member db g ≠ none) →
      (¬ InSomeGroup db gs →
        chroot_auth_status db auth (some c) = some SbuildAuthStatus.FAIL) ∧
      (InSomeGroup db gs →
        (auth.uid = auth.ruid ∨ (auth.uid = 0 ∧ InSomeGroup db (c.root_groups.getD []))) →
        chroot_auth_status db auth (some c) = some SbuildAuthStatus.NONE) ∧
      (InSomeGroup db gs → auth.uid ≠ auth.ruid →
        (auth.uid ≠ 0 ∨ ¬ InSomeGroup db (c.root_groups.getD [])) →
        chroot_auth_status db auth (some c) = some SbuildAuthStatus.USER)) ∧
    ((∃ g ∈ gs ++ c.root_groups.getD [], is_group_member db g = none) →
      chroot_auth_status db auth (some c) = none) ∧
    (∀ g, is_group_member db g = none ↔
      db.getgrnam g = none ∨ db.getgroups = none ∨ db.getgroups = some []) := by
  refine ⟨?_, (chroot_auth_status_none_iff db auth c gs hg).mpr,
    is_group_member_eq_none_iff db⟩
  intro hno
  obtain ⟨s, hs, hfail, hnone⟩ := chroot_auth_status_cases_no_failure db auth c gs hg hno
  refine ⟨?_, ?_, ?_⟩
  · intro hn
    rw [hs, hfail.mpr hn]
  · intro hin hcond
    rw [hs, hnone.mpr ⟨hin, hcond⟩]
  · intro hin hne hcond
    rw [hs]
    cases s with
    | FAIL => exact absurd hin (hfail.mp rfl)
    | USER => rfl
    | NONE =>
      obtain ⟨_, h | ⟨h0, hr⟩⟩ := hnone.mp rfl
      · exact absurd h hne
      · rcases hcond with h1 | h1
        · exact absurd h0 h1
        · exact absurd hr h1

/-- C1 (amended, witness). The chroot open to `admin` only, for a caller in
`admin` who asks for uid 0 with real uid 1000: no lookup fails and the outcome
is `USER`. -/
theorem chroot_auth_status_decision_table_witness :
    example_chroot_admin.groups = some ["admin"] ∧
    (∀ g ∈ ["admin"] ++ example_chroot_admin.root_groups.getD [],
      is_group_member example_db g ≠ none) ∧
    chroot_auth_status example_db example_auth (some example_chroot_admin)
      = some SbuildAuthStatus.USER :=
  ⟨rfl, by decide,
    ((chroot_auth_status_decision_table example_db example_auth example_chroot_admin
      ["admin"] rfl).1 (by decide)).2.2
      ⟨"admin", by simp, 50, [50, 7], by decide, rfl, by simp⟩
      (by decide)
      (Or.inr (by
        rintro ⟨g, hg, _⟩
        simp [example_chroot_admin] at hg))⟩

/-- C4 (counterexample). A caller who is a member of the group `admin` of
`root_groups` and of no group of `groups` gets `FAIL` for the chroot. -/
theorem root_groups_member_alone_is_rejected :
    example_chroot.groups = some ["sbuild"] ∧
    example_chroot.root_groups = some ["admin"] ∧
    InSomeGroup example_db ["admin"] ∧
    ¬ InSomeGroup example_db ["sbuild"] ∧
    chroot_auth_status example_db example_auth (some example_chroot)
      = some SbuildAuthStatus.FAIL := by
  refine ⟨rfl, rfl, ⟨"admin", by simp, 50, [50, 7], by decide, rfl, by simp⟩, ?_, by decide⟩
  rintro ⟨g, hg, gid, supp, h1, h2, h3⟩
  have hgs : g = "sbuild" := by simpa using hg
  subst hgs
  have e1 : gid = 100 := by
    have : example_db.getgrnam "sbuild" = some 100 := by decide
    rw [this] at h1
    exact (Option.some.inj h1).symm
  have e2 : supp = [50, 7] := (Option.some.inj h2).symm
  subst e1 e2
  simp at h3

/-- C4 (amended). Membership of `groups` alone decides who may open a chroot:
for a chroot with a groups list, when no group lookup of `is_group_member`
fails for a group of `groups` or of `root_groups`, an outcome is computed and
it differs from `FAIL` exactly when the caller is a member of some group of
`groups`; a caller who is in `root_groups` only, or in neither list, gets
`FAIL`.  When such a lookup fails, `is_group_member` ends the process and no
outcome is computed. -/
theorem groups_alone_decide_access (db : GroupDb) (auth : SbuildAuth)
    (c : SbuildChroot) (gs : List String) (hg : c.groups = some gs) :
    ((∀ g ∈ gs ++ c.root_groups.getD [], is_group_member db g ≠ none) →
      (∃ s, chroot_auth_status db auth (some c) = some s) ∧
      (chroot_auth_status db auth (some c) ≠ some SbuildAuthStatus.FAIL
        ↔ InSomeGroup db gs) ∧
      (¬ InSomeGroup db gs →
        chroot_auth_status db auth (some c) = some SbuildAuthStatus.FAIL)) ∧
    ((∃ g ∈ gs ++ c.root_groups.getD [], is_group_member db g = none) →
      chroot_auth_status db auth (some c) = none) := by
  refine ⟨?_, (chroot_auth_status_none_iff db auth c gs hg).mpr⟩
  intro hno
  obtain ⟨s, hs, hfail, -⟩ := chroot_auth_status_cases_no_failure db auth c gs hg hno
  refine ⟨⟨s, hs⟩, ?_, ?_⟩
  · rw [hs]
    constructor
    · intro hne
      by_contra hin
      exact hne (by rw [hfail.mpr hin])
    · intro hin heq
      exact hfail.mp (Option.some.inj heq) hin
  · intro hn
    rw [hs, hfail.mpr hn]

/-- C4 (amended, witness). The chroot open to `admin` only, for a caller in
`admin`: no lookup fails and the outcome is not `FAIL`. -/
theorem groups_alone_decide_access_witness :
    example_chroot_admin.groups = some ["admin"] ∧
    (∀ g ∈ ["admin"] ++ example_chroot_admin.root_groups.getD [],
      is_group_member example_db g ≠ none) ∧
    chroot_auth_status example_db example_auth (some example_chroot_admin)
      ≠ some SbuildAuthStatus.FAIL :=
  ⟨rfl, by decide,
    ((groups_alone_decide_access example_db example_auth example_chroot_admin
      ["admin"] rfl).1 (by decide)).2.1.mpr
      ⟨"admin", by simp, 50, [50, 7], by decide, rfl, by simp⟩⟩

/-! ## Theorems: aggregation across chroots -/

theorem change_auth_eq_fail (a b : SbuildAuthStatus) :
    sbuild_auth_change_auth a b = .FAIL ↔ a = .FAIL ∨ b = .FAIL := by
  cases a <;> cases b <;> simp [sbuild_auth_change_auth, SbuildAuthStatus.rank]

theorem change_auth_eq_none (a b : SbuildAuthStatus) :
    sbuild_auth_change_auth a b = .NONE ↔ a = .NONE ∧ b = .NONE := by
  cases a <;> cases b <;> simp [sbuild_auth_change_auth, SbuildAuthStatus.rank]

theorem chroot_outcome_unresolved (db : GroupDb) (auth : SbuildAuth)
    (config : SbuildConfig) (name : String)
    (h : sbuild_config_find_alias config name = none) :
    chroot_outcome db auth config name = some .FAIL := by
  simp [chroot_outcome, h, chroot_auth_status]

theorem chroot_outcome_no_groups (db : GroupDb) (auth : SbuildAuth)
    (config : SbuildConfig) (name : String) (c : SbuildChroot)
    (h : sbuild_config_find_alias config name = some c) (hg : c.groups = none) :
    chroot_outcome db auth config name = some .FAIL := by
  simp [chroot_outcome, h, chroot_auth_status, hg]

/-- One iteration of the loop escalates the status by the outcome for the
name. -/
theorem require_auth_step_eq (db : GroupDb) (auth : SbuildAuth) (config : SbuildConfig)
    (status : SbuildAuthStatus) (name : String) :
    require_auth_step sbuild_auth_change_auth db auth config status name
      = (chroot_outcome db auth config name).map (sbuild_auth_change_auth status) := by
  unfold require_auth_step
  cases h : sbuild_config_find_alias config name with
  | none =>
    rw [chroot_outcome_unresolved db auth config name h]
    have : chroot_auth_status db auth none = some .FAIL := by simp [chroot_auth_status]
    simp only [this, Option.map_some']
    cases status <;> rfl
  | some c =>
    simp only [chroot_outcome, h]
    cases chroot_auth_status db auth (some c) <;> rfl

theorem require_auth_loop_none (db : GroupDb) (auth : SbuildAuth) (config : SbuildConfig)
    (names : List String) (status : SbuildAuthStatus)
    (h : ∃ n ∈ names, chroot_outcome db auth config n = none) :
    require_auth_loop sbuild_auth_change_auth db auth config names status = none := by
  induction names generalizing status with
  | nil => simp at h
  | cons n rest ih =>
    simp only [require_auth_loop, require_auth_step_eq]
    cases ho : chroot_outcome db auth config n with
    | none => rfl
    | some s =>
      simp only [Option.map_some']
      apply ih
      obtain ⟨m, hm, hmo⟩ := h
      rcases List.mem_cons.mp hm with rfl | hr
      · rw [ho] at hmo
        cases hmo
      · exact ⟨m, hr, hmo⟩

theorem require_auth_loop_some (db : GroupDb) (auth : SbuildAuth) (config : SbuildConfig)
    (names : List String) (status : SbuildAuthStatus)
    (h : ∀ n ∈ names, ∃ s, chroot_outcome db auth config n = some s) :
    ∃ r, require_auth_loop sbuild_auth_change_auth db auth config names status = some r ∧
      (r = .FAIL ↔ status = .FAIL ∨
        ∃ n ∈ names, chroot_outcome db auth config n = some .FAIL) ∧
      (r = .NONE ↔ status = .NONE ∧
        ∀ n ∈ names, chroot_outcome db auth config n = some .NONE) := by
  induction names generalizing status with
  | nil => exact ⟨status, rfl, by simp, by simp⟩
  | cons n rest ih =>
    obtain ⟨s, hs⟩ := h n (List.mem_cons_self n rest)
    obtain ⟨r, hr, hf, hn⟩ :=
      ih (sbuild_auth_change_auth status s) (fun m hm => h m (List.mem_cons_of_mem n hm))
    refine ⟨r, ?_, ?_, ?_⟩
    · simp only [require_auth_loop, require_auth_step_eq, hs, Option.map_some']
      exact hr
    · rw [hf, change_auth_eq_fail]
      simp only [List.mem_cons, exists_eq_or_imp, hs, Option.some.injEq]
      tauto
    · rw [hn, change_auth_eq_none]
      simp only [List.mem_cons, forall_eq_or_imp, hs, Option.some.injEq]
      tauto

/-- C2 (counterexample). For the names `etch` and `lenny`, the outcome for
`etch` is `USER`, and the chroot `lenny` names the root group `wheel`, which is
not known: `is_group_member` ends the process, and
`sbuild_session_require_auth` returns nothing, neither `FAIL` nor `USER` nor
`NONE`. -/
theorem unknown_group_in_list_ends_the_process :
    chroot_outcome example_db example_auth example_config_wheel "etch" = some .USER ∧
    sbuild_config_find_alias example_config_wheel "lenny" = some example_chroot_wheel ∧
    is_group_member example_db "wheel" = none ∧
    chroot_outcome example_db example_auth example_config_wheel "lenny" = none ∧
    sbuild_session_require_auth example_db example_auth (some example_config_wheel)
      (some ["etch", "lenny"]) = none ∧
    sbuild_session_require_auth example_db example_auth (some example_config_wheel)
      (some ["lenny", "etch"]) = none := by
  decide

/-- C2 (amended). When the outcome for every chroot name of the list is
computed (no group lookup of `is_group_member` fails), the status
`sbuild_session_require_auth` returns is the most restrictive of the outcomes
for the names under `FAIL > USER > NONE`: a name that does not resolve and a
chroot without a groups list give `FAIL`; the result is `FAIL` if some outcome
is `FAIL`, otherwise `USER` if some outcome is `USER`, otherwise `NONE`.  The
result is the same for every reordering of the names.  Nothing is returned,
the process having exited, exactly when the outcome for some name of the list
is not computed, which for a chroot with a groups list is when a lookup fails
for a group of `groups` or of `root_groups`. -/
theorem require_auth_most_restrictive (db : GroupDb) (auth : SbuildAuth)
    (config : SbuildConfig) (names : List String) :
    (∀ n, sbuild_config_find_alias config n = none →
      chroot_outcome db auth config n = some .FAIL) ∧
    (∀ n c, sbuild_config_find_alias config n = some c → c.groups = none →
      chroot_outcome db auth config n = some .FAIL) ∧
    ((∀ n ∈ names, ∃ s, chroot_outcome db auth config n = some s) →
      ((∃ n ∈ names, chroot_outcome db auth config n = some .FAIL) →
        sbuild_session_require_auth db auth (some config) (some names) = some .FAIL) ∧
      ((¬ ∃ n ∈ names, chroot_outcome db auth config n = some .FAIL) →
        (∃ n ∈ names, chroot_outcome db auth config n = some .USER) →
        sbuild_session_require_auth db auth (some config) (some names) = some .USER) ∧
      ((¬ ∃ n ∈ names, chroot_outcome db auth config n = some .FAIL) →
        (¬ ∃ n ∈ names, chroot_outcome db auth config n = some .USER) →
        sbuild_session_require_auth db auth (some config) (some names) = some .NONE)) ∧
    (∀ names2, names.Perm names2 →
      sbuild_session_require_auth db auth (some config) (some names2)
        = sbuild_session_require_auth db auth (some config) (some names)) ∧
    (sbuild_session_require_auth db auth (some config) (some names) = none ↔
      ∃ n ∈ names, chroot_outcome db auth config n = none) ∧
    (∀ n c gs, sbuild_config_find_alias config n = some c → c.groups = some gs →
      (chroot_outcome db auth config n = none ↔
        ∃ g ∈ gs ++ c.root_groups.getD [], is_group_member db g = none)) := by
  refine ⟨chroot_outcome_unresolved db auth config,
    fun n c h hg => chroot_outcome_no_groups db auth config n c h hg, ?_, ?_, ?_, ?_⟩
  · intro hall
    obtain ⟨r, hr, hf, hn⟩ := require_auth_loop_some db auth config names .NONE hall
    simp only [reduceCtorEq, false_or, true_and] at hf hn
    simp only [sbuild_session_require_auth, hr]
    refine ⟨fun h => by rw [hf.mpr h], ?_, ?_⟩
    · intro hnf ⟨n, hnm, hu⟩
      cases r with
      | FAIL => exact absurd (hf.mp rfl) hnf
      | USER => rfl
      | NONE =>
        have := hn.mp rfl n hnm
        rw [hu] at this
        cases this
    · intro hnf hnu
      congr 1
      rw [hn]
      intro n hnm
      obtain ⟨s, hs⟩ := hall n hnm
      cases s with
      | FAIL => exact absurd ⟨n, hnm, hs⟩ hnf
      | USER => exact absurd ⟨n, hnm, hs⟩ hnu
      | NONE => exact hs
  · intro names2 hp
    simp only [sbuild_session_require_auth]
    by_cases hex : ∃ n ∈ names, chroot_outcome db auth config n = none
    · have hex2 : ∃ n ∈ names2, chroot_outcome db auth config n = none := by
        obtain ⟨n, hn, ho⟩ := hex
        exact ⟨n, hp.mem_iff.mp hn, ho⟩
      rw [require_auth_loop_none _ _ _ _ _ hex, require_auth_loop_none _ _ _ _ _ hex2]
    · have hall : ∀ n ∈ names, ∃ s, chroot_outcome db auth config n = some s := by
        intro n hn
        cases ho : chroot_outcome db auth config n with
        | none => exact absurd ⟨n, hn, ho⟩ hex
        | some s => exact ⟨s, rfl⟩
      have hall2 : ∀ n ∈ names2, ∃ s, chroot_outcome db auth config n = some s :=
        fun n hn => hall n (hp.mem_iff.mpr hn)
      obtain ⟨r, hr, hf, hn⟩ := require_auth_loop_some db auth config names .NONE hall
      obtain ⟨r2, hr2, hf2, hn2⟩ := require_auth_loop_some db auth config names2 .NONE hall2
      rw [hr, hr2]
      have e1 : r2 = .FAIL ↔ r = .FAIL := by
        rw [hf, hf2]
        simp only [hp.mem_iff]
      have e2 : r2 = .NONE ↔ r = .NONE := by
        rw [hn, hn2]
        simp only [hp.mem_iff]
      congr 1
      cases r with
      | FAIL => exact e1.mpr rfl
      | NONE => exact e2.mpr rfl
      | USER =>
        cases r2 with
        | FAIL => exact absurd (e1.mp rfl) (by simp)
        | NONE => exact absurd (e2.mp rfl) (by simp)
        | USER => rfl
  · simp only [sbuild_session_require_auth]
    constructor
    · intro hnone
      by_contra hex
      have hall : ∀ n ∈ names, ∃ s, chroot_outcome db auth config n = some s := by
        intro n hn
        cases ho : chroot_outcome db auth config n with
        | none => exact absurd ⟨n, hn, ho⟩ hex
        | some s => exact ⟨s, rfl⟩
      obtain ⟨r, hr, -, -⟩ := require_auth_loop_some db auth config names .NONE hall
      rw [hr] at hnone
      cases hnone
    · intro hex
      exact require_auth_loop_none db auth config names .NONE hex
  · intro n c gs hf hg
    unfold chroot_outcome
    rw [hf]
    exact chroot_auth_status_none_iff db auth c gs hg

/-- C2 (amended, witness). For the names `etch` (outcome `USER`) and `sid` (outcome
`FAIL`), the session status is `FAIL`. -/
theorem require_auth_most_restrictive_witness :
    (∀ n ∈ ["etch", "sid"], ∃ s,
      chroot_outcome example_db example_auth example_config n = some s) ∧
    chroot_outcome example_db example_auth example_config "etch" = some .USER ∧
    chroot_outcome example_db example_auth example_config "sid" = some .FAIL ∧
    sbuild_session_require_auth example_db example_auth (some example_config)
      (some ["etch", "sid"]) = some .FAIL :=
  have hall : ∀ n ∈ ["etch", "sid"], ∃ s,
      chroot_outcome example_db example_auth example_config n = some s := by
    intro n hn
    simp only [List.mem_cons, List.mem_singleton, List.not_mem_nil, or_false] at hn
    rcases hn with rfl | rfl
    · exact ⟨.USER, by decide⟩
    · exact ⟨.FAIL, by decide⟩
  ⟨hall, by decide, by decide,
    ((require_auth_most_restrictive example_db example_auth example_config
      ["etch", "sid"]).2.2.1 hall).1 ⟨"sid", by simp, by decide⟩⟩

/-! ## Theorems: the child process -/

theorem run_child_aborted_of_assert (auth : SbuildAuth) (session_chroot : SbuildChroot)
    (cwd : String) (r : ChildResults)
    (h : session_chroot.name = none ∨ session_chroot.location = none ∨ auth.user = none ∨
      auth.shell = none ∨ auth.pam_initialised = false) :
    sbuild_session_run_child auth session_chroot cwd r = { trace := [], finish := .aborted } := by
  unfold sbuild_session_run_child
  split
  · rename_i hn hloc hu hsh hp
    rcases h with h | h | h | h | h
    · rw [h] at hn; cases hn
    · rw [h] at hloc; cases hloc
    · rw [h] at hu; cases hu
    · rw [h] at hsh; cases hsh
    · rw [h] at hp; cases hp
  · rfl

theorem run_child_of_asserts (auth : SbuildAuth) (session_chroot : SbuildChroot)
    (cwd : String) (r : ChildResults) (nm location user shell : String)
    (hn : session_chroot.name = some nm) (hloc : session_chroot.location = some location)
    (hu : auth.user = some user) (hsh : auth.shell = some shell)
    (hp : auth.pam_initialised = true) :
    sbuild_session_run_child auth session_chroot cwd r =
      if r.open_session_error ≠ none then
        { trace := [.open_session r.open_session_error], finish := .exited EXIT_FAILURE }
      else if r.setgid ≠ 0 then
        { trace := [.open_session r.open_session_error, .setgid auth.gid r.setgid],
          finish := .exited EXIT_FAILURE }
      else if r.initgroups ≠ 0 then
        { trace := [.open_session r.open_session_error, .setgid auth.gid r.setgid,
            .initgroups user auth.gid r.initgroups],
          finish := .exited EXIT_FAILURE }
      else if r.chdir_location ≠ 0 then
        { trace := [.open_session r.open_session_error, .setgid auth.gid r.setgid,
            .initgroups user auth.gid r.initgroups, .chdir location r.chdir_location],
          finish := .exited EXIT_FAILURE }
      else if r.chroot ≠ 0 then
        { trace := [.open_session r.open_session_error, .setgid auth.gid r.setgid,
            .initgroups user auth.gid r.initgroups, .chdir location r.chdir_location,
            .chroot location r.chroot],
          finish := .exited EXIT_FAILURE }
      else if r.setuid_uid ≠ 0 then
        { trace := [.open_session r.open_session_error, .setgid auth.gid r.setgid,
            .initgroups user auth.gid r.initgroups, .chdir location r.chdir_location,
            .chroot location r.chroot, .setuid auth.uid r.setuid_uid],
          finish := .exited EXIT_FAILURE }
      else if r.setuid_0 = 0 ∧ auth.uid ≠ 0 then
        { trace := [.open_session r.open_session_error, .setgid auth.gid r.setgid,
            .initgroups user auth.gid r.initgroups, .chdir location r.chdir_location,
            .chroot location r.chroot, .setuid auth.uid r.setuid_uid,
            .setuid 0 r.setuid_0],
          finish := .exited EXIT_FAILURE }
      else
        match auth.pam_environment with
        | none =>
          { trace := [.open_session r.open_session_error, .setgid auth.gid r.setgid,
              .initgroups user auth.gid r.initgroups, .chdir location r.chdir_location,
              .chroot location r.chroot, .setuid auth.uid r.setuid_uid,
              .setuid 0 r.setuid_0, .chdir cwd r.chdir_cwd],
            finish := .aborted }
        | some env =>
          { trace := [.open_session r.open_session_error, .setgid auth.gid r.setgid,
              .initgroups user auth.gid r.initgroups, .chdir location r.chdir_location,
              .chroot location r.chroot, .setuid auth.uid r.setuid_uid,
              .setuid 0 r.setuid_0, .chdir cwd r.chdir_cwd,
              .execve (child_command auth shell r).1 (child_command auth shell r).2 env
                r.execve],
            finish := match r.execve with
              | none => .replaced
              | some _ => .exited EXIT_FAILURE } := by
  unfold sbuild_session_run_child
  simp only [hn, hloc, hu, hsh, hp, List.cons_append, List.nil_append]
  cases auth.pam_environment <;> cases r.execve <;> rfl

/-- C3. In `sbuild_session_run_child`, for all results of its calls: a run
whose trace holds an `execve` made exactly the calls `open_session`, `setgid`,
`initgroups`, `chdir(location)`, `chroot(location)` and `setuid(uid)`, all
successful, then `setuid(0)`, then `chdir(cwd)`, then `execve` as its last
call, and the `setuid(0)` failed when `uid != 0`.  When `setgid`,
`initgroups`, `chdir(location)`, `chroot(location)` or `setuid(uid)` fails, or
`setuid(0)` succeeds with `uid != 0`, no `execve` is made and the child does
not become the program; it exits with `EXIT_FAILURE` once the session was
opened. -/
theorem run_child_execve_only_after_dropping_root (auth : SbuildAuth)
    (session_chroot : SbuildChroot) (cwd : String) (r : ChildResults) :
    ((∃ e ∈ (sbuild_session_run_child auth session_chroot cwd r).trace,
        e.is_execve = true) →
      ∃ location user file argv envp,
        session_chroot.location = some location ∧ auth.user = some user ∧
        (sbuild_session_run_child auth session_chroot cwd r).trace =
          [.open_session none, .setgid auth.gid 0, .initgroups user auth.gid 0,
           .chdir location 0, .chroot location 0, .setuid auth.uid 0,
           .setuid 0 r.setuid_0, .chdir cwd r.chdir_cwd,
           .execve file argv envp r.execve] ∧
        (auth.uid ≠ 0 → r.setuid_0 ≠ 0)) ∧
    ((r.setgid ≠ 0 ∨ r.initgroups ≠ 0 ∨ r.chdir_location ≠ 0 ∨ r.chroot ≠ 0 ∨
        r.setuid_uid ≠ 0 ∨ (r.setuid_0 = 0 ∧ auth.uid ≠ 0)) →
      (∀ e ∈ (sbuild_session_run_child auth session_chroot cwd r).trace,
        e.is_execve = false) ∧
      (sbuild_session_run_child auth session_chroot cwd r).finish ≠ .replaced ∧
      (.open_session none ∈ (sbuild_session_run_child auth session_chroot cwd r).trace →
        (sbuild_session_run_child auth session_chroot cwd r).finish
          = .exited EXIT_FAILURE)) := by
  by_cases hass : session_chroot.name = none ∨ session_chroot.location = none ∨
      auth.user = none ∨ auth.shell = none ∨ auth.pam_initialised = false
  · rw [run_child_aborted_of_assert auth session_chroot cwd r hass]
    simp
  · simp only [not_or] at hass
    obtain ⟨hn, hloc, hu, hsh, hp⟩ := hass
    obtain ⟨nm, hn⟩ := Option.ne_none_iff_exists'.mp hn
    obtain ⟨location, hloc⟩ := Option.ne_none_iff_exists'.mp hloc
    obtain ⟨user, hu⟩ := Option.ne_none_iff_exists'.mp hu
    obtain ⟨shell, hsh⟩ := Option.ne_none_iff_exists'.mp hsh
    have hp1 : auth.pam_initialised = true := by simpa using hp
    rw [run_child_of_asserts auth session_chroot cwd r nm location user shell hn hloc hu hsh hp1]
    by_cases h1 : r.open_session_error ≠ none
    · rw [if_pos h1]
      simp [ChildEvent.is_execve, h1]
    rw [if_neg h1]
    by_cases h2 : r.setgid ≠ 0
    · rw [if_pos h2]
      simp [ChildEvent.is_execve]
    rw [if_neg h2]
    by_cases h3 : r.initgroups ≠ 0
    · rw [if_pos h3]
      simp [ChildEvent.is_execve]
    rw [if_neg h3]
    by_cases h4 : r.chdir_location ≠ 0
    · rw [if_pos h4]
      simp [ChildEvent.is_execve]
    rw [if_neg h4]
    by_cases h5 : r.chroot ≠ 0
    · rw [if_pos h5]
      simp [ChildEvent.is_execve]
    rw [if_neg h5]
    by_cases h6 : r.setuid_uid ≠ 0
    · rw [if_pos h6]
      simp [ChildEvent.is_execve]
    rw [if_neg h6]
    by_cases h7 : r.setuid_0 = 0 ∧ auth.uid ≠ 0
    · rw [if_pos h7]
      simp [ChildEvent.is_execve]
    rw [if_neg h7]
    simp only [ne_eq, not_not] at h1 h2 h3 h4 h5 h6
    have hno : ¬ (r.setgid ≠ 0 ∨ r.initgroups ≠ 0 ∨ r.chdir_location ≠ 0 ∨ r.chroot ≠ 0 ∨
        r.setuid_uid ≠ 0 ∨ (r.setuid_0 = 0 ∧ auth.uid ≠ 0)) := by
      simp only [h2, h3, h4, h5, h6, ne_eq, not_true_eq_false, false_or]
      exact h7
    refine ⟨?_, fun h => absurd h hno⟩
    cases hpe : auth.pam_environment with
    | none => simp [ChildEvent.is_execve]
    | some env =>
      intro _
      refine ⟨location, user, (child_command auth shell r).1, (child_command auth shell r).2,
        env, hloc, hu, ?_, ?_⟩
      · simp only [h1, h2, h3, h4, h5, h6]
      · intro hne h0
        exact h7 ⟨h0, hne⟩

/-- C3 (witness). A run in which every call succeeds and the verifying
`setuid(0)` fails reaches `execve`, after `setuid(1000)` and the failed
`setuid(0)`. -/
theorem run_child_execve_only_after_dropping_root_witness :
    (∃ e ∈ (sbuild_session_run_child example_auth_user example_chroot "/home/me"
        example_child_results).trace, e.is_execve = true) ∧
    (sbuild_session_run_child example_auth_user example_chroot "/home/me"
        example_child_results).trace =
      [.open_session none, .setgid 1000 0, .initgroups "me" 1000 0,
       .chdir "/srv/sid" 0, .chroot "/srv/sid" 0, .setuid 1000 0,
       .setuid 0 (-1), .chdir "/home/me" 0,
       .execve "/bin/sh" ["-sh"] [] none] ∧
    ∃ location user file argv envp,
      example_chroot.location = some location ∧ example_auth_user.user = some user ∧
      (sbuild_session_run_child example_auth_user example_chroot "/home/me"
          example_child_results).trace =
        [.open_session none, .setgid example_auth_user.gid 0,
         .initgroups user example_auth_user.gid 0,
         .chdir location 0, .chroot location 0, .setuid example_auth_user.uid 0,
         .setuid 0 example_child_results.setuid_0,
         .chdir "/home/me" example_child_results.chdir_cwd,
         .execve file argv envp example_child_results.execve] ∧
      (example_auth_user.uid ≠ 0 → example_child_results.setuid_0 ≠ 0) :=
  have hex : ∃ e ∈ (sbuild_session_run_child example_auth_user example_chroot "/home/me"
      example_child_results).trace, e.is_execve = true :=
    ⟨.execve "/bin/sh" ["-sh"] [] none, by decide, rfl⟩
  ⟨hex, by decide,
    (run_child_execve_only_after_dropping_root example_auth_user example_chroot
      "/home/me" example_child_results).1 hex⟩

/-! ## Theorems: running a session -/

theorem setup_chroot_trace_of_started (bc : BuildConfig) (auth : SbuildAuth)
    (c : SbuildChroot) (t : SbuildSessionChrootSetupType) (r : SpawnResult)
    (hn : c.name ≠ none) (hl : c.location ≠ none) :
    (sbuild_session_setup_chroot bc auth c t r).trace
      = [.spawn_sync (setup_argv bc t) (setup_envp auth c)] := by
  unfold sbuild_session_setup_chroot
  rw [if_neg hn, if_neg hl]
  cases r.error with
  | some m => rfl
  | none =>
    by_cases h : r.exit_status ≠ 0
    · simp only [if_pos h]
    · simp only [if_neg h]

theorem setup_chroot_of_not_started (bc : BuildConfig) (auth : SbuildAuth)
    (c : SbuildChroot) (t : SbuildSessionChrootSetupType) (r : SpawnResult)
    (h : ¬ (c.name ≠ none ∧ c.location ≠ none)) :
    sbuild_session_setup_chroot bc auth c t r = { trace := [], ok := false, error := none } := by
  unfold sbuild_session_setup_chroot
  by_cases hn : c.name = none
  · rw [if_pos hn]
  · rw [if_neg hn]
    have hl : c.location = none := by
      by_contra hl
      exact h ⟨hn, hl⟩
    rw [if_pos hl]

theorem run_chroot_of_not_started (c : SbuildChroot) (cs : Int) (r : ChrootResults)
    (h : ¬ (c.name ≠ none ∧ c.location ≠ none)) :
    sbuild_session_run_chroot c cs r
      = { call := { trace := [], ok := false, error := none }, child_status := cs } := by
  unfold sbuild_session_run_chroot
  by_cases hn : c.name = none
  · rw [if_pos hn]
  · rw [if_neg hn]
    have hl : c.location = none := by
      by_contra hl
      exact h ⟨hn, hl⟩
    rw [if_pos hl]

theorem wait_for_child_trace (pid : Int) (r : ChrootResults) :
    ∀ e ∈ (sbuild_session_wait_for_child pid r).call.trace, e.is_child_call = true := by
  unfold sbuild_session_wait_for_child
  split_ifs <;> try (cases r.close_session_error) <;>
    simp [SessionEvent.is_child_call] <;> split_ifs <;> simp [SessionEvent.is_child_call]

theorem run_chroot_trace (c : SbuildChroot) (cs : Int) (r : ChrootResults) :
    ∀ e ∈ (sbuild_session_run_chroot c cs r).call.trace, e.is_child_call = true := by
  unfold sbuild_session_run_chroot
  split_ifs
  · simp
  · simp
  · cases r.fork with
    | failed => simp [SessionEvent.is_child_call]
    | parent pid =>
      have hw := wait_for_child_trace pid r
      cases he : (sbuild_session_wait_for_child pid r).call.error with
      | none =>
        simp only [he, List.mem_cons]
        rintro e (rfl | hm)
        · rfl
        · exact hw e hm
      | some err =>
        simp only [he, List.mem_cons]
        rintro e (rfl | hm)
        · rfl
        · exact hw e hm

theorem run_chroot_call_eq (c : SbuildChroot) (cs cs2 : Int) (r : ChrootResults) :
    (sbuild_session_run_chroot c cs r).call = (sbuild_session_run_chroot c cs2 r).call := by
  unfold sbuild_session_run_chroot
  split_ifs
  · rfl
  · rfl
  · cases r.fork with
    | failed => rfl
    | parent pid =>
      cases he : (sbuild_session_wait_for_child pid r).call.error <;> simp [he]

/-- The calls of the child run of an iteration: those of
`sbuild_session_run_chroot` when the start phase set no error, none
otherwise. -/
theorem body_trace_of_started (bc : BuildConfig) (auth : SbuildAuth) (config : SbuildConfig)
    (name : String) (r : ChrootResults) (st : RunState) (c : SbuildChroot)
    (hc : started_chroot config name = some c) :
    ∃ mid, (∀ e ∈ mid, e.is_child_call = true) ∧
      (session_run_body bc auth config name r st).trace
        = st.trace ++ (start_event bc auth c :: mid ++ [stop_event bc auth c]) := by
  unfold started_chroot at hc
  cases hf : sbuild_config_find_alias config name with
  | none => simp [hf] at hc
  | some c1 =>
    rw [hf] at hc
    dsimp only at hc
    by_cases hg : c1.name ≠ none ∧ c1.location ≠ none
    · rw [if_pos hg] at hc
      have hcc : c1 = c := Option.some.inj hc
      subst hcc
      simp only [session_run_body, hf]
      rw [setup_chroot_trace_of_started bc auth c1 _ _ hg.1 hg.2,
        setup_chroot_trace_of_started bc auth c1 _ _ hg.1 hg.2]
      by_cases he : (sbuild_session_setup_chroot bc auth c1
          SbuildSessionChrootSetupType.SETUP_START r.setup_start).error = none
      · refine ⟨(sbuild_session_run_chroot c1 st.child_status r).call.trace,
          run_chroot_trace c1 st.child_status r, ?_⟩
        simp [he, start_event, stop_event]
      · refine ⟨[], by simp, ?_⟩
        simp [he, start_event, stop_event]
    · rw [if_neg hg] at hc
      cases hc

theorem body_of_not_started (bc : BuildConfig) (auth : SbuildAuth) (config : SbuildConfig)
    (name : String) (r : ChrootResults) (st : RunState) (c : SbuildChroot)
    (hf : sbuild_config_find_alias config name = some c)
    (hg : ¬ (c.name ≠ none ∧ c.location ≠ none)) :
    session_run_body bc auth config name r st
      = { trace := st.trace, tmp_error := none, child_status := st.child_status } := by
  simp only [session_run_body, hf]
  rw [setup_chroot_of_not_started bc auth c _ _ hg, setup_chroot_of_not_started bc auth c _ _ hg,
    run_chroot_of_not_started c _ _ hg]
  simp

theorem body_of_unresolved (bc : BuildConfig) (auth : SbuildAuth) (config : SbuildConfig)
    (name : String) (r : ChrootResults) (st : RunState)
    (hf : sbuild_config_find_alias config name = none) :
    session_run_body bc auth config name r st
      = { st with tmp_error := some (.chroot_not_found name) } := by
  simp only [session_run_body, hf]

theorem body_trace_of_not_started (bc : BuildConfig) (auth : SbuildAuth)
    (config : SbuildConfig) (name : String) (r : ChrootResults) (st : RunState)
    (hc : started_chroot config name = none) :
    (session_run_body bc auth config name r st).trace = st.trace := by
  unfold started_chroot at hc
  cases hf : sbuild_config_find_alias config name with
  | none => rw [body_of_unresolved bc auth config name r st hf]
  | some c =>
    rw [hf] at hc
    dsimp only at hc
    by_cases hg : c.name ≠ none ∧ c.location ≠ none
    · rw [if_pos hg] at hc
      cases hc
    · rw [body_of_not_started bc auth config name r st c hf hg]

/-- The trace of the loop: the names reached are a prefix of the list, and
each chroot that is set up adds its start-phase run, then only calls of the
child run, then its stop-phase run. -/
theorem loop_trace_bracketed (bc : BuildConfig) (auth : SbuildAuth) (config : SbuildConfig)
    (results : Nat → ChrootResults) (names : List String) (x : Nat) (st : RunState) :
    ∃ (k : Nat) (runs : List (SbuildChroot × List SessionEvent)),
      k ≤ names.length ∧
      runs.map Prod.fst = (names.take k).filterMap (started_chroot config) ∧
      (∀ p ∈ runs, ∀ e ∈ p.2, e.is_child_call = true) ∧
      (session_run_loop bc auth config results names x st).trace
        = st.trace ++ runs.flatMap
            (fun p => start_event bc auth p.1 :: p.2 ++ [stop_event bc auth p.1]) := by
  induction names generalizing x st with
  | nil => exact ⟨0, [], by simp, by simp, by simp, by simp [session_run_loop]⟩
  | cons name rest ih =>
    -- the runs added by this iteration
    have hthis : ∃ runs1 : List (SbuildChroot × List SessionEvent),
        runs1.map Prod.fst = [name].filterMap (started_chroot config) ∧
        (∀ p ∈ runs1, ∀ e ∈ p.2, e.is_child_call = true) ∧
        (session_run_body bc auth config name (results x) st).trace
          = st.trace ++ runs1.flatMap
              (fun p => start_event bc auth p.1 :: p.2 ++ [stop_event bc auth p.1]) := by
      cases hc : started_chroot config name with
      | none =>
        refine ⟨[], by simp [hc], by simp, ?_⟩
        simp [body_trace_of_not_started bc auth config name (results x) st hc]
      | some c =>
        obtain ⟨mid, hmid, ht⟩ := body_trace_of_started bc auth config name (results x) st c hc
        refine ⟨[(c, mid)], by simp [hc], ?_, ?_⟩
        · intro p hp e he
          simp only [List.mem_singleton] at hp
          subst hp
          exact hmid e he
        · simp [ht]
    obtain ⟨runs1, hr1, hm1, ht1⟩ := hthis
    simp only [session_run_loop]
    by_cases herr : (session_run_body bc auth config name (results x) st).tmp_error ≠ none
    · rw [if_pos herr]
      exact ⟨1, runs1, by simp, by simpa using hr1, hm1, ht1⟩
    · rw [if_neg herr]
      obtain ⟨k, runs2, hk, hr2, hm2, ht2⟩ :=
        ih (x + 1) (session_run_body bc auth config name (results x) st)
      refine ⟨k + 1, runs1 ++ runs2, by simpa using hk, ?_, ?_, ?_⟩
      · rw [List.map_append, hr1, hr2, List.take_succ_cons]
        simp only [List.filterMap_cons, List.filterMap_nil]
        cases started_chroot config name <;> simp
      · intro p hp
        rcases List.mem_append.mp hp with h | h
        · exact hm1 p h
        · exact hm2 p h
      · rw [ht2, ht1]
        simp [List.flatMap_append]

/-- C5. For all results of the calls, the calls of `sbuild_session_run` are,
for the chroots that the names of a prefix of the list resolve to and that
are set up, in order: the start-phase run for the chroot, then only calls of
the child run (`fork`, `wait`, closing the PAM session), then the stop-phase
run for the same chroot, which is `run-parts` with `--reverse` and
`--arg=stop` and differs from every start-phase run.  So the stop phase runs
exactly once for each chroot set up, after its start phase and any child run,
before the function returns. -/
theorem stop_phase_runs_once_for_each_started_chroot (bc : BuildConfig)
    (auth : SbuildAuth) (config : SbuildConfig) (names : List String)
    (child_status : Int) (results : Nat → ChrootResults) :
    (∃ (k : Nat) (runs : List (SbuildChroot × List SessionEvent)),
      k ≤ names.length ∧
      runs.map Prod.fst = (names.take k).filterMap (started_chroot config) ∧
      (∀ p ∈ runs, ∀ e ∈ p.2, e.is_child_call = true) ∧
      (sbuild_session_run bc auth (some config) (some names) child_status results).trace
        = runs.flatMap
            (fun p => start_event bc auth p.1 :: p.2 ++ [stop_event bc auth p.1])) ∧
    (∀ c, stop_event bc auth c =
      .spawn_sync [bc.RUN_PARTS, "--lsbsysinit", "--exit-on-error", "--reverse",
        "--arg=stop", bc.SCHROOT_CONF_SETUP_D] (setup_envp auth c)) ∧
    (∀ c c2, start_event bc auth c ≠ stop_event bc auth c2) ∧
    (∀ c, (stop_event bc auth c).is_child_call = false) := by
  refine ⟨?_, fun c => rfl, ?_, fun c => rfl⟩
  · obtain ⟨k, runs, hk, hr, hm, ht⟩ :=
      loop_trace_bracketed bc auth config results names 0 (initial_state child_status)
    refine ⟨k, runs, hk, hr, hm, ?_⟩
    have hrun : (sbuild_session_run bc auth (some config) (some names) child_status
        results).trace
        = (session_run_loop bc auth config results names 0
            (initial_state child_status)).trace := by
      simp only [sbuild_session_run, initial_state]
      split <;> rfl
    rw [hrun, ht]
    simp [initial_state]
  · intro c c2 h
    have := congrArg (fun e => match e with
      | SessionEvent.spawn_sync argv _ => argv.length
      | _ => 0) h
    simp [start_event, stop_event, setup_argv] at this

theorem body_error_eq (bc : BuildConfig) (auth : SbuildAuth) (config : SbuildConfig)
    (name : String) (r : ChrootResults) (st : RunState) :
    (session_run_body bc auth config name r st).tmp_error
      = iteration_error bc auth config name r := by
  unfold iteration_error session_run_body
  cases sbuild_config_find_alias config name with
  | none => rfl
  | some c =>
    simp only [initial_state]
    by_cases h : (sbuild_session_setup_chroot bc auth c
        SbuildSessionChrootSetupType.SETUP_START r.setup_start).error = none
    · simp only [h, if_true]
      rw [run_chroot_call_eq c st.child_status 0 r]
    · simp only [h, if_false]

theorem body_trace_eq (bc : BuildConfig) (auth : SbuildAuth) (config : SbuildConfig)
    (name : String) (r : ChrootResults) (st : RunState) :
    (session_run_body bc auth config name r st).trace
      = st.trace ++ iteration_trace bc auth config name r := by
  unfold iteration_trace session_run_body
  cases sbuild_config_find_alias config name with
  | none => simp [initial_state]
  | some c =>
    simp only [initial_state, List.nil_append, List.append_assoc]
    by_cases h : (sbuild_session_setup_chroot bc auth c
        SbuildSessionChrootSetupType.SETUP_START r.setup_start).error = none
    · simp only [h, if_true]
      rw [run_chroot_call_eq c st.child_status 0 r]
    · simp only [h, if_false]

/-- The value of `tmp_error` after an iteration whose name resolves: the error
of the start phase if it set one, otherwise the error of the child run if it
set one, otherwise the error of the stop phase. -/
theorem iteration_error_of_resolved (bc : BuildConfig) (auth : SbuildAuth)
    (config : SbuildConfig) (name : String) (r : ChrootResults) (c : SbuildChroot)
    (cs : Int) (hc : sbuild_config_find_alias config name = some c) :
    iteration_error bc auth config name r =
      if (sbuild_session_setup_chroot bc auth c .SETUP_START r.setup_start).error ≠ none then
        (sbuild_session_setup_chroot bc auth c .SETUP_START r.setup_start).error
      else if (sbuild_session_run_chroot c cs r).call.error ≠ none then
        (sbuild_session_run_chroot c cs r).call.error
      else (sbuild_session_setup_chroot bc auth c .SETUP_STOP r.setup_stop).error := by
  unfold iteration_error session_run_body
  simp only [hc, initial_state]
  by_cases h1 : (sbuild_session_setup_chroot bc auth c
      SbuildSessionChrootSetupType.SETUP_START r.setup_start).error = none
  · simp only [h1, if_true]
    rw [run_chroot_call_eq c 0 cs r]
    by_cases h2 : (sbuild_session_run_chroot c cs r).call.error = none
    · simp [h2]
    · simp [h2]
  · simp [h1]

theorem loop_append (bc : BuildConfig) (auth : SbuildAuth) (config : SbuildConfig)
    (results : Nat → ChrootResults) (pre rest : List String) (x : Nat) (st : RunState)
    (hpre : ∀ i n, pre[i]? = some n →
      iteration_error bc auth config n (results (x + i)) = none) :
    session_run_loop bc auth config results (pre ++ rest) x st
      = session_run_loop bc auth config results rest (x + pre.length)
          (session_run_loop bc auth config results pre x st) := by
  induction pre generalizing x st with
  | nil => simp [session_run_loop]
  | cons n p ih =>
    have h0 : iteration_error bc auth config n (results x) = none := by
      simpa using hpre 0 n (by simp)
    have hp : ∀ i m, p[i]? = some m →
        iteration_error bc auth config m (results (x + 1 + i)) = none := by
      intro i m hm
      have := hpre (i + 1) m (by simpa using hm)
      rwa [show x + (i + 1) = x + 1 + i by omega] at this
    simp only [List.cons_append, session_run_loop, body_error_eq, h0, ne_eq,
      not_true_eq_false, if_false]
    have hih := ih (x + 1) (session_run_body bc auth config n (results x) st) hp
    rw [List.length_cons, show x + (p.length + 1) = x + 1 + p.length by omega]
    exact hih

/-- The loop over a list whose first names leave no error, up to and including
a name, is the body for that name applied to the state after the first names,
when the body sets an error. -/
theorem loop_stops_at_error (bc : BuildConfig) (auth : SbuildAuth) (config : SbuildConfig)
    (results : Nat → ChrootResults) (pre : List String) (name : String)
    (post : List String) (st : RunState) (e : SessionGError)
    (hpre : ∀ i n, pre[i]? = some n → iteration_error bc auth config n (results i) = none)
    (he : iteration_error bc auth config name (results pre.length) = some e) :
    session_run_loop bc auth config results (pre ++ name :: post) 0 st
      = session_run_body bc auth config name (results pre.length)
          (session_run_loop bc auth config results pre 0 st) := by
  have hpre0 : ∀ i n, pre[i]? = some n →
      iteration_error bc auth config n (results (0 + i)) = none := by
    intro i n hn
    simpa using hpre i n hn
  rw [loop_append bc auth config results pre (name :: post) 0 st hpre0]
  simp only [Nat.zero_add, session_run_loop, body_error_eq, he, ne_eq, reduceCtorEq,
    not_false_eq_true, if_true]

/-- The result of `sbuild_session_run` in terms of the final state of its
loop. -/
theorem run_eq_loop (bc : BuildConfig) (auth : SbuildAuth) (config : SbuildConfig)
    (names : List String) (cs : Int) (results : Nat → ChrootResults) :
    sbuild_session_run bc auth (some config) (some names) cs results =
      { trace := (session_run_loop bc auth config results names 0 (initial_state cs)).trace,
        ok := (session_run_loop bc auth config results names 0
          (initial_state cs)).tmp_error.isNone,
        error := (session_run_loop bc auth config results names 0
          (initial_state cs)).tmp_error,
        child_status := (session_run_loop bc auth config results names 0
          (initial_state cs)).child_status } := by
  simp only [sbuild_session_run, initial_state]
  split <;> rename_i h <;> simp [h]

/-- C6. The first error wins in `sbuild_session_run`.  For the first chroot
of the list at which something fails (no iteration before it leaves an
error): an error of the start-phase setup is the error returned, even when
the stop phase fails too; when the start phase sets no error, an error of the
child run is the error returned, even when the stop phase fails too; and an
error of the stop phase is returned when neither the start phase nor the
child run set one. -/
theorem first_error_wins (bc : BuildConfig) (auth : SbuildAuth) (config : SbuildConfig)
    (pre : List String) (name : String) (post : List String) (cs : Int)
    (results : Nat → ChrootResults) (c : SbuildChroot)
    (hpre : ∀ i n, pre[i]? = some n → iteration_error bc auth config n (results i) = none)
    (hc : sbuild_config_find_alias config name = some c) :
    (∀ e, (sbuild_session_setup_chroot bc auth c .SETUP_START
          (results pre.length).setup_start).error = some e →
      (sbuild_session_run bc auth (some config) (some (pre ++ name :: post)) cs
        results).error = some e) ∧
    ((sbuild_session_setup_chroot bc auth c .SETUP_START
          (results pre.length).setup_start).error = none →
      ∀ e cs1, (sbuild_session_run_chroot c cs1 (results pre.length)).call.error = some e →
      (sbuild_session_run bc auth (some config) (some (pre ++ name :: post)) cs
        results).error = some e) ∧
    ((sbuild_session_setup_chroot bc auth c .SETUP_START
          (results pre.length).setup_start).error = none →
      (∀ cs1, (sbuild_session_run_chroot c cs1 (results pre.length)).call.error = none) →
      ∀ e, (sbuild_session_setup_chroot bc auth c .SETUP_STOP
          (results pre.length).setup_stop).error = some e →
      (sbuild_session_run bc auth (some config) (some (pre ++ name :: post)) cs
        results).error = some e) := by
  have key : ∀ e, iteration_error bc auth config name (results pre.length) = some e →
      (sbuild_session_run bc auth (some config) (some (pre ++ name :: post)) cs
        results).error = some e := by
    intro e he
    rw [run_eq_loop]
    simp only
    rw [loop_stops_at_error bc auth config results pre name post _ e hpre he,
      body_error_eq, he]
  refine ⟨?_, ?_, ?_⟩
  · intro e h1
    apply key
    rw [iteration_error_of_resolved bc auth config name _ c 0 hc, h1]
    simp
  · intro h1 e cs1 h2
    apply key
    rw [iteration_error_of_resolved bc auth config name _ c cs1 hc, h1, h2]
    simp
  · intro h1 h2 e h3
    apply key
    rw [iteration_error_of_resolved bc auth config name _ c 0 hc, h1, h2 0, h3]
    simp

/-- C6 (witness). With one chroot whose start-phase scripts fail and whose
stop-phase scripts fail too, the error returned is the start-phase error. -/
theorem first_error_wins_witness :
    (sbuild_session_setup_chroot example_build example_auth_user example_chroot .SETUP_START
        results_start_fails.setup_start).error = some (.chroot_setup .SETUP_START) ∧
    (sbuild_session_setup_chroot example_build example_auth_user example_chroot .SETUP_STOP
        results_start_fails.setup_stop).error = some (.chroot_setup .SETUP_STOP) ∧
    (sbuild_session_run example_build example_auth_user (some example_config)
        (some ([] ++ "sid" :: ["etch"])) sbuild_session_init_child_status
        (fun _ => results_start_fails)).error = some (.chroot_setup .SETUP_START) :=
  ⟨by decide, by decide,
    (first_error_wins example_build example_auth_user example_config [] "sid" ["etch"]
      sbuild_session_init_child_status (fun _ => results_start_fails) example_chroot
      (by intro i n h; simp at h) (by decide)).1 _ (by decide)⟩

/-- C7. For the first name of the list whose iteration leaves an error (no
iteration before it leaves one), `sbuild_session_run` returns that error and
does exactly what it does for the list cut after that name: the names after
it add no call and change nothing.  Its calls are those for the names before
it, in order, followed by those of the failing iteration, which for a chroot
that is set up end with its stop-phase run.  A name that does not resolve
leaves the chroot-not-found error and adds no call. -/
theorem run_stops_at_first_failing_chroot (bc : BuildConfig) (auth : SbuildAuth)
    (config : SbuildConfig) (pre : List String) (name : String) (post : List String)
    (cs : Int) (results : Nat → ChrootResults) (e : SessionGError)
    (hpre : ∀ i n, pre[i]? = some n → iteration_error bc auth config n (results i) = none)
    (he : iteration_error bc auth config name (results pre.length) = some e) :
    sbuild_session_run bc auth (some config) (some (pre ++ name :: post)) cs results
      = sbuild_session_run bc auth (some config) (some (pre ++ [name])) cs results ∧
    (sbuild_session_run bc auth (some config) (some (pre ++ name :: post)) cs
      results).error = some e ∧
    (sbuild_session_run bc auth (some config) (some (pre ++ name :: post)) cs
      results).ok = false ∧
    (sbuild_session_run bc auth (some config) (some (pre ++ name :: post)) cs
      results).trace
      = (sbuild_session_run bc auth (some config) (some pre) cs results).trace
          ++ iteration_trace bc auth config name (results pre.length) ∧
    (∀ c, started_chroot config name = some c →
      ∃ mid, (∀ ev ∈ mid, ev.is_child_call = true) ∧
        iteration_trace bc auth config name (results pre.length)
          = start_event bc auth c :: mid ++ [stop_event bc auth c]) ∧
    (sbuild_config_find_alias config name = none →
      e = .chroot_not_found name ∧
      iteration_trace bc auth config name (results pre.length) = []) := by
  have h1 := loop_stops_at_error bc auth config results pre name post (initial_state cs) e
    hpre he
  have h2 := loop_stops_at_error bc auth config results pre name [] (initial_state cs) e
    hpre he
  refine ⟨?_, ?_, ?_, ?_, ?_, ?_⟩
  · rw [run_eq_loop, run_eq_loop, h1, h2]
  · rw [run_eq_loop]
    simp only
    rw [h1, body_error_eq, he]
  · rw [run_eq_loop]
    simp only
    rw [h1, body_error_eq, he]
    rfl
  · rw [run_eq_loop, run_eq_loop]
    simp only
    rw [h1, body_trace_eq]
  · intro c hc
    obtain ⟨mid, hmid, ht⟩ :=
      body_trace_of_started bc auth config name (results pre.length) (initial_state 0) c hc
    refine ⟨mid, hmid, ?_⟩
    unfold iteration_trace
    rw [ht]
    simp [initial_state]
  · intro hn
    constructor
    · have := he
      unfold iteration_error at this
      rw [body_of_unresolved bc auth config name _ _ hn] at this
      exact (Option.some.inj this).symm
    · unfold iteration_trace
      rw [body_of_unresolved bc auth config name _ _ hn]
      rfl

/-- C7 (witness). For the names `sid`, `missing`, `etch`, where `sid` runs
without error and `missing` does not resolve: the error is chroot-not-found,
and the calls are those for `sid` alone. -/
theorem run_stops_at_first_failing_chroot_witness :
    (∀ (i : Nat) (n : String), ["sid"][i]? = some n →
      iteration_error example_build example_auth_user example_config n
        ((fun _ => results_success) i) = none) ∧
    iteration_error example_build example_auth_user example_config "missing"
        ((fun _ => results_success) ["sid"].length)
      = some (.chroot_not_found "missing") ∧
    (sbuild_session_run example_build example_auth_user (some example_config)
        (some (["sid"] ++ "missing" :: ["etch"])) sbuild_session_init_child_status
        (fun _ => results_success)).error = some (.chroot_not_found "missing") ∧
    (sbuild_session_run example_build example_auth_user (some example_config)
        (some (["sid"] ++ "missing" :: ["etch"])) sbuild_session_init_child_status
        (fun _ => results_success)).trace
      = [start_event example_build example_auth_user example_chroot,
         .fork, .wait, .close_session,
         stop_event example_build example_auth_user example_chroot] :=
  have hpre : ∀ (i : Nat) (n : String), ["sid"][i]? = some n →
      iteration_error example_build example_auth_user example_config n
        ((fun _ => results_success) i) = none := by
    intro i n h
    cases i with
    | zero =>
      have hn : n = "sid" := by simpa using h.symm
      subst hn
      decide
    | succ j => simp at h
  have he : iteration_error example_build example_auth_user example_config "missing"
      ((fun _ => results_success) ["sid"].length)
      = some (.chroot_not_found "missing") := by decide
  ⟨hpre, he,
    (run_stops_at_first_failing_chroot example_build example_auth_user example_config
      ["sid"] "missing" ["etch"] sbuild_session_init_child_status
      (fun _ => results_success) (.chroot_not_found "missing") hpre he).2.1,
    by decide⟩

/-- C8 (evaluation). With one chroot, when the child exits with status 0 and
the stop-phase setup scripts then fail, `sbuild_session_run` returns failure
with the stop-phase error, yet `child_status` is 0, and so is the exit status
that `main` passes to `exit`.  When instead the start-phase scripts fail, or
the name does not resolve, the exit status is `EXIT_FAILURE`. -/
theorem exit_status_zero_after_failed_stop_phase :
    (sbuild_session_run example_build example_auth_user (some example_config)
        (some ["sid"]) sbuild_session_init_child_status
        (fun _ => results_stop_fails)).ok = false ∧
    (sbuild_session_run example_build example_auth_user (some example_config)
        (some ["sid"]) sbuild_session_init_child_status
        (fun _ => results_stop_fails)).error = some (.chroot_setup .SETUP_STOP) ∧
    (sbuild_session_run example_build example_auth_user (some example_config)
        (some ["sid"]) sbuild_session_init_child_status
        (fun _ => results_stop_fails)).child_status = 0 ∧
    main_exit_status
      (sbuild_session_run example_build example_auth_user (some example_config)
        (some ["sid"]) sbuild_session_init_child_status
        (fun _ => results_stop_fails)) = EXIT_SUCCESS ∧
    main_exit_status
      (sbuild_session_run example_build example_auth_user (some example_config)
        (some ["sid"]) sbuild_session_init_child_status
        (fun _ => results_start_fails)) = EXIT_FAILURE ∧
    main_exit_status
      (sbuild_session_run example_build example_auth_user (some example_config)
        (some ["missing"]) sbuild_session_init_child_status
        (fun _ => results_success)) = EXIT_FAILURE := by
  decide

/-- C9 (counterexample). A child terminated by signal 11 and a child that
exits normally with code 1 leave the same `child_status`, and so the same
exit status of the process, although the errors differ. -/
theorem signalled_child_status_same_as_exit_one :
    WIFSIGNALED results_signalled.wait_status = true ∧
    WIFEXITED results_exit_one.wait_status = true ∧
    WEXITSTATUS results_exit_one.wait_status = 1 ∧
    (sbuild_session_run example_build example_auth_user (some example_config)
        (some ["sid"]) sbuild_session_init_child_status
        (fun _ => results_signalled)).error = some (.child_signalled 11) ∧
    (sbuild_session_run example_build example_auth_user (some example_config)
        (some ["sid"]) sbuild_session_init_child_status
        (fun _ => results_exit_one)).error = some (.child_exit_status 1) ∧
    main_exit_status
      (sbuild_session_run example_build example_auth_user (some example_config)
        (some ["sid"]) sbuild_session_init_child_status (fun _ => results_signalled))
      = main_exit_status
          (sbuild_session_run example_build example_auth_user (some example_config)
            (some ["sid"]) sbuild_session_init_child_status
            (fun _ => results_exit_one)) := by
  decide

theorem started_chroot_resolved (config : SbuildConfig) (name : String) (c : SbuildChroot)
    (hc : started_chroot config name = some c) :
    sbuild_config_find_alias config name = some c ∧ c.name ≠ none ∧ c.location ≠ none := by
  unfold started_chroot at hc
  cases hf : sbuild_config_find_alias config name with
  | none => simp [hf] at hc
  | some c1 =>
    rw [hf] at hc
    dsimp only at hc
    by_cases hg : c1.name ≠ none ∧ c1.location ≠ none
    · rw [if_pos hg] at hc
      have hcc : c1 = c := Option.some.inj hc
      subst hcc
      exact ⟨rfl, hg⟩
    · rw [if_neg hg] at hc
      cases hc

theorem wait_for_child_of_signalled (pid : Int) (r : ChrootResults)
    (hwait : r.wait = pid) (hclose : r.close_session_error = none)
    (hsig : WIFSIGNALED r.wait_status = true) :
    sbuild_session_wait_for_child pid r =
      { call := { trace := [.wait, .close_session], ok := false,
                  error := some (.child_signalled (WTERMSIG r.wait_status)) },
        child_status := EXIT_FAILURE } := by
  have hex : WIFEXITED r.wait_status = false := by
    unfold WIFSIGNALED at hsig
    unfold WIFEXITED
    have h1 : 1 ≤ WTERMSIG r.wait_status := (of_decide_eq_true hsig).1
    have : WTERMSIG r.wait_status ≠ 0 := by omega
    simpa using this
  unfold sbuild_session_wait_for_child
  simp [hwait, hclose, hex, hsig]

theorem wait_for_child_of_exit_one (pid : Int) (r : ChrootResults)
    (hwait : r.wait = pid) (hclose : r.close_session_error = none)
    (hex : WIFEXITED r.wait_status = true) (hone : WEXITSTATUS r.wait_status = 1) :
    sbuild_session_wait_for_child pid r =
      { call := { trace := [.wait, .close_session], ok := false,
                  error := some (.child_exit_status 1) },
        child_status := 1 } := by
  unfold sbuild_session_wait_for_child
  simp [hwait, hclose, hex, hone]

/-- The state after the iteration for a chroot that is set up and whose start
phase set no error: the child status is the one the child run leaves. -/
theorem body_child_status_of_started (bc : BuildConfig) (auth : SbuildAuth)
    (config : SbuildConfig) (name : String) (r : ChrootResults) (st : RunState)
    (c : SbuildChroot) (hf : sbuild_config_find_alias config name = some c)
    (hstart : (sbuild_session_setup_chroot bc auth c .SETUP_START r.setup_start).error
      = none) :
    (session_run_body bc auth config name r st).child_status
      = (sbuild_session_run_chroot c st.child_status r).child_status := by
  simp only [session_run_body, hf, hstart, if_true]

theorem run_chroot_of_signalled (c : SbuildChroot) (cs : Int) (r : ChrootResults)
    (pid : Int) (hn : c.name ≠ none) (hl : c.location ≠ none)
    (hfork : r.fork = .parent pid) (hwait : r.wait = pid)
    (hclose : r.close_session_error = none) (hsig : WIFSIGNALED r.wait_status = true) :
    sbuild_session_run_chroot c cs r =
      { call := { trace := [.fork, .wait, .close_session], ok := false,
                  error := some (.child_signalled (WTERMSIG r.wait_status)) },
        child_status := EXIT_FAILURE } := by
  unfold sbuild_session_run_chroot
  rw [if_neg hn, if_neg hl, hfork]
  simp only [wait_for_child_of_signalled pid r hwait hclose hsig]

/-- The error with which `sbuild_session_wait_for_child` fails for a wait
status that shows a signal: the wait error when `wait` does not return the
child, the error of `sbuild_auth_close_session` when closing the PAM session
fails, and the child-signalled error otherwise. -/
theorem wait_for_child_signalled_cases (pid : Int) (r : ChrootResults)
    (hsig : WIFSIGNALED r.wait_status = true) :
    (sbuild_session_wait_for_child pid r).child_status = EXIT_FAILURE ∧
    (sbuild_session_wait_for_child pid r).call.ok = false ∧
    (r.wait ≠ pid →
      (sbuild_session_wait_for_child pid r).call.error = some .wait_failed) ∧
    (r.wait = pid → ∀ message, r.close_session_error = some message →
      (sbuild_session_wait_for_child pid r).call.error = some (.pam message)) ∧
    (r.wait = pid → r.close_session_error = none →
      (sbuild_session_wait_for_child pid r).call.error
        = some (.child_signalled (WTERMSIG r.wait_status))) ∧
    (sbuild_session_wait_for_child pid r).call.error ≠ none := by
  have hex : WIFEXITED r.wait_status = false := by
    unfold WIFSIGNALED at hsig
    unfold WIFEXITED
    have h1 : 1 ≤ WTERMSIG r.wait_status := (of_decide_eq_true hsig).1
    have : WTERMSIG r.wait_status ≠ 0 := by omega
    simpa using this
  by_cases hw : r.wait = pid
  · cases hc : r.close_session_error with
    | none =>
      have e := wait_for_child_of_signalled pid r hw hc hsig
      rw [e]
      refine ⟨rfl, rfl, fun h => absurd hw h, ?_, fun _ _ => rfl, by simp⟩
      intro _ message hm
      cases hm
    | some m =>
      have e : sbuild_session_wait_for_child pid r =
          { call := { trace := [.wait, .close_session], ok := false,
                      error := some (.pam m) },
            child_status := EXIT_FAILURE } := by
        unfold sbuild_session_wait_for_child
        simp [hw, hc]
      rw [e]
      refine ⟨rfl, rfl, fun h => absurd hw h, ?_, ?_, by simp⟩
      · intro _ message hm
        cases hm
        rfl
      · intro _ hm
        cases hm
  · have e : sbuild_session_wait_for_child pid r =
        { call := { trace := [.wait], ok := false, error := some .wait_failed },
          child_status := EXIT_FAILURE } := by
      unfold sbuild_session_wait_for_child
      simp [hw]
    rw [e]
    exact ⟨rfl, rfl, fun _ => rfl, fun h => absurd h hw, fun h => absurd h hw, by simp⟩

theorem run_chroot_of_wait_error (c : SbuildChroot) (cs : Int) (r : ChrootResults)
    (pid : Int) (hn : c.name ≠ none) (hl : c.location ≠ none)
    (hfork : r.fork = .parent pid)
    (he : (sbuild_session_wait_for_child pid r).call.error ≠ none) :
    (sbuild_session_run_chroot c cs r).call.error
      = (sbuild_session_wait_for_child pid r).call.error ∧
    (sbuild_session_run_chroot c cs r).child_status
      = (sbuild_session_wait_for_child pid r).child_status := by
  unfold sbuild_session_run_chroot
  rw [if_neg hn, if_neg hl, hfork]
  simp only
  cases hx : (sbuild_session_wait_for_child pid r).call.error with
  | none => exact absurd hx he
  | some e => exact ⟨rfl, rfl⟩

/-- C9 (amended). When the child of the first failing chroot is terminated by
a signal, `sbuild_session_wait_for_child` fails: with the child-signalled
error when `wait` returns the child and the PAM session closes without error,
with the error of `sbuild_auth_close_session` when closing the PAM session
fails, which is returned before the wait status is looked at, and with the
wait error when `wait` does not return the child.  In each case that error is
the one `sbuild_session_run` returns, the stop-phase setup for the chroot
still runs, and the exit status of the session (`child_status`) is
`EXIT_FAILURE`, which is not zero and is the status that a child exiting
normally with code 1 leaves. -/
theorem signalled_child_leaves_exit_failure (bc : BuildConfig) (auth : SbuildAuth)
    (config : SbuildConfig) (pre : List String) (name : String) (post : List String)
    (cs : Int) (results : Nat → ChrootResults) (c : SbuildChroot) (pid : Int)
    (hpre : ∀ i n, pre[i]? = some n → iteration_error bc auth config n (results i) = none)
    (hc : started_chroot config name = some c)
    (hstart : (sbuild_session_setup_chroot bc auth c .SETUP_START
      (results pre.length).setup_start).error = none)
    (hfork : (results pre.length).fork = .parent pid)
    (hsig : WIFSIGNALED (results pre.length).wait_status = true) :
    (sbuild_session_wait_for_child pid (results pre.length)).call.ok = false ∧
    ((results pre.length).wait = pid → (results pre.length).close_session_error = none →
      (sbuild_session_wait_for_child pid (results pre.length)).call.error
        = some (.child_signalled (WTERMSIG (results pre.length).wait_status))) ∧
    ((results pre.length).wait = pid →
      ∀ message, (results pre.length).close_session_error = some message →
      (sbuild_session_wait_for_child pid (results pre.length)).call.error
        = some (.pam message)) ∧
    ((results pre.length).wait ≠ pid →
      (sbuild_session_wait_for_child pid (results pre.length)).call.error
        = some .wait_failed) ∧
    (sbuild_session_run bc auth (some config) (some (pre ++ name :: post)) cs
      results).error
      = (sbuild_session_wait_for_child pid (results pre.length)).call.error ∧
    (sbuild_session_run bc auth (some config) (some (pre ++ name :: post)) cs
      results).ok = false ∧
    stop_event bc auth c ∈
      (sbuild_session_run bc auth (some config) (some (pre ++ name :: post)) cs
        results).trace ∧
    main_exit_status
      (sbuild_session_run bc auth (some config) (some (pre ++ name :: post)) cs results)
      = EXIT_FAILURE ∧
    EXIT_FAILURE ≠ 0 ∧
    (∀ r2 : ChrootResults, r2.wait = pid → r2.close_session_error = none →
      WIFEXITED r2.wait_status = true → WEXITSTATUS r2.wait_status = 1 →
      (sbuild_session_wait_for_child pid r2).child_status
        = main_exit_status
            (sbuild_session_run bc auth (some config) (some (pre ++ name :: post)) cs
              results)) := by
  obtain ⟨hf, hn, hl⟩ := started_chroot_resolved config name c hc
  obtain ⟨w1, w2, w3, w4, w5, w6⟩ :=
    wait_for_child_signalled_cases pid (results pre.length) hsig
  obtain ⟨e, hwe⟩ : ∃ e, (sbuild_session_wait_for_child pid (results pre.length)).call.error
      = some e := by
    cases hx : (sbuild_session_wait_for_child pid (results pre.length)).call.error with
    | none => exact absurd hx w6
    | some e => exact ⟨e, rfl⟩
  have hrc : ∀ cs1,
      (sbuild_session_run_chroot c cs1 (results pre.length)).call.error = some e ∧
      (sbuild_session_run_chroot c cs1 (results pre.length)).child_status = EXIT_FAILURE := by
    intro cs1
    obtain ⟨h1, h2⟩ := run_chroot_of_wait_error c cs1 (results pre.length) pid hn hl hfork w6
    rw [h1, h2, hwe, w1]
    exact ⟨rfl, rfl⟩
  have he : iteration_error bc auth config name (results pre.length) = some e := by
    rw [iteration_error_of_resolved bc auth config name _ c 0 hf, hstart, (hrc 0).1]
    simp
  have hloop := loop_stops_at_error bc auth config results pre name post (initial_state cs)
    _ hpre he
  have hstatus : main_exit_status
      (sbuild_session_run bc auth (some config) (some (pre ++ name :: post)) cs results)
      = EXIT_FAILURE := by
    unfold main_exit_status
    rw [run_eq_loop]
    simp only
    rw [hloop, body_child_status_of_started bc auth config name _ _ c hf hstart, (hrc _).2]
  refine ⟨w2, w5, w4, w3, ?_, ?_, ?_, hstatus, by decide, ?_⟩
  · rw [run_eq_loop]
    simp only
    rw [hloop, body_error_eq, he, hwe]
  · rw [run_eq_loop]
    simp only
    rw [hloop, body_error_eq, he]
    rfl
  · rw [run_eq_loop]
    simp only
    rw [hloop]
    obtain ⟨mid, -, ht⟩ := body_trace_of_started bc auth config name (results pre.length)
      (session_run_loop bc auth config results pre 0 (initial_state cs)) c hc
    rw [ht]
    simp
  · intro r2 h1 h2 h3 h4
    rw [hstatus, wait_for_child_of_exit_one pid r2 h1 h2 h3 h4]
    rfl

/-- C9 (amended, witness). With the one chroot `sid` and a child terminated
by signal 11, the exit status is `EXIT_FAILURE`. -/
theorem signalled_child_leaves_exit_failure_witness :
    started_chroot example_config "sid" = some example_chroot ∧
    WIFSIGNALED ((fun _ => results_signalled) ([] : List String).length).wait_status
      = true ∧
    main_exit_status
      (sbuild_session_run example_build example_auth_user (some example_config)
        (some ([] ++ "sid" :: [])) sbuild_session_init_child_status
        (fun _ => results_signalled)) = EXIT_FAILURE :=
  ⟨by decide, by decide,
    (signalled_child_leaves_exit_failure example_build example_auth_user example_config
      [] "sid" [] sbuild_session_init_child_status (fun _ => results_signalled)
      example_chroot 4242 (by intro i n h; simp at h) (by decide) (by decide) rfl
      (by decide)).2.2.2.2.2.2.2.1⟩

/-! ## Theorems: the keyfile -/

/-- C10 (evaluation). The text `example_text_commented` parses to a keyfile
with a commented group and a commented item.  Writing that keyfile puts no
newline after the comment lines, so the group header and the item line end up
inside comment lines, and parsing the written text gives the keyfile without
groups: the round trip is not the identity on a keyfile with comments.  A
text of comment lines only parses to the keyfile without groups, whose
written form is empty. -/
theorem commented_keyfile_round_trip_differs :
    keyfile_from_stream example_text_commented = .ok example_keyfile_commented ∧
    operator_insert example_keyfile_commented
      = "#about g[g]\n#first#secondk=v\n".toList ∧
    keyfile_from_stream (operator_insert example_keyfile_commented) = .ok keyfile_new ∧
    keyfile_new ≠ example_keyfile_commented ∧
    keyfile_new.get_groups ≠ example_keyfile_commented.get_groups ∧
    keyfile_from_stream "#one\n#two\n".toList = .ok keyfile_new ∧
    keyfile_new.get_groups = [] ∧
    operator_insert keyfile_new = [] :=
  ⟨rfl, by decide, rfl, by decide, by decide, rfl, rfl, rfl⟩

theorem find_index_from_spec (p : Char → Bool) (start : Nat) (s : List Char) (i j : Nat)
    (h : find_index_from p start s i = some j) :
    start ≤ j ∧ i ≤ j ∧ ∃ c, s[j - i]? = some c ∧ p c = true := by
  induction s generalizing i with
  | nil => simp [find_index_from] at h
  | cons c rest ih =>
    unfold find_index_from at h
    by_cases hc : start ≤ i ∧ p c = true
    · rw [if_pos hc] at h
      have hij : i = j := Option.some.inj h
      subst hij
      exact ⟨hc.1, Nat.le_refl _, c, by simp, hc.2⟩
    · rw [if_neg hc] at h
      obtain ⟨h1, h2, c1, h3, h4⟩ := ih (i + 1) h
      refine ⟨h1, by omega, c1, ?_, h4⟩
      have hji : j - i = (j - (i + 1)) + 1 := by omega
      rw [hji, List.getElem?_cons_succ]
      exact h3

/-- Every round of the loop of `print_comment` that finds a further line moves
`last_pos` forward, so the loop is over within the bound on its rounds: a
larger bound gives the same text. -/
theorem print_comment_loop_fuel (comment : List Char) (fuel : Nat) :
    ∀ (last_pos : Option Nat) (stream : List Char) (k : Nat),
      (∀ lp, last_pos = some lp → lp ≤ comment.length ∧ comment.length + 1 - lp ≤ fuel) →
      print_comment_loop comment (fuel + k) last_pos
          (find_first_of comment '\n' last_pos) stream
        = print_comment_loop comment fuel last_pos
            (find_first_of comment '\n' last_pos) stream := by
  induction fuel with
  | zero =>
    intro last_pos stream k h
    cases last_pos with
    | none =>
      cases k with
      | zero => rfl
      | succ k => simp [print_comment_loop, find_first_of]
    | some lp =>
      have := h lp rfl
      omega
  | succ fuel ih =>
    intro last_pos stream k h
    cases last_pos with
    | none =>
      rw [show fuel + 1 + k = (fuel + k) + 1 by omega]
      simp [print_comment_loop, find_first_of]
    | some lp =>
      obtain ⟨hlp, hfuel⟩ := h lp rfl
      rw [show fuel + 1 + k = (fuel + k) + 1 by omega]
      simp only [print_comment_loop, ne_eq, reduceCtorEq, not_false_eq_true, or_true, if_true]
      apply ih
      intro l1 hl1
      -- the position of the newline found from `lp`
      cases hq : find_first_of comment '\n' (some lp) with
      | none =>
        rw [hq] at hl1
        simp [find_first_not_of] at hl1
      | some q =>
        rw [hq] at hl1
        obtain ⟨hq1, -, cq, hcq, hpq⟩ := find_index_from_spec _ lp comment 0 q hq
        obtain ⟨hl2, -, cl, hcl, hpl⟩ := find_index_from_spec _ q comment 0 l1 hl1
        simp only [Nat.sub_zero] at hcq hcl
        have hlt : l1 < comment.length := by
          by_contra hge
          rw [List.getElem?_eq_none (by omega)] at hcl
          cases hcl
        have hne : l1 ≠ q := by
          intro heq
          subst heq
          rw [hcq] at hcl
          have : cq = cl := Option.some.inj hcl
          subst this
          simp only [beq_iff_eq] at hpq
          subst hpq
          simp at hpl
        omega

/-- The bound on the rounds of the loop in `print_comment` is enough: a larger
bound gives the same text. -/
theorem print_comment_fuel_enough (comment stream : List Char) (k : Nat) :
    print_comment_loop comment (comment.length + 1 + k) (some 0)
        (find_first_of comment '\n' (some 0)) stream
      = print_comment comment stream := by
  unfold print_comment
  apply print_comment_loop_fuel
  intro lp hlp
  have : lp = 0 := (Option.some.inj hlp).symm
  subst this
  omega

theorem parse_comment_lines (lines : List (List Char)) (st : parse_state)
    (h : ∀ l ∈ lines, l.head? = some '#') :
    ∃ st1, parse_lines lines st = .ok st1 ∧ st1.tmp = st.tmp := by
  induction lines generalizing st with
  | nil => exact ⟨st, rfl, rfl⟩
  | cons l rest ih =>
    have hl : l.head? = some '#' := h l (List.mem_cons_self l rest)
    have hstep : parse_line st l = .ok
        { st with linecount := st.linecount + 1,
                  comment := (if st.comment ≠ [] then st.comment ++ ['\n'] else st.comment)
                    ++ l.drop 1 } := by
      unfold parse_line
      simp only [hl, if_true]
    obtain ⟨st1, h1, h2⟩ := ih
      { st with linecount := st.linecount + 1,
                comment := (if st.comment ≠ [] then st.comment ++ ['\n'] else st.comment)
                  ++ l.drop 1 }
      (fun x hx => h x (List.mem_cons_of_mem l hx))
    refine ⟨st1, ?_, h2⟩
    simp only [parse_lines, hstep]
    exact h1

/-- A text of comment lines only parses to the keyfile without groups; the
comment lines are not kept, and the written form of the result is empty. -/
theorem comment_only_text_gives_no_groups (stream : List Char)
    (h : ∀ l ∈ getlines stream, l.head? = some '#') :
    keyfile_from_stream stream = .ok keyfile_new ∧
    keyfile_new.get_groups = [] ∧
    operator_insert keyfile_new = [] := by
  obtain ⟨st1, h1, h2⟩ := parse_comment_lines (getlines stream)
    { tmp := keyfile_new, linecount := 0, group := [], comment := [] } h
  refine ⟨?_, rfl, rfl⟩
  simp only [keyfile_from_stream, operator_extract, h1, h2]
  rfl

/-! ## Theorems: priorities and the mount device -/

/-- C18 (counterexample). For the key `aliases` of group `sid`, which is
present, the read with priority `PRIORITY_OBSOLETE` returns true and puts
the value `unstable` into the caller's variable. -/
theorem obsolete_read_delivers_value :
    example_keyfile_sid.has_key "sid".toList "aliases".toList = true ∧
    (example_keyfile_sid.get_value_priority "sid".toList "aliases".toList
        .PRIORITY_OBSOLETE "before".toList).status = true ∧
    (example_keyfile_sid.get_value_priority "sid".toList "aliases".toList
        .PRIORITY_OBSOLETE "before".toList).value = "unstable".toList := by
  decide

/-- C18 (amended). For a key that is present, the read with priority
`PRIORITY_OBSOLETE` does not discard the value: with `PRIORITY_OBSOLETE` as
with `PRIORITY_DEPRECATED` the read returns true and puts the value of the key
into the caller's variable; the priority only selects the messages written. -/
theorem read_with_priority_delivers_value (kf : keyfile) (group key : List Char)
    (item : item_type) (value : List Char)
    (h : kf.find_item group key = some item) :
    (∀ p, (kf.get_value_priority group key p value).status = true ∧
      (kf.get_value_priority group key p value).value = item.value) ∧
    (kf.get_value_priority group key .PRIORITY_OBSOLETE value).status = true ∧
    (kf.get_value_priority group key .PRIORITY_OBSOLETE value).value = item.value ∧
    (kf.get_value_priority group key .PRIORITY_DEPRECATED value).status = true ∧
    (kf.get_value_priority group key .PRIORITY_DEPRECATED value).value = item.value := by
  have hp : ∀ p, (kf.get_value_priority group key p value).status = true ∧
      (kf.get_value_priority group key p value).value = item.value := by
    intro p
    simp [keyfile.get_value_priority, keyfile.get_value, h]
  exact ⟨hp, (hp _).1, (hp _).2, (hp _).1, (hp _).2⟩

/-- C18 (amended, witness). The read of `aliases` in group `sid` with
priority `PRIORITY_DEPRECATED` returns true. -/
theorem read_with_priority_delivers_value_witness :
    example_keyfile_sid.find_item "sid".toList "aliases".toList
      = some { key := "aliases".toList, value := "unstable".toList, comment := [] } ∧
    (example_keyfile_sid.get_value_priority "sid".toList "aliases".toList
        .PRIORITY_DEPRECATED []).status = true :=
  ⟨by decide,
    (read_with_priority_delivers_value example_keyfile_sid "sid".toList "aliases".toList
      { key := "aliases".toList, value := "unstable".toList, comment := [] } []
      (by decide)).2.2.2.1⟩

/-- C19 (evaluation). For a key that is present, `check_priority` with
`PRIORITY_OBSOLETE` writes the obsolete-parameter warning and then also the
disallowed-parameter error that `PRIORITY_DISALLOWED` writes, for any group
and key; `PRIORITY_DEPRECATED` writes no error. -/
theorem obsolete_priority_writes_disallowed_error (group key : List Char) :
    check_priority group key .PRIORITY_OBSOLETE true =
      [{ level := .warning, text := .obsolete_specified group key },
       { level := .info, text := .has_been_removed },
       { level := .error, text := .disallowed_specified group key },
       { level := .info, text := .not_allowed_in_context }] ∧
    check_priority group key .PRIORITY_DISALLOWED true =
      [{ level := .error, text := .disallowed_specified group key },
       { level := .info, text := .not_allowed_in_context }] ∧
    (check_priority group key .PRIORITY_OBSOLETE true).filter
        (fun e => e.level = .error) ≠ [] ∧
    (check_priority group key .PRIORITY_DEPRECATED true).filter
        (fun e => e.level = .error) = [] := by
  refine ⟨rfl, rfl, ?_, ?_⟩ <;>
    simp [check_priority, check_priority_disallowed]

/-- C20 (counterexample). For a chroot that is not active, with origin device
`/dev/vg/unstable` and no snapshot device, `get_mount_device` returns the
empty snapshot device, not the origin device. -/
theorem mount_device_of_inactive_is_not_origin :
    example_lvm_inactive.active = false ∧
    example_lvm_inactive.device = "/dev/vg/unstable".toList ∧
    example_lvm_inactive.get_mount_device = [] ∧
    example_lvm_inactive.get_mount_device ≠ example_lvm_inactive.device := by
  decide

/-- C20 (amended). For every LvmSnapshot chroot, active or not,
`get_mount_device` returns `snapshot_device`. -/
theorem mount_device_is_snapshot_device (c : ChrootLvmSnapshot) :
    c.get_mount_device = c.get_snapshot_device ∧
    c.get_mount_device = c.snapshot_device :=
  ⟨rfl, rfl⟩

/-! ## Theorems: the lines of a keyfile -/

theorem keyfile_from_stream_eq (stream : List Char) :
    keyfile_from_stream stream = keyfile_of_lines (getlines stream) := rfl

theorem find_index_from_none (p : Char → Bool) (l : List Char) (i : Nat)
    (h : ∀ c ∈ l, p c = false) : find_index_from p 0 l i = none := by
  induction l generalizing i with
  | nil => rfl
  | cons c rest ih =>
    have hc : p c = false := h c (List.mem_cons_self c rest)
    simp only [find_index_from, hc, Nat.zero_le, true_and, Bool.false_eq_true, if_false]
    exact ih (i + 1) (fun x hx => h x (List.mem_cons_of_mem c hx))

theorem find_index_from_append (p : Char → Bool) (a : List Char) (c : Char)
    (b : List Char) (i : Nat) (ha : ∀ x ∈ a, p x = false) (hc : p c = true) :
    find_index_from p 0 (a ++ c :: b) i = some (i + a.length) := by
  induction a generalizing i with
  | nil => simp [find_index_from, hc]
  | cons x rest ih =>
    have hx : p x = false := ha x (List.mem_cons_self x rest)
    simp only [List.cons_append, find_index_from, hx, Nat.zero_le, true_and,
      Bool.false_eq_true, if_false, List.length_cons, List.append_eq]
    rw [ih (i + 1) (fun y hy => ha y (List.mem_cons_of_mem x hy))]
    congr 1
    omega

theorem find_last_index_unchanged (p : Char → Bool) (l : List Char) (i : Nat)
    (best : Option Nat) (h : ∀ c ∈ l, p c = false) :
    find_last_index p l i best = best := by
  induction l generalizing i best with
  | nil => rfl
  | cons c rest ih =>
    have hc : p c = false := h c (List.mem_cons_self c rest)
    simp only [find_last_index, hc, Bool.false_eq_true, if_false]
    exact ih (i + 1) best (fun x hx => h x (List.mem_cons_of_mem c hx))

theorem find_last_index_append (p : Char → Bool) (a r : List Char) (i : Nat)
    (best : Option Nat) :
    find_last_index p (a ++ r) i best
      = find_last_index p r (i + a.length) (find_last_index p a i best) := by
  induction a generalizing i best with
  | nil => simp [find_last_index]
  | cons x rest ih =>
    simp only [List.cons_append, find_last_index, List.length_cons, List.append_eq]
    rw [ih]
    congr 1
    omega

theorem find_last_index_ge (p : Char → Bool) (l : List Char) (i : Nat)
    (best : Option Nat) (h : ∃ c ∈ l, p c = true) :
    ∃ j, find_last_index p l i best = some j ∧ i ≤ j := by
  induction l generalizing i best with
  | nil => simp at h
  | cons c rest ih =>
    simp only [find_last_index]
    by_cases hr : ∃ x ∈ rest, p x = true
    · obtain ⟨j, hj, hij⟩ := ih (i + 1) (if p c = true then some i else best) hr
      exact ⟨j, hj, by omega⟩
    · have hnone : ∀ x ∈ rest, p x = false := by
        intro x hx
        by_contra hpx
        exact hr ⟨x, hx, by simpa using hpx⟩
      rw [find_last_index_unchanged p rest _ _ hnone]
      obtain ⟨x, hx, hpx⟩ := h
      rcases List.mem_cons.mp hx with rfl | hxr
      · exact ⟨i, by simp [hpx], Nat.le_refl i⟩
      · rw [hnone x hxr] at hpx
        cases hpx

/-- Every list that holds a character splits at the first place it holds it. -/
theorem split_at_first (c : Char) (l : List Char) (h : c ∈ l) :
    ∃ a b, l = a ++ c :: b ∧ c ∉ a := by
  induction l with
  | nil => simp at h
  | cons x rest ih =>
    by_cases hx : x = c
    · exact ⟨[], rest, by simp [hx], by simp⟩
    · have hr : c ∈ rest := by
        rcases List.mem_cons.mp h with h1 | h1
        · exact absurd h1.symm hx
        · exact h1
      obtain ⟨a, b, hab, hca⟩ := ih hr
      refine ⟨x :: a, b, by simp [hab], ?_⟩
      intro hmem
      rcases List.mem_cons.mp hmem with h1 | h1
      · exact hx h1.symm
      · exact hca h1

theorem find_first_of_split (c : Char) (a b : List Char) (hca : c ∉ a) :
    find_first_of (a ++ c :: b) c (some 0) = some a.length := by
  simp only [find_first_of]
  rw [find_index_from_append (fun x => x == c) a c b 0 ?_ (by simp)]
  · simp
  · intro x hx
    have : x ≠ c := fun h => hca (h ▸ hx)
    simpa using this

theorem find_first_of_absent (c : Char) (l : List Char) (h : c ∉ l) :
    find_first_of l c (some 0) = none := by
  simp only [find_first_of]
  apply find_index_from_none
  intro x hx
  have : x ≠ c := fun e => h (e ▸ hx)
  simpa using this

theorem find_last_of_split (c : Char) (a b : List Char) (hcb : c ∉ b) :
    find_last_of (a ++ c :: b) c = some a.length := by
  unfold find_last_of
  rw [find_last_index_append]
  simp only [find_last_index, Nat.zero_add, beq_self_eq_true, if_true]
  apply find_last_index_unchanged
  intro x hx
  have : x ≠ c := fun e => hcb (e ▸ hx)
  simpa using this

theorem find_last_of_split_later (c : Char) (a b : List Char) (hcb : c ∈ b) :
    ∃ j, find_last_of (a ++ c :: b) c = some j ∧ a.length < j := by
  unfold find_last_of
  rw [find_last_index_append]
  simp only [find_last_index, Nat.zero_add, beq_self_eq_true, if_true]
  obtain ⟨j, hj, hij⟩ := find_last_index_ge (fun x => x == c) b (a.length + 1)
    (some a.length) ⟨c, hcb, by simp⟩
  exact ⟨j, hj, by omega⟩

/-- The test of `operator >>` on a line that starts with `[`: the first and
the last `]` are found at the same place exactly when the line holds one
`]`. -/
theorem group_test_iff (l : List Char) :
    (find_first_of l ']' (some 0) = none ∨
      find_first_of l ']' (some 0) ≠ find_last_of l ']') ↔ l.count ']' ≠ 1 := by
  by_cases hmem : ']' ∈ l
  · obtain ⟨a, b, hab, hca⟩ := split_at_first ']' l hmem
    subst hab
    rw [find_first_of_split ']' a b hca]
    have hcount : (a ++ ']' :: b).count ']' = 1 + b.count ']' := by
      rw [List.count_append, List.count_cons_self, List.count_eq_zero_of_not_mem hca]
      omega
    by_cases hcb : ']' ∈ b
    · obtain ⟨j, hj, hlt⟩ := find_last_of_split_later ']' a b hcb
      rw [hj, hcount]
      have hpos : 0 < b.count ']' := List.count_pos_iff.mpr hcb
      constructor
      · intro _
        omega
      · intro _
        right
        intro heq
        have := Option.some.inj heq
        omega
    · rw [find_last_of_split ']' a b hcb, hcount, List.count_eq_zero_of_not_mem hcb]
      simp
  · rw [find_first_of_absent ']' l hmem, List.count_eq_zero_of_not_mem hmem]
    simp

theorem parse_line_comment (st : parse_state) (l : List Char) (h : l.head? = some '#') :
    parse_line st l = .ok
      { st with linecount := st.linecount + 1,
                comment := (if st.comment ≠ [] then st.comment ++ ['\n'] else st.comment)
                  ++ l.drop 1 } := by
  unfold parse_line
  simp only [h, if_true]

theorem parse_line_blank (st : parse_state) :
    parse_line st [] = .ok { st with linecount := st.linecount + 1 } := by
  simp [parse_line]

theorem parse_line_group_bad (st : parse_state) (l : List Char)
    (h : invalid_group_line l) :
    parse_line st l = .error (.invalid_group (st.linecount + 1) l) := by
  obtain ⟨hh, hc⟩ := h
  have ht := (group_test_iff l).mpr hc
  unfold parse_line
  have h1 : ¬ l.head? = some '#' := by rw [hh]; decide
  simp only [h1, if_false, hh, if_true]
  cases hf : find_first_of l ']' (some 0) with
  | none => rfl
  | some fp =>
    rw [hf] at ht
    have hne : some fp ≠ find_last_of l ']' := by
      rcases ht with h0 | h0
      · cases h0
      · exact h0
    simp only [ne_eq, hne, not_false_eq_true, if_true]
    rw [if_neg (by decide)]

/-- A line `[group]tail` with no `]` in `group` or `tail` is a group header:
the group is created with the accumulated comment unless it exists. -/
theorem parse_line_group_ok (st : parse_state) (g tail : List Char)
    (hg : ']' ∉ g) (ht : ']' ∉ tail) :
    parse_line st ('[' :: g ++ ']' :: tail) = .ok
      { tmp := if st.tmp.has_group g = true then st.tmp else st.tmp.set_group g st.comment,
        linecount := st.linecount + 1, group := g, comment := [] } := by
  have ha : ']' ∉ '[' :: g := by
    intro hm
    rcases List.mem_cons.mp hm with h | h
    · cases h
    · exact hg h
  have hf : find_first_of ('[' :: g ++ ']' :: tail) ']' (some 0) = some (g.length + 1) := by
    have := find_first_of_split ']' ('[' :: g) tail ha
    simpa using this
  have hl : find_last_of ('[' :: g ++ ']' :: tail) ']' = some (g.length + 1) := by
    have := find_last_of_split ']' ('[' :: g) tail ht
    simpa using this
  have hsub : substr ('[' :: g ++ ']' :: tail) 1 (g.length + 1 - 1) = g := by
    simp [substr]
  unfold parse_line
  have h1 : ¬ (('[' :: g ++ ']' :: tail).head? = some '#') := by
    simp only [List.cons_append, List.head?_cons]
    decide
  have h2 : ('[' :: g ++ ']' :: tail).head? = some '[' := rfl
  simp only [h1, if_false, h2, if_true, hf, hl, ne_eq, not_true_eq_false, hsub]
  rw [if_neg (by decide)]

/-- Every line that starts with `[` and holds exactly one `]` has the form
`[group]tail`. -/
theorem group_line_form (l : List Char) (hh : l.head? = some '[')
    (hc : l.count ']' = 1) :
    ∃ g tail, l = '[' :: g ++ ']' :: tail ∧ ']' ∉ g ∧ ']' ∉ tail := by
  cases l with
  | nil => simp at hh
  | cons x rest =>
    have hx : x = '[' := by simpa using hh
    subst hx
    have hcr : rest.count ']' = 1 := by
      rw [List.count_cons] at hc
      simpa using hc
    have hmem : ']' ∈ rest := List.count_pos_iff.mp (by omega)
    obtain ⟨a, b, hab, hca⟩ := split_at_first ']' rest hmem
    subst hab
    refine ⟨a, b, by simp, hca, ?_⟩
    intro hb
    have h1 : (a ++ ']' :: b).count ']' = 1 + b.count ']' := by
      rw [List.count_append, List.count_cons_self, List.count_eq_zero_of_not_mem hca]
      omega
    have : 0 < b.count ']' := List.count_pos_iff.mpr hb
    omega

theorem parse_line_item_invalid (st : parse_state) (l : List Char)
    (h : invalid_item_line l) :
    parse_line st l = .error (.invalid_line (st.linecount + 1) l) := by
  obtain ⟨hne, h1, h2, h3⟩ := h
  have hlen : ¬ l.length = 0 := by
    intro h0
    exact hne (List.length_eq_zero.mp h0)
  unfold parse_line
  simp only [h1, h2, if_false, hlen, find_first_of_absent '=' l h3]

theorem parse_line_no_key (st : parse_state) (l : List Char) (h : no_key_line l) :
    parse_line st l = .error (.no_key (st.linecount + 1) l) := by
  have h1 : ¬ l.head? = some '#' := by rw [h]; decide
  have h2 : ¬ l.head? = some '[' := by rw [h]; decide
  cases l with
  | nil => simp [no_key_line] at h
  | cons x rest =>
    have hx : x = '=' := by simpa [no_key_line] using h
    subst hx
    have hf : find_first_of ('=' :: rest) '=' (some 0) = some 0 := by
      have := find_first_of_split '=' [] rest (by simp)
      simpa using this
    unfold parse_line
    simp only [h1, h2, if_false, List.length_cons, Nat.add_one_ne_zero, hf, if_true]

/-- A line `key=value` with a key that is not empty, holds no `=` and starts
with neither `#` nor `[` is an item: the key is the text before the first `=`
and the value is all the text after it. -/
theorem parse_line_item_ok (st : parse_state) (key value : List Char)
    (hne : key ≠ []) (h1 : key.head? ≠ some '#') (h2 : key.head? ≠ some '[')
    (heq : '=' ∉ key) :
    parse_line st (key ++ '=' :: value) = .ok
      { st with
        tmp := if st.tmp.has_key st.group key = true then st.tmp
               else st.tmp.set_value st.group key value st.comment,
        linecount := st.linecount + 1, comment := [] } := by
  have hhead : (key ++ '=' :: value).head? = key.head? := by
    cases key with
    | nil => exact absurd rfl hne
    | cons x rest => rfl
  have hlen : ¬ (key ++ '=' :: value).length = 0 := by simp
  have hf : find_first_of (key ++ '=' :: value) '=' (some 0) = some key.length :=
    find_first_of_split '=' key value heq
  have hk0 : ¬ key.length = 0 := fun h0 => hne (List.length_eq_zero.mp h0)
  have hsub : substr (key ++ '=' :: value) 0 key.length = key := by
    simp [substr]
  have hval : (if key.length = (key ++ '=' :: value).length - 1 then []
      else (key ++ '=' :: value).drop (key.length + 1)) = value := by
    have hd : (key ++ '=' :: value).drop (key.length + 1) = value := by
      rw [List.drop_append_eq_append_drop]
      simp
    rw [hd]
    split_ifs with hc
    · have : value.length = 0 := by
        simp only [List.length_append, List.length_cons] at hc
        omega
      exact (List.length_eq_zero.mp this).symm
    · rfl
  unfold parse_line
  rw [hhead]
  simp only [h1, h2, if_false, hlen, hf, hk0, hsub, hval]

/-- Every line that is not empty, starts with none of `#`, `[` and `=`, and
holds a `=` has the form `key=value`. -/
theorem item_line_form (l : List Char) (hne : l ≠ []) (h1 : l.head? ≠ some '#')
    (h2 : l.head? ≠ some '[') (h3 : l.head? ≠ some '=') (hmem : '=' ∈ l) :
    ∃ key value, l = key ++ '=' :: value ∧ key ≠ [] ∧ key.head? ≠ some '#' ∧
      key.head? ≠ some '[' ∧ '=' ∉ key := by
  obtain ⟨a, b, hab, hca⟩ := split_at_first '=' l hmem
  subst hab
  cases a with
  | nil => simp at h3
  | cons x rest =>
    exact ⟨x :: rest, b, rfl, by simp, by simpa using h1, by simpa using h2, hca⟩

/-- What `operator >>` does with one line: it throws for a bad line, with the
error of its kind and the number of the line, and goes on with the line
counted for every other line. -/
theorem parse_line_result (st : parse_state) (l : List Char) :
    (invalid_group_line l → parse_line st l = .error (.invalid_group (st.linecount + 1) l)) ∧
    (invalid_item_line l → parse_line st l = .error (.invalid_line (st.linecount + 1) l)) ∧
    (no_key_line l → parse_line st l = .error (.no_key (st.linecount + 1) l)) ∧
    (¬ bad_line l → ∃ st1, parse_line st l = .ok st1 ∧ st1.linecount = st.linecount + 1) := by
  refine ⟨parse_line_group_bad st l, parse_line_item_invalid st l, parse_line_no_key st l, ?_⟩
  intro hbad
  simp only [bad_line, not_or] at hbad
  obtain ⟨hg, hi, hk⟩ := hbad
  by_cases h1 : l.head? = some '#'
  · exact ⟨_, parse_line_comment st l h1, rfl⟩
  by_cases h2 : l.head? = some '['
  · have hc : l.count ']' = 1 := by
      by_contra hc
      exact hg ⟨h2, hc⟩
    obtain ⟨g, tail, hl, hgn, htn⟩ := group_line_form l h2 hc
    subst hl
    exact ⟨_, parse_line_group_ok st g tail hgn htn, rfl⟩
  by_cases h0 : l = []
  · subst h0
    exact ⟨_, parse_line_blank st, rfl⟩
  have hmem : '=' ∈ l := by
    by_contra hm
    exact hi ⟨h0, h1, h2, hm⟩
  obtain ⟨key, value, hl, hkn, hk1, hk2, hke⟩ := item_line_form l h0 h1 h2 hk hmem
  subst hl
  exact ⟨_, parse_line_item_ok st key value hkn hk1 hk2 hke, rfl⟩

/-! ## Theorems: maps in key order -/

theorem char_eq_of_toNat_eq (a b : Char) (h : a.toNat = b.toNat) : a = b := by
  apply Char.ext
  apply UInt32.ext
  exact h

theorem string_less_irrefl (a : List Char) : string_less a a = false := by
  induction a with
  | nil => rfl
  | cons x rest ih => simp [string_less, ih]

theorem string_less_trans (a b c : List Char) (h1 : string_less a b = true)
    (h2 : string_less b c = true) : string_less a c = true := by
  induction a generalizing b c with
  | nil =>
    cases b with
    | nil => simp [string_less] at h1
    | cons y bs =>
      cases c with
      | nil => simp [string_less] at h2
      | cons z cs => rfl
  | cons x as ih =>
    cases b with
    | nil => simp [string_less] at h1
    | cons y bs =>
      cases c with
      | nil => simp [string_less] at h2
      | cons z cs =>
        simp only [string_less] at h1 h2 ⊢
        by_cases hxy : x.toNat < y.toNat
        · by_cases hyz : y.toNat < z.toNat
          · have : x.toNat < z.toNat := by omega
            simp [this]
          · simp only [hyz, if_false] at h2
            by_cases hzy : z.toNat < y.toNat
            · simp [hzy] at h2
            · have : x.toNat < z.toNat := by omega
              simp [this]
        · simp only [hxy, if_false] at h1
          by_cases hyx : y.toNat < x.toNat
          · simp [hyx] at h1
          · simp only [hyx, if_false] at h1
            have hxe : x.toNat = y.toNat := by omega
            by_cases hyz : y.toNat < z.toNat
            · have : x.toNat < z.toNat := by omega
              simp [this]
            · simp only [hyz, if_false] at h2
              by_cases hzy : z.toNat < y.toNat
              · simp [hzy] at h2
              · simp only [hzy, if_false] at h2
                have h3 : ¬ x.toNat < z.toNat := by omega
                have h4 : ¬ z.toNat < x.toNat := by omega
                simp only [h3, h4, if_false]
                exact ih bs cs h1 h2

theorem string_less_total (a b : List Char) (hne : a ≠ b)
    (h : string_less a b = false) : string_less b a = true := by
  induction a generalizing b with
  | nil =>
    cases b with
    | nil => exact absurd rfl hne
    | cons y bs => simp [string_less] at h
  | cons x as ih =>
    cases b with
    | nil => rfl
    | cons y bs =>
      simp only [string_less] at h ⊢
      by_cases hxy : x.toNat < y.toNat
      · simp [hxy] at h
      · simp only [hxy, if_false] at h
        by_cases hyx : y.toNat < x.toNat
        · simp [hyx]
        · simp only [hyx, if_false] at h
          have hxe : x = y := char_eq_of_toNat_eq x y (by omega)
          subst hxe
          simp only [hyx, if_false]
          exact ih bs (fun e => hne (by rw [e])) h

theorem string_less_ne (a b : List Char) (h : string_less a b = true) : a ≠ b := by
  intro e
  subst e
  rw [string_less_irrefl] at h
  cases h

theorem string_less_asymm (a b : List Char) (h : string_less a b = true) :
    string_less b a = false := by
  cases hb : string_less b a with
  | false => rfl
  | true =>
    have := string_less_trans a b a h hb
    rw [string_less_irrefl] at this
    cases this

theorem map_find_cons_eq {β : Type} (k : List Char) (v1 : β)
    (rest : List (List Char × β)) : map_find k ((k, v1) :: rest) = some v1 := by
  simp only [map_find, if_true]

theorem map_find_cons_ne {β : Type} (k k1 : List Char) (v1 : β)
    (rest : List (List Char × β)) (h : k1 ≠ k) :
    map_find k ((k1, v1) :: rest) = map_find k rest := by
  simp only [map_find, h, if_false]

theorem map_insert_cons_eq {β : Type} (k : List Char) (v v1 : β)
    (rest : List (List Char × β)) :
    map_insert k v ((k, v1) :: rest) = (k, v1) :: rest := by
  simp only [map_insert, if_true]

theorem map_insert_cons_lt {β : Type} (k k1 : List Char) (v v1 : β)
    (rest : List (List Char × β)) (h : k1 ≠ k) (hl : string_less k k1 = true) :
    map_insert k v ((k1, v1) :: rest) = (k, v) :: (k1, v1) :: rest := by
  simp only [map_insert, h, if_false, hl, if_true]

theorem map_insert_cons_ge {β : Type} (k k1 : List Char) (v v1 : β)
    (rest : List (List Char × β)) (h : k1 ≠ k) (hl : string_less k k1 = false) :
    map_insert k v ((k1, v1) :: rest) = (k1, v1) :: map_insert k v rest := by
  simp only [map_insert, h, if_false, hl, Bool.false_eq_true]

theorem map_assign_cons_eq {β : Type} (k : List Char) (v v1 : β)
    (rest : List (List Char × β)) :
    map_assign k v ((k, v1) :: rest) = (k, v) :: rest := by
  simp only [map_assign, if_true]

theorem map_assign_cons_ne {β : Type} (k k1 : List Char) (v v1 : β)
    (rest : List (List Char × β)) (h : k1 ≠ k) :
    map_assign k v ((k1, v1) :: rest) = (k1, v1) :: map_assign k v rest := by
  simp only [map_assign, h, if_false]

theorem map_find_none_iff {β : Type} (k : List Char) (m : List (List Char × β)) :
    map_find k m = none ↔ k ∉ m.map Prod.fst := by
  induction m with
  | nil =>
    simp only [map_find, List.map_nil, List.not_mem_nil, not_false_eq_true]
  | cons p rest ih =>
    obtain ⟨k1, v1⟩ := p
    simp only [List.map_cons, List.mem_cons, not_or]
    by_cases h : k1 = k
    · subst h
      rw [map_find_cons_eq]
      constructor
      · intro e
        cases e
      · intro e
        exact absurd rfl e.1
    · rw [map_find_cons_ne k k1 v1 rest h, ih]
      constructor
      · intro hr
        exact ⟨fun e => h e.symm, hr⟩
      · intro hr
        exact hr.2

theorem map_find_mem {β : Type} (k : List Char) (v : β) (m : List (List Char × β))
    (h : map_find k m = some v) : (k, v) ∈ m := by
  induction m with
  | nil => cases h
  | cons p rest ih =>
    obtain ⟨k1, v1⟩ := p
    by_cases hk : k1 = k
    · subst hk
      rw [map_find_cons_eq] at h
      cases h
      exact List.mem_cons_self _ _
    · rw [map_find_cons_ne k k1 v1 rest hk] at h
      exact List.mem_cons_of_mem _ (ih h)

theorem map_find_of_mem_sorted {β : Type} (k : List Char) (v : β)
    (m : List (List Char × β)) (hs : map_sorted m) (h : (k, v) ∈ m) :
    map_find k m = some v := by
  induction m with
  | nil => cases h
  | cons p rest ih =>
    obtain ⟨k1, v1⟩ := p
    unfold map_sorted at hs
    rw [List.map_cons, List.pairwise_cons] at hs
    rcases List.mem_cons.mp h with heq | hr
    · cases heq
      exact map_find_cons_eq k v rest
    · have hlt : string_less k1 k = true :=
        hs.1 k (List.mem_map.mpr ⟨(k, v), hr, rfl⟩)
      rw [map_find_cons_ne k k1 v1 rest (string_less_ne k1 k hlt)]
      exact ih hs.2 hr

theorem map_find_insert_self {β : Type} (k : List Char) (v : β)
    (m : List (List Char × β)) (h : map_find k m = none) :
    map_find k (map_insert k v m) = some v := by
  induction m with
  | nil => exact map_find_cons_eq k v []
  | cons p rest ih =>
    obtain ⟨k1, v1⟩ := p
    by_cases hk : k1 = k
    · subst hk
      rw [map_find_cons_eq] at h
      cases h
    · rw [map_find_cons_ne k k1 v1 rest hk] at h
      cases hl : string_less k k1 with
      | true =>
        rw [map_insert_cons_lt k k1 v v1 rest hk hl]
        exact map_find_cons_eq k v _
      | false =>
        rw [map_insert_cons_ge k k1 v v1 rest hk hl, map_find_cons_ne k k1 v1 _ hk]
        exact ih h

theorem map_find_insert_ne {β : Type} (k k2 : List Char) (v : β)
    (m : List (List Char × β)) (hne : k2 ≠ k) :
    map_find k2 (map_insert k v m) = map_find k2 m := by
  induction m with
  | nil => exact map_find_cons_ne k2 k v [] (fun e => hne e.symm)
  | cons p rest ih =>
    obtain ⟨k1, v1⟩ := p
    by_cases hk : k1 = k
    · subst hk
      rw [map_insert_cons_eq]
    · cases hl : string_less k k1 with
      | true =>
        rw [map_insert_cons_lt k k1 v v1 rest hk hl]
        exact map_find_cons_ne k2 k v _ (fun e => hne e.symm)
      | false =>
        rw [map_insert_cons_ge k k1 v v1 rest hk hl]
        by_cases h2 : k1 = k2
        · subst h2
          rw [map_find_cons_eq, map_find_cons_eq]
        · rw [map_find_cons_ne k2 k1 v1 _ h2, map_find_cons_ne k2 k1 v1 _ h2]
          exact ih

theorem map_mem_insert {β : Type} (k : List Char) (v : β) (m : List (List Char × β))
    (q : List Char × β) (h : q ∈ map_insert k v m) : q = (k, v) ∨ q ∈ m := by
  induction m with
  | nil =>
    exact Or.inl (List.mem_singleton.mp h)
  | cons p rest ih =>
    obtain ⟨k1, v1⟩ := p
    by_cases hk : k1 = k
    · subst hk
      rw [map_insert_cons_eq] at h
      exact Or.inr h
    · cases hl : string_less k k1 with
      | true =>
        rw [map_insert_cons_lt k k1 v v1 rest hk hl] at h
        rcases List.mem_cons.mp h with h1 | h1
        · exact Or.inl h1
        · exact Or.inr h1
      | false =>
        rw [map_insert_cons_ge k k1 v v1 rest hk hl] at h
        rcases List.mem_cons.mp h with h1 | h1
        · exact Or.inr (h1 ▸ List.mem_cons_self _ _)
        · rcases ih h1 with h2 | h2
          · exact Or.inl h2
          · exact Or.inr (List.mem_cons_of_mem _ h2)

theorem map_keys_insert {β : Type} (k : List Char) (v : β) (m : List (List Char × β))
    (x : List Char) (h : x ∈ (map_insert k v m).map Prod.fst) :
    x = k ∨ x ∈ m.map Prod.fst := by
  obtain ⟨q, hq, hx⟩ := List.mem_map.mp h
  rcases map_mem_insert k v m q hq with h1 | h1
  · left
    rw [← hx, h1]
  · right
    exact List.mem_map.mpr ⟨q, h1, hx⟩

theorem map_sorted_insert {β : Type} (k : List Char) (v : β) (m : List (List Char × β))
    (hs : map_sorted m) : map_sorted (map_insert k v m) := by
  induction m with
  | nil =>
    unfold map_sorted
    exact List.pairwise_singleton _ _
  | cons p rest ih =>
    obtain ⟨k1, v1⟩ := p
    have hs0 := hs
    unfold map_sorted at hs
    rw [List.map_cons, List.pairwise_cons] at hs
    by_cases hk : k1 = k
    · subst hk
      rw [map_insert_cons_eq]
      exact hs0
    · cases hl : string_less k k1 with
      | true =>
        rw [map_insert_cons_lt k k1 v v1 rest hk hl]
        unfold map_sorted
        rw [List.map_cons, List.pairwise_cons]
        refine ⟨?_, hs0⟩
        intro x hx
        rcases List.mem_cons.mp hx with h1 | h1
        · rw [h1]
          exact hl
        · exact string_less_trans k k1 x hl (hs.1 x h1)
      | false =>
        rw [map_insert_cons_ge k k1 v v1 rest hk hl]
        have hgt : string_less k1 k = true :=
          string_less_total k k1 (fun e => hk e.symm) hl
        unfold map_sorted
        rw [List.map_cons, List.pairwise_cons]
        refine ⟨?_, ih hs.2⟩
        intro x hx
        rcases map_keys_insert k v rest x hx with h1 | h1
        · rw [h1]
          exact hgt
        · exact hs.1 x h1

theorem map_insert_at_end {β : Type} (k : List Char) (v : β) (m : List (List Char × β))
    (h : ∀ x ∈ m.map Prod.fst, string_less x k = true) :
    map_insert k v m = m ++ [(k, v)] := by
  induction m with
  | nil => rfl
  | cons p rest ih =>
    obtain ⟨k1, v1⟩ := p
    have h1 : string_less k1 k = true := h k1 (List.mem_cons_self _ _)
    rw [map_insert_cons_ge k k1 v v1 rest (string_less_ne k1 k h1)
      (string_less_asymm k1 k h1),
      ih (fun x hx => h x (List.mem_cons_of_mem _ hx))]
    rfl

theorem map_find_assign_self {β : Type} (k : List Char) (v v0 : β)
    (m : List (List Char × β)) (h : map_find k m = some v0) :
    map_find k (map_assign k v m) = some v := by
  induction m with
  | nil => cases h
  | cons p rest ih =>
    obtain ⟨k1, v1⟩ := p
    by_cases hk : k1 = k
    · subst hk
      rw [map_assign_cons_eq, map_find_cons_eq]
    · rw [map_find_cons_ne k k1 v1 rest hk] at h
      rw [map_assign_cons_ne k k1 v v1 rest hk, map_find_cons_ne k k1 v1 _ hk]
      exact ih h

theorem map_find_assign_ne {β : Type} (k k2 : List Char) (v : β)
    (m : List (List Char × β)) (hne : k2 ≠ k) :
    map_find k2 (map_assign k v m) = map_find k2 m := by
  induction m with
  | nil => rfl
  | cons p rest ih =>
    obtain ⟨k1, v1⟩ := p
    by_cases hk : k1 = k
    · subst hk
      rw [map_assign_cons_eq, map_find_cons_ne k2 k1 v _ (fun e => hne e.symm),
        map_find_cons_ne k2 k1 v1 _ (fun e => hne e.symm)]
    · rw [map_assign_cons_ne k k1 v v1 rest hk]
      by_cases h2 : k1 = k2
      · subst h2
        rw [map_find_cons_eq, map_find_cons_eq]
      · rw [map_find_cons_ne k2 k1 v1 _ h2, map_find_cons_ne k2 k1 v1 _ h2]
        exact ih

theorem map_keys_assign {β : Type} (k : List Char) (v : β) (m : List (List Char × β)) :
    (map_assign k v m).map Prod.fst = m.map Prod.fst := by
  induction m with
  | nil => rfl
  | cons p rest ih =>
    obtain ⟨k1, v1⟩ := p
    by_cases hk : k1 = k
    · subst hk
      rw [map_assign_cons_eq]
      rfl
    · rw [map_assign_cons_ne k k1 v v1 rest hk, List.map_cons, List.map_cons, ih]

theorem map_mem_assign {β : Type} (k : List Char) (v : β) (m : List (List Char × β))
    (q : List Char × β) (h : q ∈ map_assign k v m) : q = (k, v) ∨ q ∈ m := by
  induction m with
  | nil => cases h
  | cons p rest ih =>
    obtain ⟨k1, v1⟩ := p
    by_cases hk : k1 = k
    · subst hk
      rw [map_assign_cons_eq] at h
      rcases List.mem_cons.mp h with h1 | h1
      · exact Or.inl h1
      · exact Or.inr (List.mem_cons_of_mem _ h1)
    · rw [map_assign_cons_ne k k1 v v1 rest hk] at h
      rcases List.mem_cons.mp h with h1 | h1
      · exact Or.inr (h1 ▸ List.mem_cons_self _ _)
      · rcases ih h1 with h2 | h2
        · exact Or.inl h2
        · exact Or.inr (List.mem_cons_of_mem _ h2)

theorem map_assign_at_end {β : Type} (k : List Char) (v v0 : β)
    (m : List (List Char × β)) (h : k ∉ m.map Prod.fst) :
    map_assign k v (m ++ [(k, v0)]) = m ++ [(k, v)] := by
  induction m with
  | nil => exact map_assign_cons_eq k v v0 []
  | cons p rest ih =>
    obtain ⟨k1, v1⟩ := p
    have hk : k1 ≠ k := fun e => h (e ▸ List.mem_cons_self _ _)
    have hr : k ∉ rest.map Prod.fst := fun e => h (List.mem_cons_of_mem _ e)
    rw [List.cons_append, map_assign_cons_ne k k1 v v1 _ hk, ih hr]
    rfl

/-! ## Theorems: the members of `keyfile` -/

theorem set_group_of_present (kf : keyfile) (g c : List Char) (grp : group_type)
    (h : kf.find_group g = some grp) : kf.set_group g c = kf := by
  unfold keyfile.set_group keyfile.has_group
  rw [h]
  rfl

theorem set_group_of_absent (kf : keyfile) (g c : List Char)
    (h : kf.find_group g = none) :
    kf.set_group g c =
      { kf with groups := map_insert g { name := g, items := [], comment := c } kf.groups } := by
  unfold keyfile.set_group keyfile.has_group
  rw [h]
  rfl

theorem find_group_set_group_new (kf : keyfile) (g c : List Char)
    (h : kf.find_group g = none) :
    (kf.set_group g c).find_group g = some { name := g, items := [], comment := c } := by
  rw [set_group_of_absent kf g c h]
  exact map_find_insert_self g _ kf.groups h

theorem find_group_set_group_ne (kf : keyfile) (g c g2 : List Char) (hne : g2 ≠ g) :
    (kf.set_group g c).find_group g2 = kf.find_group g2 := by
  cases h : kf.find_group g with
  | some grp => rw [set_group_of_present kf g c grp h]
  | none =>
    rw [set_group_of_absent kf g c h]
    exact map_find_insert_ne g g2 _ kf.groups hne

theorem well_formed_set_group (kf : keyfile) (g c : List Char)
    (hw : keyfile_well_formed kf) : keyfile_well_formed (kf.set_group g c) := by
  cases h : kf.find_group g with
  | some grp =>
    rw [set_group_of_present kf g c grp h]
    exact hw
  | none =>
    rw [set_group_of_absent kf g c h]
    obtain ⟨h1, h2, h3⟩ := hw
    refine ⟨h1, map_sorted_insert g _ kf.groups h2, ?_⟩
    intro p hp
    rcases map_mem_insert g _ kf.groups p hp with hq | hq
    · rw [hq]
      refine ⟨rfl, ?_, ?_⟩
      · unfold map_sorted
        exact List.Pairwise.nil
      · intro q hq0
        cases hq0
    · exact h3 p hq

theorem keeps_refl (kf : keyfile) : keyfile_keeps kf kf :=
  fun _ grp h => ⟨grp, h, rfl, fun _ _ hi => hi⟩

theorem keeps_trans (a b c : keyfile) (h1 : keyfile_keeps a b) (h2 : keyfile_keeps b c) :
    keyfile_keeps a c := by
  intro g grp hg
  obtain ⟨grp1, hg1, hc1, hi1⟩ := h1 g grp hg
  obtain ⟨grp2, hg2, hc2, hi2⟩ := h2 g grp1 hg1
  exact ⟨grp2, hg2, hc2.trans hc1, fun k it hk => hi2 k it (hi1 k it hk)⟩

theorem keeps_set_group (kf : keyfile) (g c : List Char) :
    keyfile_keeps kf (kf.set_group g c) := by
  intro g2 grp hg
  by_cases hne : g2 = g
  · subst hne
    rw [set_group_of_present kf g2 c grp hg]
    exact ⟨grp, hg, rfl, fun _ _ hi => hi⟩
  · rw [find_group_set_group_ne kf g c g2 hne]
    exact ⟨grp, hg, rfl, fun _ _ hi => hi⟩

/-- The group that `set_value` finds after making sure that it exists. -/
theorem find_group_after_set_group (kf : keyfile) (g : List Char) :
    ∃ found, (kf.set_group g []).find_group g = some found ∧
      (∀ grp, kf.find_group g = some grp → found = grp) ∧
      (kf.find_group g = none → found = { name := g, items := [], comment := [] }) := by
  cases h : kf.find_group g with
  | some grp =>
    rw [set_group_of_present kf g [] grp h]
    refine ⟨grp, h, fun x hx => (Option.some.inj hx), ?_⟩
    intro hx
    cases hx
  | none =>
    refine ⟨_, find_group_set_group_new kf g [] h, ?_, fun _ => rfl⟩
    intro x hx
    cases hx

/-- The member `set_value` for a key that the group does not hold: the item
is inserted into the items of the group. -/
theorem set_value_of_new_key (kf : keyfile) (g k v c : List Char) (found : group_type)
    (hf : (kf.set_group g []).find_group g = some found)
    (hk : map_find k found.items = none) :
    kf.set_value g k v c =
      { (kf.set_group g []) with
        groups := map_assign g
          { found with items := map_insert k { key := k, value := v, comment := c } found.items }
          (kf.set_group g []).groups } := by
  unfold keyfile.set_value
  simp only [hf, hk, Option.isSome_none, Bool.false_eq_true, if_false]

theorem find_item_eq_none_found (kf : keyfile) (g k : List Char) (found : group_type)
    (hf : (kf.set_group g []).find_group g = some found)
    (hk : kf.find_item g k = none) : map_find k found.items = none := by
  obtain ⟨found2, hf2, h1, h2⟩ := find_group_after_set_group kf g
  rw [hf] at hf2
  have e : found = found2 := Option.some.inj hf2
  subst e
  cases hg : kf.find_group g with
  | some grp =>
    have := h1 grp hg
    subst this
    unfold keyfile.find_item at hk
    rw [hg] at hk
    exact hk
  | none =>
    rw [h2 hg]
    rfl

theorem find_group_set_value_self (kf : keyfile) (g k v c : List Char) (found : group_type)
    (hf : (kf.set_group g []).find_group g = some found)
    (hk : map_find k found.items = none) :
    (kf.set_value g k v c).find_group g =
      some { found with
        items := map_insert k { key := k, value := v, comment := c } found.items } := by
  rw [set_value_of_new_key kf g k v c found hf hk]
  exact map_find_assign_self g _ found _ hf

theorem find_group_set_value_ne (kf : keyfile) (g k v c g2 : List Char) (found : group_type)
    (hf : (kf.set_group g []).find_group g = some found)
    (hk : map_find k found.items = none) (hne : g2 ≠ g) :
    (kf.set_value g k v c).find_group g2 = kf.find_group g2 := by
  rw [set_value_of_new_key kf g k v c found hf hk]
  have h1 : keyfile.find_group
      { (kf.set_group g []) with
        groups := map_assign g
          { found with items := map_insert k { key := k, value := v, comment := c } found.items }
          (kf.set_group g []).groups } g2 = (kf.set_group g []).find_group g2 :=
    map_find_assign_ne g g2 _ _ hne
  rw [h1, find_group_set_group_ne kf g [] g2 hne]

/-- After `set_value` for a new key the item is found with the value and the
comment given. -/
theorem find_item_set_value_self (kf : keyfile) (g k v c : List Char)
    (hk : kf.find_item g k = none) :
    (kf.set_value g k v c).find_item g k = some { key := k, value := v, comment := c } := by
  obtain ⟨found, hf, -, -⟩ := find_group_after_set_group kf g
  have hk1 := find_item_eq_none_found kf g k found hf hk
  unfold keyfile.find_item
  rw [find_group_set_value_self kf g k v c found hf hk1]
  exact map_find_insert_self k _ found.items hk1

theorem keeps_set_value (kf : keyfile) (g k v c : List Char)
    (hk : kf.find_item g k = none) : keyfile_keeps kf (kf.set_value g k v c) := by
  obtain ⟨found, hf, h1, h2⟩ := find_group_after_set_group kf g
  have hk1 := find_item_eq_none_found kf g k found hf hk
  intro g2 grp hg
  by_cases hne : g2 = g
  · subst hne
    have e := h1 grp hg
    subst e
    refine ⟨_, find_group_set_value_self kf g2 k v c found hf hk1, rfl, ?_⟩
    intro k2 it hit
    have hne2 : k2 ≠ k := by
      intro e
      subst e
      rw [hk1] at hit
      cases hit
    show map_find k2 (map_insert k _ found.items) = some it
    rw [map_find_insert_ne k k2 _ found.items hne2]
    exact hit
  · rw [find_group_set_value_ne kf g k v c g2 found hf hk1 hne]
    exact ⟨grp, hg, rfl, fun _ _ hi => hi⟩

theorem well_formed_set_value (kf : keyfile) (g k v c : List Char)
    (hk : kf.find_item g k = none) (hw : keyfile_well_formed kf) :
    keyfile_well_formed (kf.set_value g k v c) := by
  obtain ⟨found, hf, -, -⟩ := find_group_after_set_group kf g
  have hk1 := find_item_eq_none_found kf g k found hf hk
  rw [set_value_of_new_key kf g k v c found hf hk1]
  have hw1 := well_formed_set_group kf g [] hw
  obtain ⟨s1, s2, s3⟩ := hw1
  have hmem : (g, found) ∈ (kf.set_group g []).groups := map_find_mem g found _ hf
  obtain ⟨f1, f2, f3⟩ := s3 (g, found) hmem
  refine ⟨s1, ?_, ?_⟩
  · unfold map_sorted
    rw [map_keys_assign]
    exact s2
  · intro p hp
    rcases map_mem_assign g _ _ p hp with hq | hq
    · rw [hq]
      refine ⟨f1, map_sorted_insert k _ found.items f2, ?_⟩
      intro q hq1
      rcases map_mem_insert k _ found.items q hq1 with h | h
      · rw [h]
      · exact f3 q h
    · exact s3 p hq

/-- What a line that is accepted does to the temporary keyfile: nothing, or
it creates a group that does not exist with the accumulated comment, or it
sets a key that the current group does not hold with the accumulated
comment. -/
theorem parse_line_ok_cases (st st1 : parse_state) (l : List Char)
    (h : parse_line st l = .ok st1) :
    st1.tmp = st.tmp ∨
    (∃ g, st.tmp.find_group g = none ∧ st1.tmp = st.tmp.set_group g st.comment) ∨
    (∃ k v, st.tmp.find_item st.group k = none ∧
      st1.tmp = st.tmp.set_value st.group k v st.comment) := by
  have hnb : ¬ bad_line l := by
    intro hb
    rcases hb with hb | hb | hb
    · rw [parse_line_group_bad st l hb] at h
      cases h
    · rw [parse_line_item_invalid st l hb] at h
      cases h
    · rw [parse_line_no_key st l hb] at h
      cases h
  simp only [bad_line, not_or] at hnb
  obtain ⟨hg, hi, hk⟩ := hnb
  by_cases h1 : l.head? = some '#'
  · rw [parse_line_comment st l h1] at h
    cases h
    exact Or.inl rfl
  by_cases h2 : l.head? = some '['
  · have hc : l.count ']' = 1 := by
      by_contra hc
      exact hg ⟨h2, hc⟩
    obtain ⟨g, tail, hl, hgn, htn⟩ := group_line_form l h2 hc
    subst hl
    rw [parse_line_group_ok st g tail hgn htn] at h
    cases h
    cases hf : st.tmp.find_group g with
    | some grp =>
      left
      simp [keyfile.has_group, hf]
    | none =>
      right
      left
      exact ⟨g, hf, by simp [keyfile.has_group, hf]⟩
  by_cases h0 : l = []
  · subst h0
    rw [parse_line_blank st] at h
    cases h
    exact Or.inl rfl
  have hmem : '=' ∈ l := by
    by_contra hm
    exact hi ⟨h0, h1, h2, hm⟩
  obtain ⟨key, value, hl, hkn, hk1, hk2, hke⟩ := item_line_form l h0 h1 h2 hk hmem
  subst hl
  rw [parse_line_item_ok st key value hkn hk1 hk2 hke] at h
  cases h
  cases hf : st.tmp.find_item st.group key with
  | some it =>
    left
    simp [keyfile.has_key, hf]
  | none =>
    right
    right
    exact ⟨key, value, hf, by simp [keyfile.has_key, hf]⟩

theorem parse_line_well_formed (st st1 : parse_state) (l : List Char)
    (h : parse_line st l = .ok st1) (hw : keyfile_well_formed st.tmp) :
    keyfile_well_formed st1.tmp := by
  rcases parse_line_ok_cases st st1 l h with h1 | ⟨g, -, h1⟩ | ⟨k, v, hk, h1⟩
  · rw [h1]
    exact hw
  · rw [h1]
    exact well_formed_set_group st.tmp g st.comment hw
  · rw [h1]
    exact well_formed_set_value st.tmp st.group k v st.comment hk hw

theorem parse_line_keeps (st st1 : parse_state) (l : List Char)
    (h : parse_line st l = .ok st1) : keyfile_keeps st.tmp st1.tmp := by
  rcases parse_line_ok_cases st st1 l h with h1 | ⟨g, -, h1⟩ | ⟨k, v, hk, h1⟩
  · rw [h1]
    exact keeps_refl st.tmp
  · rw [h1]
    exact keeps_set_group st.tmp g st.comment
  · rw [h1]
    exact keeps_set_value st.tmp st.group k v st.comment hk

theorem parse_lines_append (pre rest : List (List Char)) (st : parse_state) :
    parse_lines (pre ++ rest) st =
      match parse_lines pre st with
      | .error e => .error e
      | .ok st1 => parse_lines rest st1 := by
  induction pre generalizing st with
  | nil => rfl
  | cons l ls ih =>
    simp only [List.cons_append, parse_lines]
    cases parse_line st l with
    | error e => rfl
    | ok st1 => exact ih st1

theorem parse_lines_well_formed (lines : List (List Char)) (st st1 : parse_state)
    (h : parse_lines lines st = .ok st1) (hw : keyfile_well_formed st.tmp) :
    keyfile_well_formed st1.tmp := by
  induction lines generalizing st with
  | nil =>
    cases h
    exact hw
  | cons l ls ih =>
    simp only [parse_lines] at h
    cases hl : parse_line st l with
    | error e =>
      rw [hl] at h
      cases h
    | ok st2 =>
      rw [hl] at h
      exact ih st2 h (parse_line_well_formed st st2 l hl hw)

theorem parse_lines_keeps (lines : List (List Char)) (st st1 : parse_state)
    (h : parse_lines lines st = .ok st1) : keyfile_keeps st.tmp st1.tmp := by
  induction lines generalizing st with
  | nil =>
    cases h
    exact keeps_refl _
  | cons l ls ih =>
    simp only [parse_lines] at h
    cases hl : parse_line st l with
    | error e =>
      rw [hl] at h
      cases h
    | ok st2 =>
      rw [hl] at h
      exact keeps_trans _ _ _ (parse_line_keeps st st2 l hl) (ih st2 h)

theorem map_sorted_before {β : Type} (a b : List (List Char × β)) (k : List Char) (v : β)
    (hs : map_sorted (a ++ (k, v) :: b)) :
    ∀ x ∈ a.map Prod.fst, string_less x k = true := by
  unfold map_sorted at hs
  rw [List.map_append, List.pairwise_append] at hs
  intro x hx
  exact hs.2.2 x hx k (List.mem_cons_self _ _)

theorem map_find_append_end {β : Type} (k : List Char) (v : β) (m : List (List Char × β))
    (h : k ∉ m.map Prod.fst) : map_find k (m ++ [(k, v)]) = some v := by
  induction m with
  | nil => exact map_find_cons_eq k v []
  | cons p rest ih =>
    obtain ⟨k1, v1⟩ := p
    have hk : k1 ≠ k := fun e => h (e ▸ List.mem_cons_self _ _)
    have hr : k ∉ rest.map Prod.fst := fun e => h (List.mem_cons_of_mem _ e)
    rw [List.cons_append, map_find_cons_ne k k1 v1 _ hk]
    exact ih hr

theorem not_mem_of_all_less (k : List Char) (keys : List (List Char))
    (h : ∀ x ∈ keys, string_less x k = true) : k ∉ keys := by
  intro hm
  have := h k hm
  rw [string_less_irrefl] at this
  cases this

/-- Adding the items of a group one by one, in key order, to a keyfile whose
last group is that group rebuilds the items of the group. -/
theorem add_items_in_order (done : group_map_type) (gk c : List Char) (sep : Char)
    (hg : gk ∉ done.map Prod.fst) (itodo : item_map_type) :
    ∀ idone : item_map_type, map_sorted (idone ++ itodo) →
      (∀ q ∈ itodo, q.2.key = q.1) →
      itodo.foldl
          (fun acc1 it => keyfile.set_value acc1 gk it.2.key it.2.value it.2.comment)
          { groups := done ++ [(gk, { name := gk, items := idone, comment := c })],
            separator := sep }
        = { groups := done ++ [(gk, { name := gk, items := idone ++ itodo, comment := c })],
            separator := sep } := by
  induction itodo with
  | nil =>
    intro idone _ _
    simp
  | cons q rest ih =>
    intro idone hs hkeys
    obtain ⟨ik, it⟩ := q
    have hik : it.key = ik := hkeys (ik, it) (List.mem_cons_self _ _)
    subst hik
    have hless := map_sorted_before idone rest it.key it hs
    have habsent : it.key ∉ idone.map Prod.fst := not_mem_of_all_less it.key _ hless
    have hfind : keyfile.find_group
        { groups := done ++ [(gk, { name := gk, items := idone, comment := c })],
          separator := sep } gk
        = some { name := gk, items := idone, comment := c } :=
      map_find_append_end gk _ done hg
    have hstep : keyfile.set_value
        { groups := done ++ [(gk, { name := gk, items := idone, comment := c })],
          separator := sep } gk it.key it.value it.comment
        = { groups := done ++
              [(gk, { name := gk, items := idone ++ [(it.key, it)], comment := c })],
            separator := sep } := by
      have hsg := set_group_of_present _ gk [] _ hfind
      have hf2 : (keyfile.set_group
          { groups := done ++ [(gk, { name := gk, items := idone, comment := c })],
            separator := sep } gk []).find_group gk
          = some { name := gk, items := idone, comment := c } := by
        rw [hsg]
        exact hfind
      have hnone : map_find it.key
          ({ name := gk, items := idone, comment := c } : group_type).items = none := by
        exact (map_find_none_iff it.key idone).mpr habsent
      rw [set_value_of_new_key _ gk it.key it.value it.comment _ hf2 hnone, hsg]
      have hitem : ({ key := it.key, value := it.value, comment := it.comment } : item_type)
          = it := rfl
      simp only [hitem]
      rw [map_insert_at_end it.key it idone hless, map_assign_at_end gk _ _ done hg]
    rw [List.foldl_cons, hstep]
    have hs2 : map_sorted ((idone ++ [(it.key, it)]) ++ rest) := by
      rw [List.append_assoc]
      exact hs
    have := ih (idone ++ [(it.key, it)]) hs2
      (fun q hq => hkeys q (List.mem_cons_of_mem _ hq))
    rw [this, List.append_assoc]
    rfl

/-- Adding the groups of a well-formed keyfile one by one, in key order,
rebuilds its list of groups. -/
theorem add_groups_in_order (sep : Char) (todo : group_map_type) :
    ∀ done : group_map_type, map_sorted (done ++ todo) →
      (∀ p ∈ todo, p.2.name = p.1 ∧ map_sorted p.2.items ∧
        ∀ q ∈ p.2.items, q.2.key = q.1) →
      keyfile.operator_add_assign { groups := done, separator := sep }
          { groups := todo, separator := sep }
        = { groups := done ++ todo, separator := sep } := by
  induction todo with
  | nil =>
    intro done _ _
    simp [keyfile.operator_add_assign]
  | cons p rest ih =>
    intro done hs hwf
    obtain ⟨gk, grp⟩ := p
    obtain ⟨hname, hitems, hkeys⟩ := hwf (gk, grp) (List.mem_cons_self _ _)
    have hless := map_sorted_before done rest gk grp hs
    have habsent : gk ∉ done.map Prod.fst := not_mem_of_all_less gk _ hless
    have hnone : keyfile.find_group { groups := done, separator := sep } gk = none :=
      (map_find_none_iff gk done).mpr habsent
    have hsg : keyfile.set_group { groups := done, separator := sep } grp.name grp.comment
        = { groups := done ++ [(gk, { name := gk, items := [], comment := grp.comment })],
            separator := sep } := by
      rw [hname, set_group_of_absent _ gk grp.comment hnone]
      simp only
      rw [map_insert_at_end gk _ done hless]
    have hinner := add_items_in_order done gk grp.comment sep habsent grp.items []
      (by simpa using hitems) hkeys
    have hgrp : ({ name := gk, items := [] ++ grp.items, comment := grp.comment } : group_type)
        = grp := by
      cases grp
      simp only [List.nil_append]
      simp only at hname
      rw [hname]
    rw [hgrp] at hinner
    have hs2 : map_sorted ((done ++ [(gk, grp)]) ++ rest) := by
      rw [List.append_assoc]
      exact hs
    have hrec := ih (done ++ [(gk, grp)]) hs2 (fun q hq => hwf q (List.mem_cons_of_mem _ hq))
    unfold keyfile.operator_add_assign at hrec ⊢
    simp only [List.foldl_cons]
    rw [hsg, hname, hinner]
    simp only at hrec
    rw [hrec, List.append_assoc]
    rfl

/-- Adding a well-formed keyfile to the empty keyfile gives that keyfile. -/
theorem add_assign_to_new (tmp : keyfile) (hw : keyfile_well_formed tmp) :
    keyfile_new.operator_add_assign tmp = tmp := by
  obtain ⟨h1, h2, h3⟩ := hw
  have := add_groups_in_order ',' tmp.groups [] (by simpa using h2) h3
  have e : tmp = { groups := tmp.groups, separator := ',' } := by
    cases tmp
    simp only at h1
    rw [h1]
  rw [e]
  simpa [keyfile_new] using this

theorem well_formed_new : keyfile_well_formed keyfile_new := by
  refine ⟨rfl, ?_, ?_⟩
  · unfold map_sorted
    exact List.Pairwise.nil
  · intro p hp
    cases hp

/-- The keyfile made of the lines of a stream is the temporary keyfile at the
end of the loop, and it is well formed. -/
theorem keyfile_of_lines_ok (lines : List (List Char)) (kf : keyfile)
    (h : keyfile_of_lines lines = .ok kf) :
    ∃ st, parse_lines lines parse_start = .ok st ∧ kf = st.tmp ∧ keyfile_well_formed kf := by
  unfold keyfile_of_lines at h
  cases hp : parse_lines lines parse_start with
  | error e =>
    rw [hp] at h
    cases h
  | ok st =>
    rw [hp] at h
    have hw : keyfile_well_formed st.tmp :=
      parse_lines_well_formed lines parse_start st hp well_formed_new
    dsimp only at h
    rw [add_assign_to_new st.tmp hw] at h
    have e : st.tmp = kf := by
      cases h
      rfl
    exact ⟨st, rfl, e.symm, e ▸ hw⟩

/-! ## Theorems: which texts parse -/

theorem parse_lines_of_good (pre : List (List Char)) (st : parse_state)
    (h : ∀ x ∈ pre, ¬ bad_line x) :
    ∃ st1, parse_lines pre st = .ok st1 ∧ st1.linecount = st.linecount + pre.length := by
  induction pre generalizing st with
  | nil => exact ⟨st, rfl, rfl⟩
  | cons l ls ih =>
    obtain ⟨st1, h1, hc1⟩ := (parse_line_result st l).2.2.2 (h l (List.mem_cons_self _ _))
    obtain ⟨st2, h2, hc2⟩ := ih st1 (fun x hx => h x (List.mem_cons_of_mem _ hx))
    refine ⟨st2, ?_, ?_⟩
    · simp only [parse_lines, h1]
      exact h2
    · rw [hc2, hc1, List.length_cons]
      omega

theorem parse_lines_split (pre : List (List Char)) (l : List Char)
    (post : List (List Char)) (st st2 : parse_state)
    (h : parse_lines (pre ++ l :: post) st = .ok st2) :
    ∃ st0 st1, parse_lines pre st = .ok st0 ∧ parse_line st0 l = .ok st1 ∧
      parse_lines post st1 = .ok st2 := by
  rw [parse_lines_append] at h
  cases hp : parse_lines pre st with
  | error e =>
    rw [hp] at h
    cases h
  | ok st0 =>
    rw [hp] at h
    simp only [parse_lines] at h
    cases hl : parse_line st0 l with
    | error e =>
      rw [hl] at h
      cases h
    | ok st1 =>
      rw [hl] at h
      exact ⟨st0, st1, rfl, hl, h⟩

/-- The error of the first bad line is the result of the loop. -/
theorem parse_lines_first_bad (pre : List (List Char)) (l : List Char)
    (post : List (List Char)) (e : keyfile_error)
    (hpre : ∀ x ∈ pre, ¬ bad_line x)
    (hl : ∀ st : parse_state, st.linecount = pre.length → parse_line st l = .error e) :
    keyfile_of_lines (pre ++ l :: post) = .error e := by
  obtain ⟨st1, h1, hc1⟩ := parse_lines_of_good pre parse_start hpre
  have hc : st1.linecount = pre.length := by
    rw [hc1]
    simp [parse_start]
  unfold keyfile_of_lines
  rw [parse_lines_append, h1]
  simp only [parse_lines, hl st1 hc]

theorem first_bad_line (lines : List (List Char)) (h : ∃ x ∈ lines, bad_line x) :
    ∃ pre l post, lines = pre ++ l :: post ∧ (∀ x ∈ pre, ¬ bad_line x) ∧ bad_line l := by
  induction lines with
  | nil =>
    obtain ⟨x, hx, -⟩ := h
    cases hx
  | cons y ys ih =>
    by_cases hy : bad_line y
    · refine ⟨[], y, ys, rfl, ?_, hy⟩
      intro x hx
      cases hx
    · have hys : ∃ x ∈ ys, bad_line x := by
        obtain ⟨x, hx, hb⟩ := h
        rcases List.mem_cons.mp hx with h1 | h1
        · rw [h1] at hb
          exact absurd hb hy
        · exact ⟨x, h1, hb⟩
      obtain ⟨pre, l, post, he, hpre, hl⟩ := ih hys
      refine ⟨y :: pre, l, post, by rw [he]; rfl, ?_, hl⟩
      intro x hx
      rcases List.mem_cons.mp hx with h1 | h1
      · rw [h1]
        exact hy
      · exact hpre x h1

theorem keyfile_of_lines_good (lines : List (List Char))
    (h : ∀ x ∈ lines, ¬ bad_line x) : ∃ kf, keyfile_of_lines lines = .ok kf := by
  obtain ⟨st1, h1, -⟩ := parse_lines_of_good lines parse_start h
  unfold keyfile_of_lines
  rw [h1]
  exact ⟨_, rfl⟩

/-- C12. Parsing a text fails exactly when one of its lines is bad: it starts
with `[` and holds no `]` or more than one; or it is not empty, starts with
neither `#` nor `[`, and holds no `=`; or its first character is `=`.  The
error is that of the first bad line (invalid group, invalid line, no key
specified, in this order of kinds) with its line number counted from 1, and
a text without a bad line parses. -/
theorem parse_fails_exactly_at_first_bad_line (stream : List Char) :
    (∀ pre l post, getlines stream = pre ++ l :: post → (∀ x ∈ pre, ¬ bad_line x) →
      (invalid_group_line l →
        keyfile_from_stream stream = .error (.invalid_group (pre.length + 1) l)) ∧
      (invalid_item_line l →
        keyfile_from_stream stream = .error (.invalid_line (pre.length + 1) l)) ∧
      (no_key_line l →
        keyfile_from_stream stream = .error (.no_key (pre.length + 1) l))) ∧
    ((∀ x ∈ getlines stream, ¬ bad_line x) → ∃ kf, keyfile_from_stream stream = .ok kf) ∧
    ((∃ e, keyfile_from_stream stream = .error e) ↔ ∃ x ∈ getlines stream, bad_line x) := by
  have hA : ∀ pre l post, getlines stream = pre ++ l :: post → (∀ x ∈ pre, ¬ bad_line x) →
      (invalid_group_line l →
        keyfile_from_stream stream = .error (.invalid_group (pre.length + 1) l)) ∧
      (invalid_item_line l →
        keyfile_from_stream stream = .error (.invalid_line (pre.length + 1) l)) ∧
      (no_key_line l →
        keyfile_from_stream stream = .error (.no_key (pre.length + 1) l)) := by
    intro pre l post hlines hpre
    rw [keyfile_from_stream_eq, hlines]
    refine ⟨?_, ?_, ?_⟩
    · intro hb
      apply parse_lines_first_bad pre l post _ hpre
      intro st hc
      rw [← hc]
      exact parse_line_group_bad st l hb
    · intro hb
      apply parse_lines_first_bad pre l post _ hpre
      intro st hc
      rw [← hc]
      exact parse_line_item_invalid st l hb
    · intro hb
      apply parse_lines_first_bad pre l post _ hpre
      intro st hc
      rw [← hc]
      exact parse_line_no_key st l hb
  have hB : (∀ x ∈ getlines stream, ¬ bad_line x) →
      ∃ kf, keyfile_from_stream stream = .ok kf := by
    intro h
    rw [keyfile_from_stream_eq]
    exact keyfile_of_lines_good _ h
  refine ⟨hA, hB, ?_⟩
  constructor
  · rintro ⟨e, he⟩
    by_contra hno
    have hall : ∀ x ∈ getlines stream, ¬ bad_line x := fun x hx hb => hno ⟨x, hx, hb⟩
    obtain ⟨kf, hk⟩ := hB hall
    rw [hk] at he
    cases he
  · intro hex
    obtain ⟨pre, l, post, hl, hpre, hb⟩ := first_bad_line _ hex
    obtain ⟨h1, h2, h3⟩ := hA pre l post hl hpre
    rcases hb with hb | hb | hb
    · exact ⟨_, h1 hb⟩
    · exact ⟨_, h2 hb⟩
    · exact ⟨_, h3 hb⟩

/-- C12 (witness). In the text with the lines `[a]`, `k=v`, `foo`, `[b`, the
first bad line is the third, and parsing fails with the invalid-line error for
line 3. -/
theorem parse_fails_exactly_at_first_bad_line_witness :
    getlines "[a]\nk=v\nfoo\n[b\n".toList
      = ["[a]".toList, "k=v".toList] ++ "foo".toList :: ["[b".toList] ∧
    (∀ x ∈ ["[a]".toList, "k=v".toList], ¬ bad_line x) ∧
    invalid_item_line "foo".toList ∧
    keyfile_from_stream "[a]\nk=v\nfoo\n[b\n".toList
      = .error (.invalid_line 3 "foo".toList) :=
  have hpre : ∀ x ∈ ["[a]".toList, "k=v".toList], ¬ bad_line x := by
    intro x hx
    simp only [List.mem_cons, List.mem_singleton, List.not_mem_nil, or_false] at hx
    rcases hx with rfl | rfl <;> decide
  ⟨by decide, hpre, by decide,
    ((parse_fails_exactly_at_first_bad_line "[a]\nk=v\nfoo\n[b\n".toList).1
      ["[a]".toList, "k=v".toList] "foo".toList ["[b".toList] (by decide) hpre).2.1
      (by decide)⟩

theorem has_group_of_keeps (kf kf1 : keyfile) (g : List Char) (hk : keyfile_keeps kf kf1)
    (h : kf.has_group g = true) : kf1.has_group g = true := by
  unfold keyfile.has_group at h ⊢
  cases hf : kf.find_group g with
  | none =>
    rw [hf] at h
    cases h
  | some grp =>
    obtain ⟨grp1, h1, -, -⟩ := hk g grp hf
    rw [h1]
    rfl

/-- C13 (counterexample). The text with the one line `[]` parses, to a
keyfile that holds the group with the empty name. -/
theorem empty_group_name_is_accepted :
    "[]".toList ∈ getlines "[]\n".toList ∧
    keyfile_from_stream "[]\n".toList
      = .ok { groups := [([], { name := [], items := [], comment := [] })],
              separator := ',' } :=
  ⟨by decide, rfl⟩

/-- C13 (amended). A key name of length zero is rejected when parsing: a text
with a line whose first character is `=` fails.  A group name of length zero
is not rejected: the line `[]` is not a bad line, it makes the group with the
empty name the current group, creating it unless it exists, and every keyfile
parsed from a text with the line `[]` holds that group. -/
theorem empty_key_rejected_empty_group_kept (stream : List Char) :
    ((∃ l ∈ getlines stream, no_key_line l) →
      ∃ e, keyfile_from_stream stream = .error e) ∧
    ¬ bad_line "[]".toList ∧
    (∀ st : parse_state, parse_line st "[]".toList = .ok
      { tmp := if st.tmp.has_group [] = true then st.tmp else st.tmp.set_group [] st.comment,
        linecount := st.linecount + 1, group := [], comment := [] }) ∧
    (∀ kf, "[]".toList ∈ getlines stream → keyfile_from_stream stream = .ok kf →
      kf.has_group [] = true) := by
  have hline : ∀ st : parse_state, parse_line st "[]".toList = .ok
      { tmp := if st.tmp.has_group [] = true then st.tmp else st.tmp.set_group [] st.comment,
        linecount := st.linecount + 1, group := [], comment := [] } :=
    fun st => parse_line_group_ok st [] [] (by simp) (by simp)
  refine ⟨?_, by decide, hline, ?_⟩
  · rintro ⟨l, hl, hb⟩
    exact (parse_fails_exactly_at_first_bad_line stream).2.2.mpr
      ⟨l, hl, Or.inr (Or.inr hb)⟩
  · intro kf hmem hkf
    rw [keyfile_from_stream_eq] at hkf
    obtain ⟨st, hst, hkst, -⟩ := keyfile_of_lines_ok _ kf hkf
    obtain ⟨pre, post, hsplit⟩ := List.append_of_mem hmem
    rw [hsplit] at hst
    obtain ⟨st0, st1, -, h1, h2⟩ := parse_lines_split pre _ post parse_start st hst
    rw [hline st0] at h1
    have hst1 : st1.tmp.has_group [] = true := by
      cases h1
      cases hg : st0.tmp.has_group [] with
      | true => simp [hg]
      | false =>
        simp only [Bool.false_eq_true, if_false]
        unfold keyfile.has_group at hg ⊢
        have hnone : st0.tmp.find_group [] = none := by
          cases hf : st0.tmp.find_group [] with
          | none => rfl
          | some x =>
            rw [hf] at hg
            cases hg
        rw [find_group_set_group_new st0.tmp [] st0.comment hnone]
        rfl
    rw [hkst]
    exact has_group_of_keeps st1.tmp st.tmp [] (parse_lines_keeps post st1 st h2) hst1

/-- C13 (amended, witness). The text with the lines `[]` and `=v` fails. -/
theorem empty_key_rejected_empty_group_kept_witness :
    (∃ l ∈ getlines "[]\n=v\n".toList, no_key_line l) ∧
    ∃ e, keyfile_from_stream "[]\n=v\n".toList = .error e :=
  have h : ∃ l ∈ getlines "[]\n=v\n".toList, no_key_line l :=
    ⟨"=v".toList, by decide, by decide⟩
  ⟨h, (empty_key_rejected_empty_group_kept "[]\n=v\n".toList).1 h⟩

theorem find_item_of_keeps (kf kf1 : keyfile) (g k : List Char) (it : item_type)
    (hk : keyfile_keeps kf kf1) (h : kf.find_item g k = some it) :
    kf1.find_item g k = some it := by
  unfold keyfile.find_item at h ⊢
  cases hf : kf.find_group g with
  | none =>
    rw [hf] at h
    cases h
  | some grp =>
    rw [hf] at h
    obtain ⟨grp1, h1, -, h3⟩ := hk g grp hf
    rw [h1]
    exact h3 k it h

theorem find_item_none_of_has_key (kf : keyfile) (g k : List Char)
    (h : kf.has_key g k = false) : kf.find_item g k = none := by
  unfold keyfile.has_key at h
  cases hf : kf.find_item g k with
  | none => rfl
  | some x =>
    rw [hf] at h
    cases h

/-- C17. For an item line `key=value`, where the key is the text before the
first `=` (it is not empty, holds no `=` and starts with neither `#` nor `[`)
and the value is all the text after that `=`, whatever it holds: the line
is accepted with that key and that value, and when the current group does not
hold the key yet, the key is set to exactly that value with the accumulated
comment, and the keyfile parsed from the text gives that value back
unchanged. -/
theorem item_line_key_and_value (stream : List Char) (pre : List (List Char))
    (key value : List Char) (post : List (List Char)) (kf : keyfile) (st0 : parse_state)
    (hlines : getlines stream = pre ++ (key ++ '=' :: value) :: post)
    (hne : key ≠ []) (h1 : key.head? ≠ some '#') (h2 : key.head? ≠ some '[')
    (heq : '=' ∉ key)
    (hpre : parse_lines pre parse_start = .ok st0)
    (hkf : keyfile_from_stream stream = .ok kf) :
    find_first_of (key ++ '=' :: value) '=' (some 0) = some key.length ∧
    parse_line st0 (key ++ '=' :: value) = .ok
      { st0 with
        tmp := if st0.tmp.has_key st0.group key = true then st0.tmp
               else st0.tmp.set_value st0.group key value st0.comment,
        linecount := st0.linecount + 1, comment := [] } ∧
    (st0.tmp.has_key st0.group key = false →
      kf.find_item st0.group key
        = some { key := key, value := value, comment := st0.comment } ∧
      ∀ x, kf.get_value st0.group key x = (true, value)) := by
  have hline := parse_line_item_ok st0 key value hne h1 h2 heq
  refine ⟨find_first_of_split '=' key value heq, hline, ?_⟩
  intro hnew
  rw [hnew] at hline
  simp only [Bool.false_eq_true, if_false] at hline
  rw [keyfile_from_stream_eq, hlines] at hkf
  obtain ⟨st, hst, hkst, -⟩ := keyfile_of_lines_ok _ kf hkf
  obtain ⟨st0b, st1, hp0, hl1, hp2⟩ := parse_lines_split pre _ post parse_start st hst
  rw [hpre] at hp0
  cases hp0
  rw [hline] at hl1
  have hitem : st1.tmp.find_item st0.group key
      = some { key := key, value := value, comment := st0.comment } := by
    cases hl1
    exact find_item_set_value_self st0.tmp st0.group key value st0.comment
      (find_item_none_of_has_key _ _ _ hnew)
  have hfinal : kf.find_item st0.group key
      = some { key := key, value := value, comment := st0.comment } := by
    rw [hkst]
    exact find_item_of_keeps st1.tmp st.tmp _ _ _ (parse_lines_keeps post st1 st hp2) hitem
  refine ⟨hfinal, ?_⟩
  intro x
  simp [keyfile.get_value, hfinal]

/-- C17 (witness). In the text with the lines `[g]` and `k= a=b `, the key
`k` of group `g` gets the value ` a=b `, spaces and second `=` included. -/
theorem item_line_key_and_value_witness :
    getlines "[g]\nk= a=b \n".toList
      = ["[g]".toList] ++ ("k".toList ++ '=' :: " a=b ".toList) :: [] ∧
    keyfile_from_stream "[g]\nk= a=b \n".toList = .ok example_keyfile_spaces ∧
    example_keyfile_spaces.get_value "g".toList "k".toList [] = (true, " a=b ".toList) :=
  ⟨by decide, rfl,
    ((item_line_key_and_value "[g]\nk= a=b \n".toList ["[g]".toList] "k".toList
      " a=b ".toList [] example_keyfile_spaces
      { tmp := { groups := [("g".toList, { name := "g".toList, items := [], comment := [] })],
                 separator := ',' },
        linecount := 1, group := "g".toList, comment := [] }
      (by decide) (by decide) (by decide) (by decide) (by decide) rfl rfl).2.2
      (by decide)).2 []⟩

/-! ## Theorems: the order of groups and keys -/

theorem print_comment_loop_stream (comment : List Char) (fuel : Nat) :
    ∀ (last_pos pos : Option Nat) (stream : List Char),
      print_comment_loop comment fuel last_pos pos stream
        = stream ++ print_comment_loop comment fuel last_pos pos [] := by
  induction fuel with
  | zero =>
    intro last_pos pos stream
    simp [print_comment_loop]
  | succ fuel ih =>
    intro last_pos pos stream
    simp only [print_comment_loop]
    by_cases hc : pos ≠ none ∨ last_pos ≠ none
    · rw [if_pos hc, if_pos hc]
      cases last_pos with
      | none => simp
      | some lp =>
        simp only
        rw [ih _ _ (stream ++ _), ih _ _ ([] ++ _)]
        simp
    · rw [if_neg hc, if_neg hc]
      simp

theorem print_comment_stream (comment stream : List Char) :
    print_comment comment stream = stream ++ print_comment comment [] := by
  unfold print_comment
  exact print_comment_loop_stream comment _ _ _ stream

theorem print_items_eq (items : item_map_type) (stream : List Char) :
    print_items items stream = stream ++ (items.map (fun it => it.2.text)).flatten := by
  induction items generalizing stream with
  | nil => simp [print_items]
  | cons p rest ih =>
    obtain ⟨k, item⟩ := p
    simp only [print_items, List.map_cons, List.flatten_cons]
    rw [ih]
    by_cases hc : item.comment.length > 0
    · rw [if_pos hc, print_comment_stream]
      simp [item_type.text, comment_text, hc]
    · rw [if_neg hc]
      simp [item_type.text, comment_text, hc]

theorem print_groups_later (groups : group_map_type) (n : Nat) (stream : List Char)
    (hn : n > 0) :
    print_groups groups n stream
      = stream ++ (groups.map (fun p => '\n' :: p.2.text)).flatten := by
  induction groups generalizing n stream with
  | nil => simp [print_groups]
  | cons p rest ih =>
    obtain ⟨k, group⟩ := p
    simp only [print_groups, List.map_cons, List.flatten_cons]
    rw [ih (n + 1) _ (by omega), print_items_eq, if_pos hn]
    by_cases hc : group.comment.length > 0
    · rw [if_pos hc, print_comment_stream]
      simp [group_type.text, comment_text, hc]
    · rw [if_neg hc]
      simp [group_type.text, comment_text, hc]

/-- The text that `operator <<` writes: the groups in the order of the map,
an empty line before every group but the first. -/
theorem operator_insert_eq (kf : keyfile) :
    operator_insert kf =
      match kf.groups with
      | [] => []
      | p :: rest => p.2.text ++ (rest.map (fun q => '\n' :: q.2.text)).flatten := by
  unfold operator_insert
  cases hg : kf.groups with
  | nil => rfl
  | cons p rest =>
    obtain ⟨k, group⟩ := p
    simp only [print_groups]
    rw [print_groups_later rest 1 _ (by omega), print_items_eq]
    by_cases hc : group.comment.length > 0
    · rw [if_pos hc, print_comment_stream]
      simp [group_type.text, comment_text, hc]
    · rw [if_neg hc]
      simp [group_type.text, comment_text, hc]

theorem item_text_of_mem (kf : keyfile) (hw : keyfile_well_formed kf) (gk : List Char)
    (grp : group_type) (hg : (gk, grp) ∈ kf.groups) (ik : List Char) (it : item_type)
    (hi : (ik, it) ∈ grp.items) : kf.item_text gk ik = it.text := by
  obtain ⟨-, hs, hall⟩ := hw
  obtain ⟨-, his, hkeys⟩ := hall (gk, grp) hg
  have hfg : kf.find_group gk = some grp := map_find_of_mem_sorted gk grp kf.groups hs hg
  have hfi : kf.find_item gk ik = some it := by
    unfold keyfile.find_item
    rw [hfg]
    exact map_find_of_mem_sorted ik it grp.items his hi
  have hk : it.key = ik := hkeys (ik, it) hi
  simp only [keyfile.item_text, keyfile.get_item_comment, keyfile.get_value, hfi,
    item_type.text, hk]

theorem group_text_of_mem (kf : keyfile) (hw : keyfile_well_formed kf) (gk : List Char)
    (grp : group_type) (hg : (gk, grp) ∈ kf.groups) : kf.group_text gk = grp.text := by
  have hw0 := hw
  obtain ⟨-, hs, hall⟩ := hw
  obtain ⟨hname, -, -⟩ := hall (gk, grp) hg
  have hfg : kf.find_group gk = some grp := map_find_of_mem_sorted gk grp kf.groups hs hg
  have hitems : (kf.get_keys gk).map (kf.item_text gk)
      = grp.items.map (fun it => it.2.text) := by
    simp only [keyfile.get_keys, hfg, List.map_map]
    apply List.map_congr_left
    intro p hp
    exact item_text_of_mem kf hw0 gk grp hg p.1 p.2 hp
  have hname1 : grp.name = gk := hname
  simp only [keyfile.group_text, keyfile.get_group_comment, hfg, hitems, group_type.text,
    hname1]

/-- The text that `operator <<` writes for a well-formed keyfile, in terms of
what `get_groups`, `get_keys`, `get_comment` and `get_value` report. -/
theorem operator_insert_eq_text (kf : keyfile) (hw : keyfile_well_formed kf) :
    operator_insert kf = kf.text := by
  rw [operator_insert_eq]
  unfold keyfile.text keyfile.get_groups
  cases hg : kf.groups with
  | nil => rfl
  | cons p rest =>
    simp only [List.map_cons, List.map_map]
    have h1 : kf.group_text p.1 = p.2.text :=
      group_text_of_mem kf hw p.1 p.2 (by rw [hg]; exact List.mem_cons_self _ _)
    have h2 : rest.map ((fun g2 => '\n' :: kf.group_text g2) ∘ fun pos => pos.1)
        = rest.map (fun q => '\n' :: q.2.text) := by
      apply List.map_congr_left
      intro q hq
      simp only [Function.comp]
      rw [group_text_of_mem kf hw q.1 q.2 (by rw [hg]; exact List.mem_cons_of_mem _ hq)]
    rw [h1, h2]

theorem get_keys_sorted (kf : keyfile) (hw : keyfile_well_formed kf) (g : List Char) :
    (kf.get_keys g).Pairwise (fun a b => string_less a b = true) := by
  unfold keyfile.get_keys
  cases hf : kf.find_group g with
  | none => exact List.Pairwise.nil
  | some grp =>
    have hmem : (g, grp) ∈ kf.groups := map_find_mem g grp kf.groups hf
    exact (hw.2.2 (g, grp) hmem).2.1

/-- C11 (counterexample). In the text with the headers `[b]` then `[a]`, and
under `[b]` the keys `z` then `y`, `get_groups` lists `a` before `b` and
`get_keys` lists `y` before `z`: not the order of appearance. -/
theorem groups_not_in_order_of_appearance :
    keyfile_from_stream "[b]\nz=1\ny=2\n[a]\n".toList = .ok example_keyfile_sorted ∧
    example_keyfile_sorted.get_groups = ["a".toList, "b".toList] ∧
    example_keyfile_sorted.get_keys "b".toList = ["y".toList, "z".toList] ∧
    operator_insert example_keyfile_sorted = "[a]\n\n[b]\ny=2\nz=1\n".toList :=
  ⟨rfl, by decide, by decide, by decide⟩

/-- C11 (amended). For every parsed text, `get_groups` lists the groups in
increasing order of their names and `get_keys` lists the keys of a group in
increasing order, which is the order of the maps and not the order of
appearance; serialisation writes the groups in the order of `get_groups` and
the items of each group in the order of `get_keys`. -/
theorem groups_and_keys_in_key_order (stream : List Char) (kf : keyfile)
    (h : keyfile_from_stream stream = .ok kf) :
    kf.get_groups.Pairwise (fun a b => string_less a b = true) ∧
    (∀ g, (kf.get_keys g).Pairwise (fun a b => string_less a b = true)) ∧
    operator_insert kf = kf.text := by
  rw [keyfile_from_stream_eq] at h
  obtain ⟨st, -, -, hw⟩ := keyfile_of_lines_ok _ kf h
  exact ⟨hw.2.1, get_keys_sorted kf hw, operator_insert_eq_text kf hw⟩

/-- C11 (amended, witness). For the text with the headers `[b]` then `[a]`,
the groups are listed and written in increasing order. -/
theorem groups_and_keys_in_key_order_witness :
    keyfile_from_stream "[b]\nz=1\ny=2\n[a]\n".toList = .ok example_keyfile_sorted ∧
    example_keyfile_sorted.get_groups.Pairwise (fun a b => string_less a b = true) ∧
    operator_insert example_keyfile_sorted = example_keyfile_sorted.text :=
  ⟨rfl,
    (groups_and_keys_in_key_order "[b]\nz=1\ny=2\n[a]\n".toList example_keyfile_sorted
      rfl).1,
    (groups_and_keys_in_key_order "[b]\nz=1\ny=2\n[a]\n".toList example_keyfile_sorted
      rfl).2.2⟩

/-! ## Theorems: comments while parsing -/

/-- The lines that `parse_line` accepts: a comment line, an empty line, a
group header with one `]`, or an item line with a key before its first `=`. -/
theorem parse_line_ok_forms (st st1 : parse_state) (l : List Char)
    (h : parse_line st l = .ok st1) :
    l.head? = some '#' ∨ l = [] ∨
    (∃ g tail, l = '[' :: g ++ ']' :: tail ∧ ']' ∉ g ∧ ']' ∉ tail) ∨
    (∃ key value, l = key ++ '=' :: value ∧ key ≠ [] ∧ key.head? ≠ some '#' ∧
      key.head? ≠ some '[' ∧ '=' ∉ key) := by
  have hnb : ¬ bad_line l := by
    intro hb
    rcases hb with hb | hb | hb
    · rw [parse_line_group_bad st l hb] at h
      cases h
    · rw [parse_line_item_invalid st l hb] at h
      cases h
    · rw [parse_line_no_key st l hb] at h
      cases h
  simp only [bad_line, not_or] at hnb
  obtain ⟨hg, hi, hk⟩ := hnb
  by_cases h1 : l.head? = some '#'
  · exact Or.inl h1
  by_cases h2 : l.head? = some '['
  · have hc : l.count ']' = 1 := by
      by_contra hc
      exact hg ⟨h2, hc⟩
    exact Or.inr (Or.inr (Or.inl (group_line_form l h2 hc)))
  by_cases h0 : l = []
  · exact Or.inr (Or.inl h0)
  have hmem : '=' ∈ l := by
    by_contra hmem
    exact hi ⟨h0, h1, h2, hmem⟩
  exact Or.inr (Or.inr (Or.inr (item_line_form l h0 h1 h2 hk hmem)))

/-- After a group header or an item line the accumulated comment is empty. -/
theorem parse_line_clears (st st1 : parse_state) (l : List Char)
    (h : parse_line st l = .ok st1) (h1 : l.head? ≠ some '#') (h0 : l ≠ []) :
    st1.comment = [] := by
  rcases parse_line_ok_forms st st1 l h with hf | hf | ⟨g, tail, hl, hg, ht⟩ |
    ⟨key, value, hl, hne, hk1, hk2, heq⟩
  · exact absurd hf h1
  · exact absurd hf h0
  · subst hl
    rw [parse_line_group_ok st g tail hg ht] at h
    cases h
    rfl
  · subst hl
    rw [parse_line_item_ok st key value hne hk1 hk2 heq] at h
    cases h
    rfl

theorem join_lines_cons (t : List Char) (ts : List (List Char)) :
    join_lines (t :: ts) = t ++ (ts.map (fun x => '\n' :: x)).flatten := by
  induction ts generalizing t with
  | nil => simp [join_lines, List.intercalate]
  | cons t2 ts ih =>
    have h := ih t2
    simp only [join_lines, List.intercalate, List.intersperse, List.flatten_cons,
      List.map_cons] at h ⊢
    rw [h]
    simp

theorem accumulated_nil (comment : List Char) : accumulated comment [] = comment := by
  cases comment with
  | nil => rfl
  | cons c cs => simp [accumulated, List.dropWhile, List.isEmpty, join_lines_cons]

theorem accumulated_cons (comment t : List Char) (ts : List (List Char)) :
    accumulated comment (t :: ts)
      = accumulated ((if comment ≠ [] then comment ++ ['\n'] else comment) ++ t) ts := by
  cases comment with
  | nil =>
    cases t with
    | nil => simp [accumulated, List.dropWhile, List.isEmpty]
    | cons c cs => simp [accumulated, List.dropWhile, List.isEmpty]
  | cons c cs =>
    simp [accumulated, List.dropWhile, List.isEmpty, join_lines_cons]

/-- A run of `#` lines leaves the keyfile and the current group as they are
and accumulates the texts after each `#`. -/
theorem parse_lines_comments (texts : List (List Char)) (st : parse_state) :
    parse_lines (texts.map (fun t => '#' :: t)) st = .ok
      { st with linecount := st.linecount + texts.length,
                comment := accumulated st.comment texts } := by
  induction texts generalizing st with
  | nil =>
    simp only [List.map_nil, parse_lines, List.length_nil, Nat.add_zero, accumulated_nil]
  | cons t ts ih =>
    simp only [List.map_cons, parse_lines]
    rw [parse_line_comment st ('#' :: t) rfl]
    simp only
    rw [ih]
    simp only [List.drop_succ_cons, List.drop_zero, List.length_cons]
    rw [accumulated_cons]
    congr 2
    omega
theorem group_comment_of_keeps (kf kf1 : keyfile) (g : List Char) (grp : group_type)
    (hk : keyfile_keeps kf kf1) (h : kf.find_group g = some grp) :
    kf1.get_group_comment g = grp.comment := by
  obtain ⟨grp1, hf1, hc, -⟩ := hk g grp h
  simp only [keyfile.get_group_comment, hf1, hc]

theorem find_group_none_of_has_group (kf : keyfile) (g : List Char)
    (h : kf.has_group g = false) : kf.find_group g = none := by
  unfold keyfile.has_group at h
  cases hf : kf.find_group g with
  | none => rfl
  | some x =>
    rw [hf] at h
    cases h

/-- C14 (counterexample). The `#` lines with the texts (empty) and `x` before
the header `[g]` give the comment `x`, not the two texts joined by a newline;
and the comments `c` and `d` before a second header `[g]` and a second line
for the key `k` are attached to no group and no key. -/
theorem comment_lines_not_always_joined_or_attached :
    keyfile_from_stream "#\n#x\n[g]\n".toList = .ok example_keyfile_comment_x ∧
    example_keyfile_comment_x.get_group_comment "g".toList = "x".toList ∧
    join_lines ["".toList, "x".toList] = "\nx".toList ∧
    keyfile_from_stream "[g]\nk=v\n#c\n[g]\n#d\nk=w\n".toList = .ok example_keyfile_plain ∧
    example_keyfile_plain.get_group_comment "g".toList = [] ∧
    example_keyfile_plain.get_item_comment "g".toList "k".toList = [] :=
  ⟨rfl, by decide, by decide, rfl, by decide, by decide⟩

/-- C14 (amended). When parsing, consecutive `#` lines are accumulated: the
text after each `#`, in input order, with a newline put before a text only when
the accumulator is not empty, which from an empty accumulator is the texts
joined by newlines once the empty texts at the front are left out.  The run
changes neither the keyfile nor the current group.  The accumulated text
becomes the comment of the next group header or key=value line when that line
names a group, or a key of the current group, that the keyfile does not hold
yet, and the parsed keyfile reports it.  After a group header or key=value
line the accumulator is empty, so no comment line is attached to more than one
group or key, and a new group or key read with an empty accumulator and no `#`
lines has the empty comment. -/
theorem comments_attach_to_next_new_entry (stream : List Char) (pre : List (List Char))
    (texts : List (List Char)) (line : List Char) (post : List (List Char))
    (st0 : parse_state) (kf : keyfile)
    (hlines : getlines stream = pre ++ (texts.map (fun t => '#' :: t) ++ line :: post))
    (hpre : parse_lines pre parse_start = .ok st0)
    (hkf : keyfile_from_stream stream = .ok kf) :
    parse_lines (pre ++ texts.map (fun t => '#' :: t)) parse_start = .ok
      { st0 with linecount := st0.linecount + texts.length,
                 comment := accumulated st0.comment texts } ∧
    (st0.comment = [] →
      accumulated st0.comment texts = join_lines (texts.dropWhile List.isEmpty)) ∧
    accumulated [] [] = [] ∧
    (∃ st2, parse_line
        { st0 with linecount := st0.linecount + texts.length,
                   comment := accumulated st0.comment texts } line = .ok st2 ∧
      (line.head? ≠ some '#' → line ≠ [] → st2.comment = [])) ∧
    (∀ g tail, line = '[' :: g ++ ']' :: tail → ']' ∉ g → ']' ∉ tail →
      st0.tmp.has_group g = false →
      kf.get_group_comment g = accumulated st0.comment texts) ∧
    (∀ key value, line = key ++ '=' :: value → key ≠ [] → key.head? ≠ some '#' →
      key.head? ≠ some '[' → '=' ∉ key →
      st0.tmp.has_key st0.group key = false →
      kf.get_item_comment st0.group key = accumulated st0.comment texts) := by
  have hrun : parse_lines (pre ++ texts.map (fun t => '#' :: t)) parse_start = .ok
      { st0 with linecount := st0.linecount + texts.length,
                 comment := accumulated st0.comment texts } := by
    rw [parse_lines_append, hpre]
    exact parse_lines_comments texts st0
  rw [keyfile_from_stream_eq, hlines, ← List.append_assoc] at hkf
  obtain ⟨st, hst, hkst, -⟩ := keyfile_of_lines_ok _ kf hkf
  obtain ⟨sta, st1, hp0, hl1, hp2⟩ := parse_lines_split _ line post parse_start st hst
  rw [hrun] at hp0
  cases hp0
  have hkeep := parse_lines_keeps post st1 st hp2
  refine ⟨hrun, ?_, rfl, ⟨st1, hl1, parse_line_clears _ st1 line hl1⟩, ?_, ?_⟩
  · intro hc
    rw [hc]
    simp [accumulated, List.dropWhile, List.isEmpty]
  · intro g tail hl hg ht hnew
    subst hl
    rw [parse_line_group_ok _ g tail hg ht] at hl1
    simp only [hnew, Bool.false_eq_true, if_false] at hl1
    have hgrp : st1.tmp.find_group g
        = some { name := g, items := [], comment := accumulated st0.comment texts } := by
      cases hl1
      exact find_group_set_group_new st0.tmp g _ (find_group_none_of_has_group _ _ hnew)
    rw [hkst]
    exact group_comment_of_keeps st1.tmp st.tmp g _ hkeep hgrp
  · intro key value hl hne h1 h2 heq hnew
    subst hl
    rw [parse_line_item_ok _ key value hne h1 h2 heq] at hl1
    simp only [hnew, Bool.false_eq_true, if_false] at hl1
    have hitem : st1.tmp.find_item st0.group key
        = some { key := key, value := value, comment := accumulated st0.comment texts } := by
      cases hl1
      exact find_item_set_value_self st0.tmp st0.group key value _
        (find_item_none_of_has_key _ _ _ hnew)
    have hfinal := find_item_of_keeps st1.tmp st.tmp _ _ _ hkeep hitem
    rw [hkst]
    simp only [keyfile.get_item_comment, hfinal]

/-- C14 (amended, witness). The `#` lines with the texts `a`, `b` and `c`
before the header `[g]` give the group `g` the comment of the three texts
joined by newlines. -/
theorem comments_attach_to_next_new_entry_witness :
    keyfile_from_stream "#a\n#b\n#c\n[g]\n".toList = .ok example_keyfile_comment_abc ∧
    example_keyfile_comment_abc.get_group_comment "g".toList
      = accumulated [] ["a".toList, "b".toList, "c".toList] ∧
    accumulated [] ["a".toList, "b".toList, "c".toList] = "a\nb\nc".toList :=
  ⟨rfl,
    (comments_attach_to_next_new_entry "#a\n#b\n#c\n[g]\n".toList []
      ["a".toList, "b".toList, "c".toList] "[g]".toList [] parse_start
      example_keyfile_comment_abc (by decide) rfl rfl).2.2.2.2.1 "g".toList [] rfl
      (by decide) (by decide) rfl,
    by decide⟩

/-! ## Theorems: blank lines -/

/-- The line count does not bear on what `parse_line` makes of a line: from
two states that differ in the line count only, a line is accepted in both or
in neither, and the states after it differ in the line count only. -/
theorem parse_line_view (st sta : parse_state) (l : List Char) (hv : st.view = sta.view) :
    (parse_line st l).toOption.map parse_state.view
      = (parse_line sta l).toOption.map parse_state.view := by
  obtain ⟨tmp, lc, group, comment⟩ := st
  obtain ⟨tmpa, lca, groupa, commenta⟩ := sta
  simp only [parse_state.view, Prod.mk.injEq] at hv
  obtain ⟨h1, h2, h3⟩ := hv
  subst h1 h2 h3
  unfold parse_line
  simp only
  split_ifs <;> first
    | rfl
    | (split <;> first
        | rfl
        | (split_ifs <;> rfl))

theorem parse_lines_view (lines : List (List Char)) (st sta : parse_state)
    (hv : st.view = sta.view) :
    (parse_lines lines st).toOption.map parse_state.view
      = (parse_lines lines sta).toOption.map parse_state.view := by
  induction lines generalizing st sta with
  | nil => simp [parse_lines, Except.toOption, hv]
  | cons l rest ih =>
    have h := parse_line_view st sta l hv
    simp only [parse_lines]
    cases h1 : parse_line st l with
    | error e =>
      cases h2 : parse_line sta l with
      | error e2 => rfl
      | ok s2 =>
        rw [h1, h2] at h
        simp [Except.toOption] at h
    | ok s1 =>
      cases h2 : parse_line sta l with
      | error e2 =>
        rw [h1, h2] at h
        simp [Except.toOption] at h
      | ok s2 =>
        rw [h1, h2] at h
        simp only [Except.toOption, Option.map_some', Option.some.injEq] at h
        exact ih s1 s2 h

theorem keyfile_of_lines_view (lines : List (List Char)) :
    (keyfile_of_lines lines).toOption
      = ((parse_lines lines parse_start).toOption.map parse_state.view).map
          (fun v => keyfile_new.operator_add_assign v.1) := by
  unfold keyfile_of_lines
  cases parse_lines lines parse_start with
  | error e => rfl
  | ok st => rfl

/-- Taking an empty line out of the lines changes nothing in the outcome of
the parse: the same keyfile, or a failure in both cases. -/
theorem keyfile_of_lines_blank (pre post : List (List Char)) :
    (keyfile_of_lines (pre ++ [] :: post)).toOption
      = (keyfile_of_lines (pre ++ post)).toOption := by
  rw [keyfile_of_lines_view, keyfile_of_lines_view, parse_lines_append, parse_lines_append]
  cases hp : parse_lines pre parse_start with
  | error e => rfl
  | ok st =>
    simp only [parse_lines]
    rw [parse_line_blank]
    simp only
    rw [parse_lines_view post { st with linecount := st.linecount + 1 } st rfl]

/-- C15 (counterexample). With a blank line between the comment lines `#a`
and `#b`, the header `[g]` that follows gets the comment of both lines: the
line before the blank line is part of it. -/
theorem blank_line_does_not_end_comment_block :
    keyfile_from_stream "#a\n\n#b\n[g]\n".toList = .ok example_keyfile_comment_ab ∧
    example_keyfile_comment_ab.get_group_comment "g".toList = "a\nb".toList :=
  ⟨rfl, by decide⟩

/-- C15 (amended). A blank line does not end a comment block: it is read with
the keyfile, the current group and the accumulated comment all unchanged, so
the `#` lines before it stay part of the comment of the group header or
key=value line that follows; a blank line changes nothing in the parsed
keyfile, which is the one parsed from the text without that line (and the
parse of one fails when the parse of the other does). -/
theorem blank_line_changes_nothing (stream stream1 : List Char)
    (pre post : List (List Char))
    (hlines : getlines stream = pre ++ [] :: post)
    (hlines1 : getlines stream1 = pre ++ post) :
    (∀ st, parse_line st [] = .ok { st with linecount := st.linecount + 1 }) ∧
    (keyfile_from_stream stream).toOption = (keyfile_from_stream stream1).toOption := by
  refine ⟨parse_line_blank, ?_⟩
  rw [keyfile_from_stream_eq, keyfile_from_stream_eq, hlines, hlines1]
  exact keyfile_of_lines_blank pre post

/-- C15 (amended, witness). The text with a blank line between `#a` and `#b`
parses to the same keyfile as the text without the blank line. -/
theorem blank_line_changes_nothing_witness :
    (keyfile_from_stream "#a\n\n#b\n[g]\n".toList).toOption
      = (keyfile_from_stream "#a\n#b\n[g]\n".toList).toOption ∧
    keyfile_from_stream "#a\n#b\n[g]\n".toList = .ok example_keyfile_comment_ab :=
  ⟨(blank_line_changes_nothing "#a\n\n#b\n[g]\n".toList "#a\n#b\n[g]\n".toList
      ["#a".toList] ["#b".toList, "[g]".toList] (by decide) (by decide)).2, rfl⟩

/-! ## Theorems: duplicate groups and keys -/

theorem find_item_set_group (kf : keyfile) (g c g2 k : List Char) :
    (kf.set_group g c).find_item g2 k = kf.find_item g2 k := by
  cases hf : kf.find_group g with
  | some grp => rw [set_group_of_present kf g c grp hf]
  | none =>
    by_cases hg : g2 = g
    · subst hg
      unfold keyfile.find_item
      rw [find_group_set_group_new kf g2 c hf, hf]
      rfl
    · unfold keyfile.find_item
      rw [find_group_set_group_ne kf g c g2 hg]

theorem find_item_set_value_ne (kf : keyfile) (g k v c g2 k2 : List Char)
    (hk : kf.find_item g k = none) (hne : g2 ≠ g ∨ k2 ≠ k) :
    (kf.set_value g k v c).find_item g2 k2 = kf.find_item g2 k2 := by
  obtain ⟨found, hf, hsome, hnone⟩ := find_group_after_set_group kf g
  have hk1 := find_item_eq_none_found kf g k found hf hk
  by_cases hg : g2 = g
  · subst hg
    have hk2 : k2 ≠ k := by
      rcases hne with h | h
      · exact absurd rfl h
      · exact h
    unfold keyfile.find_item
    rw [find_group_set_value_self kf g2 k v c found hf hk1]
    simp only
    rw [map_find_insert_ne k k2 _ found.items hk2]
    cases hfg : kf.find_group g2 with
    | some grp =>
      rw [hsome grp hfg]
    | none =>
      rw [hnone hfg]
      rfl
  · unfold keyfile.find_item
    rw [find_group_set_value_ne kf g k v c g2 found hf hk1 hg]

/-- The group that a line leaves in the keyfile was there before the line with
the same comment, or it is the current group made by an item line, with the
empty comment, or the line is a header of that group. -/
theorem parse_line_group_origin (st st1 : parse_state) (l : List Char)
    (h : parse_line st l = .ok st1) (g : List Char) (grp : group_type)
    (hg : st1.tmp.find_group g = some grp) :
    (∃ grp0, st.tmp.find_group g = some grp0 ∧ grp0.comment = grp.comment) ∨
    (g = st.group ∧ grp.comment = []) ∨
    (∃ tail, l = '[' :: g ++ ']' :: tail) := by
  rcases parse_line_ok_forms st st1 l h with hf | hf | ⟨g1, tail, hl, hg1, ht⟩ |
    ⟨key, value, hl, hne, hk1, hk2, heq⟩
  · rw [parse_line_comment st l hf] at h
    cases h
    exact Or.inl ⟨grp, hg, rfl⟩
  · subst hf
    rw [parse_line_blank st] at h
    cases h
    exact Or.inl ⟨grp, hg, rfl⟩
  · subst hl
    rw [parse_line_group_ok st g1 tail hg1 ht] at h
    cases h
    simp only at hg
    cases hh : st.tmp.has_group g1 with
    | true =>
      rw [hh] at hg
      exact Or.inl ⟨grp, hg, rfl⟩
    | false =>
      rw [hh] at hg
      simp only [Bool.false_eq_true, if_false] at hg
      by_cases hgg : g = g1
      · subst hgg
        exact Or.inr (Or.inr ⟨tail, rfl⟩)
      · rw [find_group_set_group_ne st.tmp g1 st.comment g hgg] at hg
        exact Or.inl ⟨grp, hg, rfl⟩
  · subst hl
    rw [parse_line_item_ok st key value hne hk1 hk2 heq] at h
    cases h
    simp only at hg
    cases hh : st.tmp.has_key st.group key with
    | true =>
      rw [hh] at hg
      exact Or.inl ⟨grp, hg, rfl⟩
    | false =>
      rw [hh] at hg
      simp only [Bool.false_eq_true, if_false] at hg
      have hk := find_item_none_of_has_key _ _ _ hh
      obtain ⟨found, hf, hsome, hnone⟩ := find_group_after_set_group st.tmp st.group
      have hkf := find_item_eq_none_found st.tmp st.group key found hf hk
      by_cases hgg : g = st.group
      · rw [hgg, find_group_set_value_self st.tmp st.group key value st.comment found hf hkf]
          at hg
        cases hg
        cases hfg : st.tmp.find_group st.group with
        | some grp0 =>
          left
          rw [hgg]
          exact ⟨grp0, hfg, by rw [hsome grp0 hfg]⟩
        | none =>
          right
          left
          refine ⟨hgg, ?_⟩
          rw [hnone hfg]
      · rw [find_group_set_value_ne st.tmp st.group key value st.comment g found hf hkf hgg]
          at hg
        exact Or.inl ⟨grp, hg, rfl⟩

/-- The current group after a line is the one before it, unless the line is a
header of it. -/
theorem parse_line_group_next (st st1 : parse_state) (l : List Char)
    (h : parse_line st l = .ok st1) :
    st1.group = st.group ∨ ∃ tail, l = '[' :: st1.group ++ ']' :: tail := by
  rcases parse_line_ok_forms st st1 l h with hf | hf | ⟨g1, tail, hl, hg1, ht⟩ |
    ⟨key, value, hl, hne, hk1, hk2, heq⟩
  · rw [parse_line_comment st l hf] at h
    cases h
    exact Or.inl rfl
  · subst hf
    rw [parse_line_blank st] at h
    cases h
    exact Or.inl rfl
  · subst hl
    rw [parse_line_group_ok st g1 tail hg1 ht] at h
    cases h
    exact Or.inr ⟨tail, rfl⟩
  · subst hl
    rw [parse_line_item_ok st key value hne hk1 hk2 heq] at h
    cases h
    exact Or.inl rfl

/-- The item that a line leaves in the keyfile was there before the line, or
the line is an item line for its key. -/
theorem parse_line_item_origin (st st1 : parse_state) (l : List Char)
    (h : parse_line st l = .ok st1) (g k : List Char) (it : item_type)
    (hi : st1.tmp.find_item g k = some it) :
    st.tmp.find_item g k = some it ∨ ∃ value, l = k ++ '=' :: value := by
  rcases parse_line_ok_forms st st1 l h with hf | hf | ⟨g1, tail, hl, hg1, ht⟩ |
    ⟨key, value, hl, hne, hk1, hk2, heq⟩
  · rw [parse_line_comment st l hf] at h
    cases h
    exact Or.inl hi
  · subst hf
    rw [parse_line_blank st] at h
    cases h
    exact Or.inl hi
  · subst hl
    rw [parse_line_group_ok st g1 tail hg1 ht] at h
    cases h
    simp only at hi
    cases hh : st.tmp.has_group g1 with
    | true =>
      rw [hh] at hi
      exact Or.inl hi
    | false =>
      rw [hh] at hi
      simp only [Bool.false_eq_true, if_false] at hi
      rw [find_item_set_group] at hi
      exact Or.inl hi
  · subst hl
    rw [parse_line_item_ok st key value hne hk1 hk2 heq] at h
    cases h
    simp only at hi
    cases hh : st.tmp.has_key st.group key with
    | true =>
      rw [hh] at hi
      exact Or.inl hi
    | false =>
      rw [hh] at hi
      simp only [Bool.false_eq_true, if_false] at hi
      by_cases hkk : k = key
      · subst hkk
        exact Or.inr ⟨value, rfl⟩
      · rw [find_item_set_value_ne st.tmp st.group key value st.comment g k
          (find_item_none_of_has_key _ _ _ hh) (Or.inr hkk)] at hi
        exact Or.inl hi

theorem parse_lines_group_origin (lines : List (List Char)) (st st1 : parse_state)
    (h : parse_lines lines st = .ok st1) (g : List Char) (grp : group_type)
    (hg : st1.tmp.find_group g = some grp) :
    (∃ grp0, st.tmp.find_group g = some grp0 ∧ grp0.comment = grp.comment) ∨
    (g = st.group ∧ grp.comment = []) ∨
    (∃ tail, '[' :: g ++ ']' :: tail ∈ lines) := by
  induction lines generalizing st with
  | nil =>
    simp only [parse_lines] at h
    cases h
    exact Or.inl ⟨grp, hg, rfl⟩
  | cons l rest ih =>
    simp only [parse_lines] at h
    cases hl : parse_line st l with
    | error e =>
      rw [hl] at h
      cases h
    | ok stm =>
      rw [hl] at h
      simp only at h
      rcases ih stm h with ⟨grpm, hgm, hcm⟩ | ⟨hgm, hcm⟩ | ⟨tail, hmem⟩
      · rcases parse_line_group_origin st stm l hl g grpm hgm with
          ⟨grp0, hg0, hc0⟩ | ⟨hg0, hc0⟩ | ⟨tail, hform⟩
        · exact Or.inl ⟨grp0, hg0, hc0.trans hcm⟩
        · exact Or.inr (Or.inl ⟨hg0, by rw [← hcm, hc0]⟩)
        · exact Or.inr (Or.inr ⟨tail, by rw [hform]; exact List.mem_cons_self _ _⟩)
      · rcases parse_line_group_next st stm l hl with hsame | ⟨tail, hform⟩
        · exact Or.inr (Or.inl ⟨hgm.trans hsame, hcm⟩)
        · refine Or.inr (Or.inr ⟨tail, ?_⟩)
          rw [hgm, hform]
          exact List.mem_cons_self _ _
      · exact Or.inr (Or.inr ⟨tail, List.mem_cons_of_mem _ hmem⟩)

theorem parse_lines_item_origin (lines : List (List Char)) (st st1 : parse_state)
    (h : parse_lines lines st = .ok st1) (g k : List Char) (it : item_type)
    (hi : st1.tmp.find_item g k = some it) :
    st.tmp.find_item g k = some it ∨ ∃ value, k ++ '=' :: value ∈ lines := by
  induction lines generalizing st with
  | nil =>
    simp only [parse_lines] at h
    cases h
    exact Or.inl hi
  | cons l rest ih =>
    simp only [parse_lines] at h
    cases hl : parse_line st l with
    | error e =>
      rw [hl] at h
      cases h
    | ok stm =>
      rw [hl] at h
      simp only at h
      rcases ih stm h with hm | ⟨value, hmem⟩
      · rcases parse_line_item_origin st stm l hl g k it hm with h0 | ⟨value, hform⟩
        · exact Or.inl h0
        · exact Or.inr ⟨value, by rw [hform]; exact List.mem_cons_self _ _⟩
      · exact Or.inr ⟨value, List.mem_cons_of_mem _ hmem⟩

/-- C16 (counterexample). In the text with the lines `k=v`, `#c`, `[]` and
`[]`, the header of the group with the empty name appears twice and the
comment `c` precedes its first header, but the group was made by the line
`k=v` and its comment is empty. -/
theorem comment_before_first_header_is_not_kept :
    keyfile_from_stream "k=v\n#c\n[]\n[]\n".toList = .ok example_keyfile_unnamed ∧
    example_keyfile_unnamed.get_group_comment [] = [] ∧
    example_keyfile_unnamed.get_group_comment [] ≠ "c".toList :=
  ⟨rfl, by decide, by decide⟩

/-- C16 (amended). When the same group header appears more than once, or the
same key appears more than once within a group, the later lines are accepted
and change nothing in the keyfile, and the parsed keyfile keeps the first
occurrence: the key's value and comment are those of the line that first set
it, and the group's comment is the one accumulated before its first header,
except for the group with the empty name when a key=value line before its
first header has made it, whose comment is empty. -/
theorem duplicates_keep_first_occurrence (stream : List Char) (pre : List (List Char))
    (line : List Char) (post : List (List Char)) (st0 : parse_state) (kf : keyfile)
    (hlines : getlines stream = pre ++ line :: post)
    (hpre : parse_lines pre parse_start = .ok st0)
    (hkf : keyfile_from_stream stream = .ok kf) :
    (∀ g tail, line = '[' :: g ++ ']' :: tail → ']' ∉ g → ']' ∉ tail →
      (st0.tmp.has_group g = false → kf.get_group_comment g = st0.comment) ∧
      (st0.tmp.has_group g = true →
        parse_line st0 line = .ok
          { tmp := st0.tmp, linecount := st0.linecount + 1, group := g, comment := [] } ∧
        kf.get_group_comment g = st0.tmp.get_group_comment g) ∧
      ((∀ tail2, '[' :: g ++ ']' :: tail2 ∉ pre) → g ≠ [] → st0.tmp.has_group g = false) ∧
      ((∀ tail2, '[' :: g ++ ']' :: tail2 ∉ pre) → st0.tmp.has_group g = true →
        g = [] ∧ kf.get_group_comment g = [])) ∧
    (∀ key value, line = key ++ '=' :: value → key ≠ [] → key.head? ≠ some '#' →
      key.head? ≠ some '[' → '=' ∉ key →
      (st0.tmp.has_key st0.group key = false →
        kf.find_item st0.group key
          = some { key := key, value := value, comment := st0.comment }) ∧
      (st0.tmp.has_key st0.group key = true →
        parse_line st0 line = .ok
          { st0 with linecount := st0.linecount + 1, comment := [] } ∧
        kf.find_item st0.group key = st0.tmp.find_item st0.group key) ∧
      ((∀ value2, key ++ '=' :: value2 ∉ pre) → st0.tmp.has_key st0.group key = false)) := by
  rw [keyfile_from_stream_eq, hlines] at hkf
  obtain ⟨st, hst, hkst, -⟩ := keyfile_of_lines_ok _ kf hkf
  obtain ⟨sta, st1, hp0, hl1, hp2⟩ := parse_lines_split pre line post parse_start st hst
  rw [hpre] at hp0
  cases hp0
  have hkeep1 := parse_line_keeps st0 st1 line hl1
  have hkeep := keeps_trans _ _ _ hkeep1 (parse_lines_keeps post st1 st hp2)
  have horigin : ∀ g, (∀ tail2, '[' :: g ++ ']' :: tail2 ∉ pre) →
      st0.tmp.has_group g = true → g = [] ∧ kf.get_group_comment g = [] := by
    intro g hno hhas
    unfold keyfile.has_group at hhas
    cases hfg : st0.tmp.find_group g with
    | none =>
      rw [hfg] at hhas
      cases hhas
    | some grp =>
      rcases parse_lines_group_origin pre parse_start st0 hpre g grp hfg with
        ⟨grp0, hg0, -⟩ | ⟨hg0, hc0⟩ | ⟨tail, hmem⟩
      · cases hg0
      · refine ⟨hg0, ?_⟩
        rw [hkst, group_comment_of_keeps st0.tmp st.tmp g grp hkeep hfg, hc0]
      · exact absurd hmem (hno tail)
  constructor
  · intro g tail hl hg ht
    subst hl
    have hline := parse_line_group_ok st0 g tail hg ht
    refine ⟨?_, ?_, ?_, horigin g⟩
    · intro hnew
      rw [hline] at hl1
      simp only [hnew, Bool.false_eq_true, if_false] at hl1
      have hgrp : st1.tmp.find_group g
          = some { name := g, items := [], comment := st0.comment } := by
        cases hl1
        exact find_group_set_group_new st0.tmp g _ (find_group_none_of_has_group _ _ hnew)
      rw [hkst]
      exact group_comment_of_keeps st1.tmp st.tmp g _
        (parse_lines_keeps post st1 st hp2) hgrp
    · intro hhas
      rw [hhas] at hline
      refine ⟨hline, ?_⟩
      unfold keyfile.has_group at hhas
      cases hfg : st0.tmp.find_group g with
      | none =>
        rw [hfg] at hhas
        cases hhas
      | some grp =>
        rw [hkst, group_comment_of_keeps st0.tmp st.tmp g grp hkeep hfg]
        simp only [keyfile.get_group_comment, hfg]
    · intro hno hne
      cases hh : st0.tmp.has_group g with
      | false => rfl
      | true => exact absurd (horigin g hno hh).1 hne
  · intro key value hl hne h1 h2 heq
    subst hl
    have hline := parse_line_item_ok st0 key value hne h1 h2 heq
    refine ⟨?_, ?_, ?_⟩
    · intro hnew
      rw [hline] at hl1
      simp only [hnew, Bool.false_eq_true, if_false] at hl1
      have hitem : st1.tmp.find_item st0.group key
          = some { key := key, value := value, comment := st0.comment } := by
        cases hl1
        exact find_item_set_value_self st0.tmp st0.group key value _
          (find_item_none_of_has_key _ _ _ hnew)
      rw [hkst]
      exact find_item_of_keeps st1.tmp st.tmp _ _ _ (parse_lines_keeps post st1 st hp2) hitem
    · intro hhas
      rw [hhas] at hline
      refine ⟨hline, ?_⟩
      unfold keyfile.has_key at hhas
      cases hfi : st0.tmp.find_item st0.group key with
      | none =>
        rw [hfi] at hhas
        cases hhas
      | some it =>
        rw [hkst]
        exact find_item_of_keeps st0.tmp st.tmp _ _ _ hkeep hfi
    · intro hno
      cases hh : st0.tmp.has_key st0.group key with
      | false => rfl
      | true =>
        unfold keyfile.has_key at hh
        cases hfi : st0.tmp.find_item st0.group key with
        | none =>
          rw [hfi] at hh
          cases hh
        | some it =>
          rcases parse_lines_item_origin pre parse_start st0 hpre _ _ it hfi with
            h0 | ⟨value2, hmem⟩
          · cases h0
          · exact absurd hmem (hno value2)

/-- C16 (amended, witness). In the text with the lines `#c`, `[g]`, `k=1`,
`#d`, `[g]`, `k=2`, the second header `[g]` changes nothing and the group `g`
keeps the comment `c` of its first header. -/
theorem duplicates_keep_first_occurrence_witness :
    keyfile_from_stream "#c\n[g]\nk=1\n#d\n[g]\nk=2\n".toList
      = .ok example_keyfile_first_kept ∧
    example_keyfile_first_kept.get_group_comment "g".toList = "c".toList ∧
    example_keyfile_first_kept.get_value "g".toList "k".toList [] = (true, "1".toList) :=
  ⟨rfl,
    ((((duplicates_keep_first_occurrence "#c\n[g]\nk=1\n#d\n[g]\nk=2\n".toList
      ["#c".toList, "[g]".toList, "k=1".toList, "#d".toList] "[g]".toList ["k=2".toList]
      { tmp := example_keyfile_first_kept, linecount := 4, group := "g".toList,
        comment := "d".toList }
      example_keyfile_first_kept (by decide) rfl rfl).1 "g".toList [] rfl
      (by decide) (by decide)).2.1 (by decide)).2).trans (by decide),
    by decide⟩

/-! ## Theorems: the chroot variants -/

theorem map_find_erase_ne {β : Type} (k k2 : List Char) (m : List (List Char × β))
    (hne : k2 ≠ k) : map_find k2 (map_erase k m) = map_find k2 m := by
  induction m with
  | nil => rfl
  | cons p rest ih =>
    obtain ⟨k1, v1⟩ := p
    by_cases h1 : k1 = k
    · subst h1
      have he : map_erase k1 ((k1, v1) :: rest) = rest := by
        simp only [map_erase, if_true]
      rw [he, map_find_cons_ne k2 k1 v1 rest (fun e => hne e.symm)]
    · have he : map_erase k ((k1, v1) :: rest) = (k1, v1) :: map_erase k rest := by
        simp only [map_erase, h1, if_false]
      rw [he]
      by_cases h2 : k1 = k2
      · subst h2
        rw [map_find_cons_eq, map_find_cons_eq]
      · rw [map_find_cons_ne k2 k1 v1 _ h2, map_find_cons_ne k2 k1 v1 _ h2, ih]

theorem map_erase_sublist {β : Type} (k : List Char) (m : List (List Char × β)) :
    (map_erase k m).Sublist m := by
  induction m with
  | nil => exact List.Sublist.slnil
  | cons p rest ih =>
    obtain ⟨k1, v1⟩ := p
    by_cases h1 : k1 = k
    · have he : map_erase k ((k1, v1) :: rest) = rest := by
        simp only [map_erase, h1, if_true]
      rw [he]
      exact List.sublist_cons_self _ _
    · have he : map_erase k ((k1, v1) :: rest) = (k1, v1) :: map_erase k rest := by
        simp only [map_erase, h1, if_false]
      rw [he]
      exact List.Sublist.cons₂ _ ih

theorem map_sorted_erase {β : Type} (k : List Char) (m : List (List Char × β))
    (hs : map_sorted m) : map_sorted (map_erase k m) := by
  unfold map_sorted at hs ⊢
  exact List.Pairwise.sublist ((map_erase_sublist k m).map Prod.fst) hs

theorem map_find_erase_self {β : Type} (k : List Char) (m : List (List Char × β))
    (hs : map_sorted m) : map_find k (map_erase k m) = none := by
  induction m with
  | nil => rfl
  | cons p rest ih =>
    obtain ⟨k1, v1⟩ := p
    have hs1 : map_sorted rest := by
      unfold map_sorted at hs ⊢
      exact (List.pairwise_cons.mp hs).2
    by_cases h1 : k1 = k
    · have he : map_erase k ((k1, v1) :: rest) = rest := by
        simp only [map_erase, h1, if_true]
      rw [he, map_find_none_iff]
      subst h1
      intro hmem
      unfold map_sorted at hs
      have h2 : string_less k1 k1 = true := (List.pairwise_cons.mp hs).1 k1 hmem
      rw [string_less_irrefl] at h2
      cases h2
    · have he : map_erase k ((k1, v1) :: rest) = (k1, v1) :: map_erase k rest := by
        simp only [map_erase, h1, if_false]
      rw [he, map_find_cons_ne k k1 v1 _ h1]
      exact ih hs1

/-- The member `set_value` in general: the group is made if absent, the key is
erased if present, and the item is inserted. -/
theorem set_value_eq (kf : keyfile) (g k v c : List Char) (found : group_type)
    (hf : (kf.set_group g []).find_group g = some found) :
    kf.set_value g k v c =
      { (kf.set_group g []) with
        groups := map_assign g
          { found with
            items := map_insert k { key := k, value := v, comment := c }
              (if (map_find k found.items).isSome = true then map_erase k found.items
               else found.items) }
          (kf.set_group g []).groups } := by
  unfold keyfile.set_value
  simp only [hf]

theorem map_find_erase_if {β : Type} (k : List Char) (m : List (List Char × β))
    (hs : map_sorted m) :
    map_find k (if (map_find k m).isSome = true then map_erase k m else m) = none := by
  cases hk : map_find k m with
  | none =>
    simp only [Option.isSome_none, Bool.false_eq_true, if_false]
    exact hk
  | some x =>
    simp only [Option.isSome_some, if_true]
    exact map_find_erase_self k m hs

theorem map_find_erase_if_ne {β : Type} (k k2 : List Char) (m : List (List Char × β))
    (hne : k2 ≠ k) :
    map_find k2 (if (map_find k m).isSome = true then map_erase k m else m)
      = map_find k2 m := by
  cases hk : map_find k m with
  | none => simp only [Option.isSome_none, Bool.false_eq_true, if_false]
  | some x =>
    simp only [Option.isSome_some, if_true]
    exact map_find_erase_ne k k2 m hne

/-- After `set_value` on a well-formed keyfile, the key is found with the
value and the comment given, whether or not the group held it before, and the
other keys of the group are found as before. -/
theorem find_item_set_value (kf : keyfile) (g k v c k2 : List Char)
    (hw : keyfile_well_formed kf) :
    (kf.set_value g k v c).find_item g k2 =
      if k2 = k then some { key := k, value := v, comment := c }
      else kf.find_item g k2 := by
  obtain ⟨found, hf, hsome, hnone⟩ := find_group_after_set_group kf g
  have hw1 := well_formed_set_group kf g [] hw
  have hmem : (g, found) ∈ (kf.set_group g []).groups := map_find_mem g found _ hf
  obtain ⟨-, f2, -⟩ := hw1.2.2 (g, found) hmem
  rw [set_value_eq kf g k v c found hf]
  unfold keyfile.find_item
  have hfg : keyfile.find_group
      { (kf.set_group g []) with
        groups := map_assign g
          { found with
            items := map_insert k { key := k, value := v, comment := c }
              (if (map_find k found.items).isSome = true then map_erase k found.items
               else found.items) }
          (kf.set_group g []).groups } g = some
          { found with
            items := map_insert k { key := k, value := v, comment := c }
              (if (map_find k found.items).isSome = true then map_erase k found.items
               else found.items) } :=
    map_find_assign_self g _ found _ hf
  rw [hfg]
  simp only
  by_cases hk : k2 = k
  · subst hk
    rw [if_pos rfl]
    exact map_find_insert_self k2 _ _ (map_find_erase_if k2 found.items f2)
  · rw [if_neg hk, map_find_insert_ne k k2 _ _ hk, map_find_erase_if_ne k k2 found.items hk]
    cases hfg0 : kf.find_group g with
    | some grp => rw [hsome grp hfg0]
    | none =>
      rw [hnone hfg0]
      rfl

/-- The member `set_value` keeps a keyfile well formed, whether or not the
group held the key before. -/
theorem well_formed_set_value_any (kf : keyfile) (g k v c : List Char)
    (hw : keyfile_well_formed kf) : keyfile_well_formed (kf.set_value g k v c) := by
  obtain ⟨found, hf, -, -⟩ := find_group_after_set_group kf g
  rw [set_value_eq kf g k v c found hf]
  have hw1 := well_formed_set_group kf g [] hw
  obtain ⟨s1, s2, s3⟩ := hw1
  have hmem : (g, found) ∈ (kf.set_group g []).groups := map_find_mem g found _ hf
  obtain ⟨f1, f2, f3⟩ := s3 (g, found) hmem
  refine ⟨s1, ?_, ?_⟩
  · unfold map_sorted
    rw [map_keys_assign]
    exact s2
  · intro p hp
    rcases map_mem_assign g _ _ p hp with hq | hq
    · rw [hq]
      have hsorted : map_sorted
          (if (map_find k found.items).isSome = true then map_erase k found.items
           else found.items) := by
        split_ifs
        · exact map_sorted_erase k found.items f2
        · exact f2
      refine ⟨f1, map_sorted_insert k _ _ hsorted, ?_⟩
      intro q hq1
      rcases map_mem_insert k _ _ q hq1 with h | h
      · rw [h]
      · apply f3 q
        split_ifs at h
        · exact (map_erase_sublist k found.items).subset h
        · exact h
    · exact s3 p hq
/-- What `ChrootLvmSnapshot::set_keyfile` leaves in `snapshot_device`: the
value of the key `lvm-snapshot-device` when the group holds it, the former
value otherwise. -/
theorem set_keyfile_snapshot_device (c : ChrootLvmSnapshot) (kf : keyfile) :
    (c.set_keyfile kf).1.snapshot_device =
      match kf.find_item c.name "lvm-snapshot-device".toList with
      | some item => item.value
      | none => c.snapshot_device := by
  unfold ChrootLvmSnapshot.set_keyfile keyfile.get_value_priority keyfile.get_value
  cases h1 : kf.find_item c.name "lvm-snapshot-device".toList with
  | none =>
    simp only [Bool.false_eq_true, if_false]
    split_ifs <;> rfl
  | some item =>
    simp only [if_true]
    split_ifs <;> rfl

/-- C21 (counterexample). The chroot `unstable` is not active and has an empty
snapshot device; after `set_keyfile` with a keyfile whose group `unstable`
holds the key `lvm-snapshot-device`, it is still not active and its snapshot
device is the value of the key. -/
theorem inactive_chroot_takes_snapshot_device_from_keyfile :
    example_lvm_inactive.active = false ∧
    example_lvm_inactive.snapshot_device = [] ∧
    example_keyfile_lvm.has_key "unstable".toList "lvm-snapshot-device".toList = true ∧
    (example_lvm_inactive.set_keyfile example_keyfile_lvm).1.active = false ∧
    (example_lvm_inactive.set_keyfile example_keyfile_lvm).1.snapshot_device
      = "/dev/vg/snap".toList ∧
    (example_lvm_inactive.set_keyfile example_keyfile_lvm).1.snapshot_device ≠ [] := by
  decide

/-- C21 (amended). Every LvmSnapshot chroot has an empty snapshot device after
construction, and `set_keyfile` keeps the snapshot device, and with it the
invariant, when the group of the chroot does not hold the key
`lvm-snapshot-device`.  When the group holds the key, `set_keyfile` sets the
snapshot device to the value of the key, also for a chroot that is not active,
for which it writes the disallowed-parameter error; the activity of the chroot
is not changed. -/
theorem set_keyfile_keeps_snapshot_device_without_key (c : ChrootLvmSnapshot)
    (kf : keyfile) :
    (∀ name active device, (ChrootLvmSnapshot_new name active device).snapshot_device = []) ∧
    (c.set_keyfile kf).1.active = c.active ∧
    (kf.has_key c.name "lvm-snapshot-device".toList = false →
      (c.set_keyfile kf).1.snapshot_device = c.snapshot_device ∧
      (c.active = false → c.snapshot_device = [] →
        (c.set_keyfile kf).1.active = false ∧ (c.set_keyfile kf).1.snapshot_device = [])) ∧
    (∀ item, kf.find_item c.name "lvm-snapshot-device".toList = some item →
      (c.set_keyfile kf).1.snapshot_device = item.value ∧
      (c.active = false →
        { level := .error,
          text := .disallowed_specified c.name "lvm-snapshot-device".toList }
          ∈ (c.set_keyfile kf).2)) := by
  have hactive : (c.set_keyfile kf).1.active = c.active := by
    unfold ChrootLvmSnapshot.set_keyfile
    simp only
    split_ifs <;> rfl
  refine ⟨fun _ _ _ => rfl, hactive, ?_, ?_⟩
  · intro hno
    have hnone := find_item_none_of_has_key kf _ _ hno
    have hdev : (c.set_keyfile kf).1.snapshot_device = c.snapshot_device := by
      rw [set_keyfile_snapshot_device, hnone]
    refine ⟨hdev, ?_⟩
    intro ha he
    rw [hactive, hdev]
    exact ⟨ha, he⟩
  · intro item hitem
    refine ⟨?_, ?_⟩
    · rw [set_keyfile_snapshot_device, hitem]
    · intro ha
      unfold ChrootLvmSnapshot.set_keyfile keyfile.get_value_priority keyfile.get_value
      simp only [hitem, ha, Bool.false_eq_true, if_false, check_priority,
        check_priority_disallowed]
      simp

/-- C21 (amended, witness). For the chroot `unstable`, which is not active, and
the empty keyfile, `set_keyfile` leaves the chroot not active with an empty
snapshot device. -/
theorem set_keyfile_keeps_snapshot_device_without_key_witness :
    (example_lvm_inactive.set_keyfile keyfile_new).1.active = false ∧
    (example_lvm_inactive.set_keyfile keyfile_new).1.snapshot_device = [] :=
  ((set_keyfile_keeps_snapshot_device_without_key example_lvm_inactive keyfile_new).2.2.1
    (by decide)).2 (by decide) (by decide)

theorem setup_lock_run_start_false (c : ChrootLvmSnapshot) (r : LockResults) :
    c.setup_lock .RUN_START false r =
      if c.snapshot_device = [] then { trace := [], error := some .device_not_set }
      else if r.stat_fails = true then
        { trace := [.stat c.snapshot_device], error := some (.stat_failed c.snapshot_device) }
      else if r.is_blk = false then
        { trace := [.stat c.snapshot_device],
          error := some (.not_block_device c.snapshot_device) }
      else { trace := [.stat c.snapshot_device], error := none } := by
  unfold ChrootLvmSnapshot.setup_lock
  simp [ChrootLvmSnapshot.get_snapshot_device]

theorem setup_lock_run_stop_true (c : ChrootLvmSnapshot) (r : LockResults) :
    c.setup_lock .RUN_STOP true r =
      if c.snapshot_device = [] then { trace := [], error := some .device_not_set }
      else if r.stat_fails = true then
        { trace := [.stat c.snapshot_device], error := some (.stat_failed c.snapshot_device) }
      else if r.is_blk = false then
        { trace := [.stat c.snapshot_device],
          error := some (.not_block_device c.snapshot_device) }
      else { trace := [.stat c.snapshot_device], error := none } := by
  unfold ChrootLvmSnapshot.setup_lock
  simp [ChrootLvmSnapshot.get_snapshot_device]

theorem session_info_call_only (c : ChrootLvmSnapshot) (r : LockResults) (type : SetupType)
    (lock start : Bool)
    (h : LockCall.setup_session_info start ∈ (c.setup_lock type lock r).trace) :
    (type = .SETUP_START ∧ lock = true ∧ start = true) ∨
    (type = .SETUP_STOP ∧ lock = false ∧ start = false) := by
  revert h
  cases type <;> cases lock <;>
    (unfold ChrootLvmSnapshot.setup_lock setup_lock_session_info
     simp [ChrootLvmSnapshot.get_snapshot_device]
     try (split_ifs <;> simp))

theorem setup_lock_run_start_true (c : ChrootLvmSnapshot) (r : LockResults)
    (hd : c.snapshot_device ≠ []) (hs : r.stat_fails = false) (hb : r.is_blk = true) :
    (c.setup_lock .RUN_START true r).trace
      = [.stat c.snapshot_device, .set_lock c.snapshot_device] := by
  unfold ChrootLvmSnapshot.setup_lock setup_lock_session_info
  simp [ChrootLvmSnapshot.get_snapshot_device, hd, hs, hb]
  split_ifs <;> rfl

theorem setup_lock_run_stop_false (c : ChrootLvmSnapshot) (r : LockResults)
    (hd : c.snapshot_device ≠ []) (hs : r.stat_fails = false) (hb : r.is_blk = true) :
    (c.setup_lock .RUN_STOP false r).trace
      = [.stat c.snapshot_device, .unset_lock c.snapshot_device] := by
  unfold ChrootLvmSnapshot.setup_lock setup_lock_session_info
  simp [ChrootLvmSnapshot.get_snapshot_device, hd, hs, hb]
  split_ifs <;> rfl

theorem setup_lock_setup_stop_false (c : ChrootLvmSnapshot) (r : LockResults) :
    c.setup_lock .SETUP_STOP false r =
      { trace := [.setup_session_info false],
        error := if r.session_info_fails = true then some .session_info else none } := by
  unfold ChrootLvmSnapshot.setup_lock setup_lock_session_info
  simp

theorem setup_lock_setup_start_true (c : ChrootLvmSnapshot) (r : LockResults)
    (hd : c.device ≠ []) (hs : r.stat_fails = false) (hb : r.is_blk = true)
    (hl : r.lock_fails = false) :
    (c.setup_lock .SETUP_START true r).trace
      = [.stat c.device, .set_lock c.device, .setup_session_info true] := by
  unfold ChrootLvmSnapshot.setup_lock setup_lock_session_info
  simp [hd, hs, hb, hl]

theorem no_lock_operation_of_stat_only (c : ChrootLvmSnapshot) (r : LockResults)
    (call : LockCall)
    (hcall : call ∈ (
      if c.snapshot_device = [] then
        ({ trace := [], error := some .device_not_set } : LockRun)
      else if r.stat_fails = true then
        { trace := [.stat c.snapshot_device], error := some (.stat_failed c.snapshot_device) }
      else if r.is_blk = false then
        { trace := [.stat c.snapshot_device],
          error := some (.not_block_device c.snapshot_device) }
      else { trace := [.stat c.snapshot_device], error := none }).trace) :
    call.is_lock_operation = false := by
  split_ifs at hcall
  · cases hcall
  all_goals
    simp only [List.mem_singleton] at hcall
    subst hcall
    rfl

/-- C22 (counterexample). For an active chroot with the snapshot device
`/dev/vg/snap`, when every call succeeds, `setup_lock(RUN_START, true)` takes
the exclusive lock of the snapshot device and `setup_lock(RUN_STOP, false)`
releases it. -/
theorem run_start_acquires_and_run_stop_releases :
    (example_lvm_active.setup_lock .RUN_START true lock_results_ok).trace
      = [.stat "/dev/vg/snap".toList, .set_lock "/dev/vg/snap".toList] ∧
    (example_lvm_active.setup_lock .RUN_STOP false lock_results_ok).trace
      = [.stat "/dev/vg/snap".toList, .unset_lock "/dev/vg/snap".toList] := by
  decide

/-- C22 (amended). For an LvmSnapshot chroot, `setup_lock` is a no-op on the
lock for the phase RunStart with acquire false and for the phase RunStop with
acquire true: whatever the calls give, it neither acquires nor releases a
device lock.  For RunStart with acquire true it takes the exclusive lock of
the snapshot device, and for RunStop with acquire false it releases that lock,
once the snapshot device is set and `stat` shows a block device. -/
theorem run_phases_lock_only_on_start_acquire_and_stop_release (c : ChrootLvmSnapshot)
    (r : LockResults) :
    (∀ call ∈ (c.setup_lock .RUN_START false r).trace, call.is_lock_operation = false) ∧
    (∀ call ∈ (c.setup_lock .RUN_STOP true r).trace, call.is_lock_operation = false) ∧
    (c.snapshot_device ≠ [] → r.stat_fails = false → r.is_blk = true →
      (c.setup_lock .RUN_START true r).trace
        = [.stat c.snapshot_device, .set_lock c.snapshot_device] ∧
      (c.setup_lock .RUN_STOP false r).trace
        = [.stat c.snapshot_device, .unset_lock c.snapshot_device]) := by
  refine ⟨?_, ?_, ?_⟩
  · intro call hcall
    rw [setup_lock_run_start_false] at hcall
    exact no_lock_operation_of_stat_only c r call hcall
  · intro call hcall
    rw [setup_lock_run_stop_true] at hcall
    exact no_lock_operation_of_stat_only c r call hcall
  · intro hd hs hb
    exact ⟨setup_lock_run_start_true c r hd hs hb, setup_lock_run_stop_false c r hd hs hb⟩

/-- C22 (amended, witness). For the active chroot with the snapshot device
`/dev/vg/snap` and calls that succeed, `setup_lock(RUN_START, true)` stats
the snapshot device and takes its lock. -/
theorem run_phases_lock_only_on_start_acquire_and_stop_release_witness :
    (example_lvm_active.setup_lock .RUN_START true lock_results_ok).trace
      = [.stat example_lvm_active.snapshot_device,
         .set_lock example_lvm_active.snapshot_device] :=
  ((run_phases_lock_only_on_start_acquire_and_stop_release example_lvm_active
    lock_results_ok).2.2 (by decide) rfl rfl).1

/-- C23. For an LvmSnapshot chroot, whatever the device fields hold and
whatever the calls give, `setup_lock(SETUP_STOP, false)` makes the one call
`setup_session_info(false)`: no `stat`, no lock and no unlock, and it ends
without an exception or with the one of `setup_session_info`.  For every phase
and either value of the flag, the session information is written only by
`setup_lock(SETUP_START, true)` and removed only by
`setup_lock(SETUP_STOP, false)`; `setup_lock(SETUP_START, true)` writes it
when the device is set, `stat` shows a block device and the lock is taken. -/
theorem setup_stop_release_skips_device (c : ChrootLvmSnapshot) (r : LockResults) :
    (c.setup_lock .SETUP_STOP false r).trace = [.setup_session_info false] ∧
    (∀ call ∈ (c.setup_lock .SETUP_STOP false r).trace,
      call.is_stat = false ∧ call.is_lock_operation = false) ∧
    ((c.setup_lock .SETUP_STOP false r).error = none ∨
      (c.setup_lock .SETUP_STOP false r).error = some .session_info) ∧
    (r.session_info_fails = false → (c.setup_lock .SETUP_STOP false r).error = none) ∧
    (∀ type lock, LockCall.setup_session_info true ∈ (c.setup_lock type lock r).trace →
      type = .SETUP_START ∧ lock = true) ∧
    (∀ type lock, LockCall.setup_session_info false ∈ (c.setup_lock type lock r).trace →
      type = .SETUP_STOP ∧ lock = false) ∧
    (c.device ≠ [] → r.stat_fails = false → r.is_blk = true → r.lock_fails = false →
      (c.setup_lock .SETUP_START true r).trace
        = [.stat c.device, .set_lock c.device, .setup_session_info true]) := by
  have h0 := setup_lock_setup_stop_false c r
  refine ⟨?_, ?_, ?_, ?_, ?_, ?_, ?_⟩
  · rw [h0]
  · intro call hcall
    rw [h0] at hcall
    simp only [List.mem_singleton] at hcall
    subst hcall
    exact ⟨rfl, rfl⟩
  · rw [h0]
    cases r.session_info_fails
    · exact Or.inl rfl
    · exact Or.inr rfl
  · intro hs
    rw [h0, hs]
    rfl
  · intro type lock hmem
    rcases session_info_call_only c r type lock true hmem with ⟨h1, h2, -⟩ | ⟨-, -, h3⟩
    · exact ⟨h1, h2⟩
    · cases h3
  · intro type lock hmem
    rcases session_info_call_only c r type lock false hmem with ⟨-, -, h3⟩ | ⟨h1, h2, -⟩
    · cases h3
    · exact ⟨h1, h2⟩
  · intro hd hs hb hl
    exact setup_lock_setup_start_true c r hd hs hb hl

/-- C23 (witness). For the chroot `unstable`, which has no snapshot device,
`setup_lock(SETUP_STOP, false)` ends without an exception when
`setup_session_info` does, and `setup_lock(SETUP_START, true)` writes the
session information after taking the lock of the origin device. -/
theorem setup_stop_release_skips_device_witness :
    (example_lvm_inactive.setup_lock .SETUP_STOP false lock_results_ok).error = none ∧
    (example_lvm_inactive.setup_lock .SETUP_START true lock_results_ok).trace
      = [.stat example_lvm_inactive.device, .set_lock example_lvm_inactive.device,
         .setup_session_info true] :=
  ⟨(setup_stop_release_skips_device example_lvm_inactive lock_results_ok).2.2.2.1 rfl,
    (setup_stop_release_skips_device example_lvm_inactive lock_results_ok).2.2.2.2.2.2
      (by decide) rfl rfl rfl⟩

/-- C24. Serialise-then-parse restores the own fields of a variant.  For a
well-formed keyfile as the base-class `get_keyfile` leaves it, and an object
that after the base-class `set_keyfile` has the name of the chroot written:
`set_keyfile` on the keyfile that `get_keyfile` of a Plain chroot wrote gives
the location of that chroot, and on the keyfile that `get_keyfile` of an
LvmSnapshot chroot wrote, active or not, it gives the snapshot device and the
snapshot options of that chroot. -/
theorem set_keyfile_restores_own_fields (kf : keyfile) (hw : keyfile_well_formed kf) :
    (∀ c c2 : ChrootPlain, c2.name = c.name →
      (c2.set_keyfile (c.get_keyfile kf)).1.location = c.location) ∧
    (∀ c c2 : ChrootLvmSnapshot, c2.name = c.name →
      (c2.set_keyfile (c.get_keyfile kf)).1.snapshot_device = c.snapshot_device ∧
      (c2.set_keyfile (c.get_keyfile kf)).1.snapshot_options = c.snapshot_options) := by
  constructor
  · intro c c2 hn
    have hfind : (c.get_keyfile kf).find_item c2.name "location".toList
        = some { key := "location".toList, value := c.location, comment := [] } := by
      rw [hn]
      unfold ChrootPlain.get_keyfile keyfile.set_value_plain ChrootPlain.get_location
      rw [find_item_set_value kf c.name _ _ _ _ hw, if_pos rfl]
    unfold ChrootPlain.set_keyfile keyfile.get_value_priority keyfile.get_value
    simp only [hfind, if_true, ChrootPlain.set_location]
  · intro c c2 hn
    have hw1 := well_formed_set_value_any kf c.name "lvm-snapshot-device".toList
      c.snapshot_device [] hw
    have hdev : (c.get_keyfile kf).find_item c2.name "lvm-snapshot-device".toList
        = some { key := "lvm-snapshot-device".toList, value := c.snapshot_device,
                 comment := [] } := by
      rw [hn]
      unfold ChrootLvmSnapshot.get_keyfile keyfile.set_value_plain
        ChrootLvmSnapshot.get_snapshot_device ChrootLvmSnapshot.get_snapshot_options
      simp only
      rw [find_item_set_value _ c.name _ _ _ _ hw1, if_neg (by decide),
        find_item_set_value kf c.name _ _ _ _ hw, if_pos rfl]
    have hopt : (c.get_keyfile kf).find_item c2.name "lvm-snapshot-options".toList
        = some { key := "lvm-snapshot-options".toList, value := c.snapshot_options,
                 comment := [] } := by
      rw [hn]
      unfold ChrootLvmSnapshot.get_keyfile keyfile.set_value_plain
        ChrootLvmSnapshot.get_snapshot_device ChrootLvmSnapshot.get_snapshot_options
      simp only
      rw [find_item_set_value _ c.name _ _ _ _ hw1, if_pos rfl]
    constructor
    · rw [set_keyfile_snapshot_device, hdev]
    · unfold ChrootLvmSnapshot.set_keyfile keyfile.get_value_priority keyfile.get_value
      simp only [hdev, if_true, ChrootLvmSnapshot.set_snapshot_device, hopt,
        ChrootLvmSnapshot.set_snapshot_options]

/-- C24 (witness). From the empty keyfile, the keyfile written for the plain
chroot `sid` gives its location back to a new object of that name, and the
keyfile written for the active chroot `unstable-session` gives its snapshot
device back. -/
theorem set_keyfile_restores_own_fields_witness :
    ((ChrootPlain_new "sid".toList).set_keyfile
        (example_plain.get_keyfile keyfile_new)).1.location = "/srv/chroot/sid".toList ∧
    ((ChrootLvmSnapshot_new "unstable-session".toList true []).set_keyfile
        (example_lvm_active.get_keyfile keyfile_new)).1.snapshot_device
      = "/dev/vg/snap".toList :=
  ⟨(set_keyfile_restores_own_fields keyfile_new well_formed_new).1 example_plain
      (ChrootPlain_new "sid".toList) rfl,
    ((set_keyfile_restores_own_fields keyfile_new well_formed_new).2 example_lvm_active
      (ChrootLvmSnapshot_new "unstable-session".toList true []) rfl).1⟩

/-! ## Theorems: finding, validating and loading chroots -/

theorem find_congr {α : Type} (l : List α) (p q : α → Bool)
    (h : ∀ x ∈ l, p x = q x) : l.find? p = l.find? q := by
  induction l with
  | nil => rfl
  | cons a rest ih =>
    have ha := h a (List.mem_cons_self _ _)
    have hr := ih (fun x hx => h x (List.mem_cons_of_mem _ hx))
    simp only [List.find?_cons, ha, hr]

theorem find_custom_chroot_of_named (chroots : List SbuildChroot) (name : String)
    (hn : ∀ c ∈ chroots, c.name ≠ none) :
    g_list_find_custom chroots (sbuild_chroot_set_name sbuild_chroot_new name)
        chroot_findfunc
      = chroots.find? (fun c => decide (c.name = some name)) := by
  unfold g_list_find_custom
  apply find_congr
  intro c hc
  cases hname : c.name with
  | none => exact absurd hname (hn c hc)
  | some n =>
    simp only [chroot_findfunc, hname, sbuild_chroot_set_name, strcmp]
    by_cases h : n = name
    · simp [h]
    · simp only [h, if_false, Option.some.injEq, decide_False]
      split_ifs <;> rfl

theorem alias_findfunc_loop_eq (bn : String) (aliases : List String) :
    (alias_findfunc_loop bn aliases == 0) = decide (bn ∈ aliases) := by
  induction aliases with
  | nil => rfl
  | cons al rest ih =>
    simp only [alias_findfunc_loop, strcmp]
    by_cases h : al = bn
    · simp [h]
    · have h2 : bn ≠ al := fun e => h e.symm
      have hne : ((if string_less al.toList bn.toList = true then (-1 : Int) else 1) == 0)
          = false := by
        split_ifs <;> rfl
      simp only [h, if_false, hne, Bool.false_eq_true, List.mem_cons, h2, false_or]
      exact ih

theorem find_custom_alias_of_named (chroots : List SbuildChroot) (name : String)
    (hn : ∀ c ∈ chroots, c.name ≠ none) :
    g_list_find_custom chroots (sbuild_chroot_set_name sbuild_chroot_new name)
        alias_findfunc
      = chroots.find? (fun c => decide (name ∈ c.aliases.getD [])) := by
  unfold g_list_find_custom
  apply find_congr
  intro c hc
  cases hname : c.name with
  | none => exact absurd hname (hn c hc)
  | some n =>
    simp only [alias_findfunc, hname, sbuild_chroot_set_name]
    cases ha : c.aliases with
    | none => simp
    | some aliases =>
      simp only [Option.getD_some]
      exact alias_findfunc_loop_eq name aliases

/-- For a configuration in which every chroot has a name,
`sbuild_config_find_alias` gives the first chroot whose name is the one asked
for, or else the first chroot that has it among its aliases, or else
nothing. -/
theorem find_alias_of_named (config : SbuildConfig) (name : String)
    (hn : ∀ c ∈ config.chroots, c.name ≠ none) :
    sbuild_config_find_alias config name =
      match config.chroots.find? (fun c => decide (c.name = some name)) with
      | some c => some c
      | none => config.chroots.find? (fun c => decide (name ∈ c.aliases.getD [])) := by
  unfold sbuild_config_find_alias sbuild_config_find_chroot sbuild_config_find_generic
  by_cases he : config.chroots = []
  · simp [he]
  · simp only [ne_eq, he, not_false_eq_true, if_true]
    rw [find_custom_chroot_of_named config.chroots name hn,
      find_custom_alias_of_named config.chroots name hn]

/-- Why the theorems on `sbuild_config_find_alias` take configurations in
which every chroot has a name: for a chroot without a name, which no load of a
configuration file makes, the `NULL` guard of `chroot_findfunc` returns the
value that `g_list_find_custom` takes for a match, so such a chroot at the
head of the list would be given for every name. -/
theorem find_alias_returns_unnamed_chroot :
    example_chroot_unnamed.name = none ∧
    example_chroot_unnamed.aliases = none ∧
    example_chroot.name = some "sid" ∧
    sbuild_config_find_alias example_config_unnamed "sid" = some example_chroot_unnamed ∧
    (∀ name, sbuild_config_find_alias example_config_unnamed name
      = some example_chroot_unnamed) := by
  refine ⟨rfl, rfl, rfl, by decide, ?_⟩
  intro name
  simp [sbuild_config_find_alias, sbuild_config_find_chroot, sbuild_config_find_generic,
    example_config_unnamed, g_list_find_custom, chroot_findfunc, example_chroot_unnamed,
    sbuild_chroot_new, sbuild_chroot_set_name]

/-- What `List.find?` finds is the first element that satisfies the test. -/
theorem find_eq_some_first {α : Type} (l : List α) (p : α → Bool) (a : α)
    (h : l.find? p = some a) :
    p a = true ∧ ∃ pre post, l = pre ++ a :: post ∧ ∀ x ∈ pre, p x = false := by
  induction l with
  | nil => cases h
  | cons b rest ih =>
    rw [List.find?_cons] at h
    cases hb : p b with
    | true =>
      rw [hb] at h
      simp only at h
      have e : b = a := Option.some.inj h
      subst e
      refine ⟨hb, [], rest, rfl, ?_⟩
      intro x hx
      cases hx
    | false =>
      rw [hb] at h
      simp only at h
      obtain ⟨h1, pre, post, h2, h3⟩ := ih h
      refine ⟨h1, b :: pre, post, by rw [h2]; rfl, ?_⟩
      intro x hx
      rcases List.mem_cons.mp hx with hxb | hxp
      · rw [hxb]
        exact hb
      · exact h3 x hxp

/-- C25. In a configuration in which every chroot has a name, as every chroot
that `sbuild_config_load` makes from a group of a configuration file has,
`sbuild_config_find_alias` gives the first chroot in list order whose name is
the one asked for if there is one; otherwise the first chroot in list order
that has it among its aliases; otherwise nothing.  A chroot with the name is
found also when an earlier chroot has the name as an alias, and a chroot that
is returned is in the list and has the name as its name or among its
aliases. -/
theorem find_alias_name_before_alias (config : SbuildConfig) (name : String)
    (hn : ∀ c ∈ config.chroots, c.name ≠ none) :
    (sbuild_config_find_alias config name =
      match config.chroots.find? (fun c => decide (c.name = some name)) with
      | some c => some c
      | none => config.chroots.find? (fun c => decide (name ∈ c.aliases.getD []))) ∧
    (∀ pre c post, config.chroots = pre ++ c :: post → c.name = some name →
      (∀ x ∈ pre, x.name ≠ some name) →
      sbuild_config_find_alias config name = some c) ∧
    (∀ pre c post, config.chroots = pre ++ c :: post →
      (∀ x ∈ config.chroots, x.name ≠ some name) →
      name ∈ c.aliases.getD [] → (∀ x ∈ pre, name ∉ x.aliases.getD []) →
      sbuild_config_find_alias config name = some c) ∧
    ((∀ x ∈ config.chroots, x.name ≠ some name ∧ name ∉ x.aliases.getD []) →
      sbuild_config_find_alias config name = none) ∧
    (∀ c, sbuild_config_find_alias config name = some c →
      c ∈ config.chroots ∧ (c.name = some name ∨ name ∈ c.aliases.getD [])) := by
  have heq := find_alias_of_named config name hn
  refine ⟨heq, ?_, ?_, ?_, ?_⟩
  · intro pre c post hsplit hc hpre
    rw [heq]
    have hfind : config.chroots.find? (fun c => decide (c.name = some name)) = some c := by
      rw [hsplit, List.find?_append]
      have h1 : pre.find? (fun c => decide (c.name = some name)) = none := by
        rw [List.find?_eq_none]
        intro x hx
        simp [hpre x hx]
      rw [h1]
      simp [List.find?_cons, hc]
    rw [hfind]
  · intro pre c post hsplit hnone hc hpre
    rw [heq]
    have h0 : config.chroots.find? (fun c => decide (c.name = some name)) = none := by
      rw [List.find?_eq_none]
      intro x hx
      simp [hnone x hx]
    rw [h0]
    simp only
    rw [hsplit, List.find?_append]
    have h1 : pre.find? (fun c => decide (name ∈ c.aliases.getD [])) = none := by
      rw [List.find?_eq_none]
      intro x hx
      simp [hpre x hx]
    rw [h1]
    simp [List.find?_cons, hc]
  · intro hall
    rw [heq]
    have h0 : config.chroots.find? (fun c => decide (c.name = some name)) = none := by
      rw [List.find?_eq_none]
      intro x hx
      simp [(hall x hx).1]
    have h1 : config.chroots.find? (fun c => decide (name ∈ c.aliases.getD [])) = none := by
      rw [List.find?_eq_none]
      intro x hx
      simp [(hall x hx).2]
    rw [h0]
    exact h1
  · intro c hc
    rw [heq] at hc
    cases h0 : config.chroots.find? (fun c => decide (c.name = some name)) with
    | some c0 =>
      rw [h0] at hc
      have e : c0 = c := Option.some.inj hc
      subst e
      obtain ⟨h1, pre, post, h2, -⟩ := find_eq_some_first _ _ _ h0
      refine ⟨by rw [h2]; simp, Or.inl ?_⟩
      simpa using h1
    | none =>
      rw [h0] at hc
      simp only at hc
      obtain ⟨h1, pre, post, h2, -⟩ := find_eq_some_first _ _ _ hc
      refine ⟨by rw [h2]; simp, Or.inr ?_⟩
      simpa using h1

/-- C25 (witness). In the configuration whose first chroot `etch` has the
alias `sid` and whose second chroot is named `sid`, the name `sid` gives the
second chroot, and the alias `stable` gives the first. -/
theorem find_alias_name_before_alias_witness :
    (∀ c ∈ example_config_alias_first.chroots, c.name ≠ none) ∧
    "sid" ∈ example_chroot_alias_sid.aliases.getD [] ∧
    sbuild_config_find_alias example_config_alias_first "sid" = some example_chroot ∧
    sbuild_config_find_alias example_config_alias_first "stable"
      = some example_chroot_alias_sid :=
  ⟨by decide, by decide,
    (find_alias_name_before_alias example_config_alias_first "sid" (by decide)).2.1
      [example_chroot_alias_sid] example_chroot [] rfl rfl (by decide),
    (find_alias_name_before_alias example_config_alias_first "stable" (by decide)).2.2.1
      [] example_chroot_alias_sid [example_chroot] rfl (by decide) (by decide)
      (by intro x hx; cases hx)⟩

theorem validate_chroots_loop_eq (config : SbuildConfig) (chroots : List String) :
    ∀ invalid_list, validate_chroots_loop config chroots invalid_list
      = invalid_list
        ++ chroots.filter (fun n => (sbuild_config_find_alias config n).isNone) := by
  induction chroots with
  | nil =>
    intro invalid_list
    simp [validate_chroots_loop]
  | cons name rest ih =>
    intro invalid_list
    simp only [validate_chroots_loop]
    cases h : sbuild_config_find_alias config name with
    | none =>
      simp only
      rw [ih, List.filter_cons_of_pos (by simp [h]), List.append_assoc]
      rfl
    | some c =>
      simp only
      rw [ih, List.filter_cons_of_neg (by simp [h])]

/-- C26. The function `sbuild_config_validate_chroots` gives the requested
names that `sbuild_config_find_alias` does not find, in input order and with
their repetitions, and gives `NULL` when there is none; it gives `NULL`
exactly when `sbuild_config_find_alias` finds every requested name. -/
theorem validate_chroots_gives_unresolved_names (config : SbuildConfig)
    (chroots : List String) :
    sbuild_config_validate_chroots config chroots =
      (if chroots.filter (fun n => (sbuild_config_find_alias config n).isNone) = [] then none
       else some (chroots.filter (fun n => (sbuild_config_find_alias config n).isNone))) ∧
    (sbuild_config_validate_chroots config chroots = none ↔
      ∀ n ∈ chroots, (sbuild_config_find_alias config n).isSome = true) := by
  have h1 : sbuild_config_validate_chroots config chroots =
      (if chroots.filter (fun n => (sbuild_config_find_alias config n).isNone) = [] then none
       else some (chroots.filter (fun n => (sbuild_config_find_alias config n).isNone))) := by
    unfold sbuild_config_validate_chroots
    simp only [validate_chroots_loop_eq, List.nil_append, ne_eq, ite_not]
  refine ⟨h1, ?_⟩
  rw [h1]
  constructor
  · intro h n hn
    by_cases hf : chroots.filter (fun n => (sbuild_config_find_alias config n).isNone) = []
    · rw [List.filter_eq_nil_iff] at hf
      have := hf n hn
      cases hx : sbuild_config_find_alias config n with
      | none => simp [hx] at this
      | some c => rfl
    · rw [if_neg hf] at h
      cases h
  · intro h
    have hf : chroots.filter (fun n => (sbuild_config_find_alias config n).isNone) = [] := by
      rw [List.filter_eq_nil_iff]
      intro n hn
      have := h n hn
      cases hx : sbuild_config_find_alias config n with
      | none => simp [hx] at this
      | some c => simp
    rw [if_pos hf]

/-- C26 (witness). For the example configuration, of the requested names
`sid`, `missing`, `stable`, `missing`, the name `missing` is given back
twice. -/
theorem validate_chroots_gives_unresolved_names_witness :
    sbuild_config_validate_chroots example_config ["sid", "missing", "stable", "missing"]
      = some ["missing", "missing"] :=
  (validate_chroots_gives_unresolved_names example_config
    ["sid", "missing", "stable", "missing"]).1.trans (by decide)
theorem load_groups_eq (groups : List (Option SbuildChroot)) :
    ∀ list, load_groups groups list = list ++ groups.filterMap id := by
  induction groups with
  | nil =>
    intro list
    simp [load_groups]
  | cons g rest ih =>
    intro list
    cases g with
    | none =>
      simp only [load_groups, ih, List.filterMap_cons, id]
    | some c =>
      simp only [load_groups, ih, List.filterMap_cons, id, List.append_assoc,
        List.singleton_append]

/-- A load that does not end the process appends every chroot made from a
group of the file; a load that ends the process leaves the list as it was. -/
theorem load_list (r : LoadResults) (list : List SbuildChroot) :
    ((sbuild_config_load r list).exit = none →
      (sbuild_config_load r list).list = list ++ r.chroots) ∧
    ((sbuild_config_load r list).exit ≠ none → (sbuild_config_load r list).list = list) := by
  unfold sbuild_config_load LoadResults.chroots
  cases hc : sbuild_config_check_security r.fstat_result with
  | error e =>
    simp only
    split_ifs <;> simp
  | ok u =>
    simp only
    split_ifs <;> simp [load_groups_eq]

theorem add_config_directory_loop_list (entries : List DirEntry) :
    ∀ list, (add_config_directory_loop entries list).exit = none →
      (add_config_directory_loop entries list).list
        = list ++ (entries.filter DirEntry.is_loaded).flatMap (fun de => de.load.chroots) := by
  induction entries with
  | nil =>
    intro list _
    simp [add_config_directory_loop]
  | cons de rest ih =>
    intro list h
    unfold add_config_directory_loop at h ⊢
    cases hs : de.stat_result with
    | none =>
      rw [hs] at h
      simp only at h ⊢
      rw [ih list h, List.filter_cons_of_neg (by simp [DirEntry.is_loaded, hs])]
    | some statbuf =>
      rw [hs] at h
      simp only at h ⊢
      cases hreg : S_ISREG statbuf.st_mode with
      | false =>
        rw [hreg] at h
        simp only [if_true] at h ⊢
        rw [ih list h, List.filter_cons_of_neg (by simp [DirEntry.is_loaded, hs, hreg])]
      | true =>
        rw [hreg] at h
        simp only [Bool.true_eq_false, if_false] at h ⊢
        cases hx : (sbuild_config_load de.load list).exit with
        | some e =>
          rw [hx] at h
          cases h
        | none =>
          rw [hx] at h
          simp only at h ⊢
          rw [ih _ h, (load_list de.load list).1 hx,
            List.filter_cons_of_pos (by simp [DirEntry.is_loaded, hs, hreg]),
            List.flatMap_cons, List.append_assoc]

theorem config_call_chroots (call : ConfigCall) (config : SbuildConfig) :
    (match call with
      | .add_config_file file r => sbuild_config_add_config_file config file r
      | .add_config_directory dir opendir_fails entries =>
        sbuild_config_add_config_directory config dir opendir_fails entries).exit = none →
    (match call with
      | .add_config_file file r => sbuild_config_add_config_file config file r
      | .add_config_directory dir opendir_fails entries =>
        sbuild_config_add_config_directory config dir opendir_fails entries).config.chroots
      = config.chroots ++ call.chroots := by
  intro h
  cases call with
  | add_config_file file r =>
    cases file with
    | none => simp [sbuild_config_add_config_file, ConfigCall.chroots]
    | some f =>
      simp only [sbuild_config_add_config_file, ConfigCall.chroots] at h ⊢
      by_cases hf : f.length = 0
      · simp [hf]
      · simp only [hf, if_false] at h ⊢
        exact (load_list r config.chroots).1 h
  | add_config_directory dir opendir_fails entries =>
    cases dir with
    | none => simp [sbuild_config_add_config_directory, ConfigCall.chroots]
    | some d =>
      simp only [sbuild_config_add_config_directory, ConfigCall.chroots] at h ⊢
      by_cases hd : d.length = 0
      · simp [hd]
      · simp only [hd, if_false] at h ⊢
        cases ho : opendir_fails with
        | true =>
          rw [ho] at h
          simp at h
        | false =>
          rw [ho] at h
          simp only [Bool.false_eq_true, if_false] at h ⊢
          exact add_config_directory_loop_list entries config.chroots h

/-- C27 (counterexample). After two calls of `sbuild_config_add_config_file`
for a file that passes every check and holds the group `sid`, the
configuration holds two chroots named `sid`: the names of the registered
chroots are not pairwise unique. -/
theorem same_name_is_registered_twice :
    run_config_calls
        [.add_config_file (some "schroot.conf") load_results_ok,
         .add_config_file (some "schroot.conf") load_results_ok] sbuild_config_init
      = { config := { chroots := [example_chroot, example_chroot] }, exit := none } ∧
    chroot_names { chroots := [example_chroot, example_chroot] } = ["sid", "sid"] ∧
    ¬ (chroot_names { chroots := [example_chroot, example_chroot] }).Nodup := by
  decide

/-- C27 (amended). After any sequence of `sbuild_config_add_config_file` and
`sbuild_config_add_config_directory` calls that does not end the process, the
registered chroots are the former ones followed by every chroot made from a
group of a loaded file, in load order: a chroot is appended without its name
being compared with the names and aliases of the chroots already registered,
so these are pairwise unique only when the loaded files do not repeat a
name. -/
theorem every_loaded_chroot_is_registered (calls : List ConfigCall) (config : SbuildConfig)
    (h : (run_config_calls calls config).exit = none) :
    (run_config_calls calls config).config.chroots
      = config.chroots ++ calls.flatMap ConfigCall.chroots := by
  induction calls generalizing config with
  | nil => simp [run_config_calls]
  | cons call rest ih =>
    have hstep := config_call_chroots call config
    unfold run_config_calls at h ⊢
    simp only at h ⊢
    cases hx : (match call with
      | .add_config_file file r => sbuild_config_add_config_file config file r
      | .add_config_directory dir opendir_fails entries =>
        sbuild_config_add_config_directory config dir opendir_fails entries).exit with
    | some e =>
      rw [hx] at h
      cases h
    | none =>
      rw [hx] at h
      simp only at h ⊢
      rw [ih _ h, hstep hx, List.flatMap_cons, List.append_assoc]

/-- C27 (amended, witness). Two loads of a file with the group `sid` register
the chroot `sid` twice. -/
theorem every_loaded_chroot_is_registered_witness :
    (run_config_calls
        [.add_config_file (some "schroot.conf") load_results_ok,
         .add_config_file (some "schroot.conf") load_results_ok]
        sbuild_config_init).config.chroots
      = [example_chroot, example_chroot] :=
  (every_loaded_chroot_is_registered
    [.add_config_file (some "schroot.conf") load_results_ok,
     .add_config_file (some "schroot.conf") load_results_ok]
    sbuild_config_init (by decide)).trans (by decide)

/-- C28. For a file whose `fstat` succeeds, `sbuild_config_check_security`
returns TRUE exactly when the owner is uid 0, the bit `S_IWOTH` is clear and
the file is a regular file; otherwise the error is the first that applies of
ownership, permissions, not-regular.  A load of a file that fails the check
ends the process with the chroot list as it was, with the security failure
when `open` and the lock succeeded.  A root-owned regular file of mode 0666
fails with the permissions error. -/
theorem check_security_decides_load (statbuf : StatBuf) :
    (sbuild_config_check_security (some statbuf) = .ok () ↔
      statbuf.st_uid = 0 ∧ S_IWOTH_set statbuf.st_mode = false ∧
        S_ISREG statbuf.st_mode = true) ∧
    (statbuf.st_uid ≠ 0 →
      sbuild_config_check_security (some statbuf)
        = .error .SBUILD_CONFIG_FILE_ERROR_OWNERSHIP) ∧
    (statbuf.st_uid = 0 → S_IWOTH_set statbuf.st_mode = true →
      sbuild_config_check_security (some statbuf)
        = .error .SBUILD_CONFIG_FILE_ERROR_PERMISSIONS) ∧
    (statbuf.st_uid = 0 → S_IWOTH_set statbuf.st_mode = false →
      S_ISREG statbuf.st_mode = false →
      sbuild_config_check_security (some statbuf)
        = .error .SBUILD_CONFIG_FILE_ERROR_NOT_REGULAR) ∧
    (∀ (r : LoadResults) (list : List SbuildChroot) (e : SbuildConfigFileError),
      sbuild_config_check_security r.fstat_result = .error e →
      (sbuild_config_load r list).list = list ∧
      (sbuild_config_load r list).exit ≠ none ∧
      (r.open_fails = false → r.lock_fails = false →
        sbuild_config_load r list = { list := list, exit := some (.security e) })) ∧
    sbuild_config_check_security (some stat_root_0666)
      = .error .SBUILD_CONFIG_FILE_ERROR_PERMISSIONS := by
  refine ⟨?_, ?_, ?_, ?_, ?_, rfl⟩
  · unfold sbuild_config_check_security
    simp only
    constructor
    · intro h
      split_ifs at h with h1 h2 h3
      refine ⟨by simpa using h1, by simpa using h2, by simpa using h3⟩
    · rintro ⟨h1, h2, h3⟩
      simp [h1, h2, h3]
  · intro h1
    simp [sbuild_config_check_security, h1]
  · intro h1 h2
    simp [sbuild_config_check_security, h1, h2]
  · intro h1 h2 h3
    simp [sbuild_config_check_security, h1, h2, h3]
  · intro r list e he
    have hexit : (sbuild_config_load r list).exit ≠ none := by
      unfold sbuild_config_load
      rw [he]
      split_ifs <;> simp
    refine ⟨(load_list r list).2 hexit, hexit, ?_⟩
    intro ho hl
    unfold sbuild_config_load
    rw [he]
    simp [ho, hl]

/-- C28 (witness). A load of a root-owned regular file of mode 0666 ends the
process with the permissions failure and registers no chroot. -/
theorem check_security_decides_load_witness :
    sbuild_config_load { load_results_ok with fstat_result := some stat_root_0666 } []
      = { list := [],
          exit := some (.security .SBUILD_CONFIG_FILE_ERROR_PERMISSIONS) } :=
  ((check_security_decides_load stat_root_0666).2.2.2.2.1
    { load_results_ok with fstat_result := some stat_root_0666 } []
    .SBUILD_CONFIG_FILE_ERROR_PERMISSIONS rfl).2.2 rfl rfl

/-! ## Theorems: the exit status after a later chroot fails -/

/-- C29 (evaluation). With two chroot names, when the child of the first exits
with status 0 and the second name does not resolve, or the start-phase setup
scripts of the second chroot fail, `sbuild_session_run` returns failure before
a second child is forked, yet `child_status` is still the 0 of the first
child, and so is the exit status that `main` passes to `exit`. -/
theorem exit_status_zero_after_later_chroot_fails :
    (sbuild_session_run example_build example_auth_user (some example_config)
        (some ["sid", "missing"]) sbuild_session_init_child_status
        (fun _ => results_success)).ok = false ∧
    (sbuild_session_run example_build example_auth_user (some example_config)
        (some ["sid", "missing"]) sbuild_session_init_child_status
        (fun _ => results_success)).error = some (.chroot_not_found "missing") ∧
    (sbuild_session_run example_build example_auth_user (some example_config)
        (some ["sid", "missing"]) sbuild_session_init_child_status
        (fun _ => results_success)).child_status = 0 ∧
    main_exit_status
      (sbuild_session_run example_build example_auth_user (some example_config)
        (some ["sid", "missing"]) sbuild_session_init_child_status
        (fun _ => results_success)) = EXIT_SUCCESS ∧
    (sbuild_session_run example_build example_auth_user (some example_config)
        (some ["sid", "etch"]) sbuild_session_init_child_status
        results_second_start_fails).ok = false ∧
    (sbuild_session_run example_build example_auth_user (some example_config)
        (some ["sid", "etch"]) sbuild_session_init_child_status
        results_second_start_fails).error = some (.chroot_setup .SETUP_START) ∧
    main_exit_status
      (sbuild_session_run example_build example_auth_user (some example_config)
        (some ["sid", "etch"]) sbuild_session_init_child_status
        results_second_start_fails) = EXIT_SUCCESS ∧
    sbuild_session_init_child_status = EXIT_FAILURE := by
  decide

/-! ## Theorems: parsing what was written -/

theorem getlines_no_newline (s : List Char) : ∀ l ∈ getlines s, '\n' ∉ l := by
  induction s with
  | nil =>
    intro l hl
    cases hl
  | cons c rest ih =>
    intro l hl
    unfold getlines at hl
    by_cases hc : c = '\n'
    · rw [if_pos hc] at hl
      rcases List.mem_cons.mp hl with h | h
      · rw [h]
        exact List.not_mem_nil _
      · exact ih l h
    · rw [if_neg hc] at hl
      cases hg : getlines rest with
      | nil =>
        rw [hg] at hl
        simp only [List.mem_singleton] at hl
        rw [hl]
        intro hmem
        simp only [List.mem_singleton] at hmem
        exact hc hmem.symm
      | cons x xs =>
        rw [hg] at hl
        simp only at hl
        rcases List.mem_cons.mp hl with h | h
        · rw [h]
          intro hmem
          rcases List.mem_cons.mp hmem with h1 | h1
          · exact hc h1.symm
          · exact ih x (by rw [hg]; exact List.mem_cons_self _ _) h1
        · exact ih l (by rw [hg]; exact List.mem_cons_of_mem _ h)

theorem getlines_append_newline (l rest : List Char) (h : '\n' ∉ l) :
    getlines (l ++ '\n' :: rest) = l :: getlines rest := by
  induction l with
  | nil => simp [getlines]
  | cons c l ih =>
    have hc : c ≠ '\n' := fun e => h (by rw [e]; exact List.mem_cons_self _ _)
    have hl : '\n' ∉ l := fun e => h (List.mem_cons_of_mem _ e)
    rw [List.cons_append]
    conv_lhs => unfold getlines
    rw [if_neg hc, ih hl]

theorem getlines_unlines (lines : List (List Char)) (h : ∀ l ∈ lines, '\n' ∉ l) :
    getlines (unlines lines) = lines := by
  induction lines with
  | nil => rfl
  | cons l rest ih =>
    have h1 := h l (List.mem_cons_self _ _)
    have h2 := ih (fun x hx => h x (List.mem_cons_of_mem _ hx))
    have e : unlines (l :: rest) = l ++ '\n' :: unlines rest := by
      simp [unlines]
    rw [e, getlines_append_newline l _ h1, h2]

theorem unlines_append (a b : List (List Char)) : unlines (a ++ b) = unlines a ++ unlines b := by
  simp [unlines]

theorem group_text_eq_unlines (group : group_type) (hc : group.comment = [])
    (hi : ∀ q ∈ group.items, q.2.comment = []) :
    group.text = unlines group.lines := by
  have hitems : ∀ items : item_map_type, (∀ q ∈ items, q.2.comment = []) →
      (items.map (fun it => it.2.text)).flatten
        = unlines (items.map (fun it => it.2.key ++ '=' :: it.2.value)) := by
    intro items
    induction items with
    | nil =>
      intro _
      rfl
    | cons q rest ih =>
      intro hq
      have h1 := hq q (List.mem_cons_self _ _)
      have h2 := ih (fun x hx => hq x (List.mem_cons_of_mem _ hx))
      simp only [List.map_cons, List.flatten_cons, h2]
      simp [unlines, item_type.text, comment_text, h1]
  unfold group_type.text group_type.lines
  rw [hitems group.items hi, hc]
  simp [unlines, comment_text]

/-- The text that `operator <<` writes for a keyfile without comments is made
of the lines of `keyfile.lines`. -/
theorem operator_insert_eq_unlines (kf : keyfile) (hc : keyfile_without_comments kf) :
    operator_insert kf = unlines kf.lines := by
  rw [operator_insert_eq]
  unfold keyfile.lines
  cases hg : kf.groups with
  | nil => rfl
  | cons p rest =>
    have hp := hc p (by rw [hg]; exact List.mem_cons_self _ _)
    have hrest : ∀ l : group_map_type, (∀ q ∈ l, q ∈ kf.groups) →
        (l.map (fun q => '\n' :: q.2.text)).flatten
          = unlines (l.flatMap (fun q => [] :: q.2.lines)) := by
      intro l
      induction l with
      | nil =>
        intro _
        rfl
      | cons q l ih =>
        intro hmem
        have hq := hc q (hmem q (List.mem_cons_self _ _))
        have h2 := ih (fun x hx => hmem x (List.mem_cons_of_mem _ hx))
        simp only [List.map_cons, List.flatten_cons, h2, List.flatMap_cons]
        rw [group_text_eq_unlines q.2 hq.1 hq.2, unlines_append]
        simp [unlines]
    simp only
    rw [group_text_eq_unlines p.2 hp.1 hp.2, unlines_append,
      hrest rest (fun q hq => by rw [hg]; exact List.mem_cons_of_mem _ hq)]

theorem group_lines_no_newline (group : group_type) (hn : '\n' ∉ group.name)
    (hi : ∀ q ∈ group.items, '\n' ∉ q.2.key ∧ '\n' ∉ q.2.value) :
    ∀ l ∈ group.lines, '\n' ∉ l := by
  intro l hl
  unfold group_type.lines at hl
  rcases List.mem_cons.mp hl with h | h
  · rw [h]
    intro hmem
    rcases List.mem_cons.mp hmem with h1 | h1
    · exact absurd h1 (by decide)
    · rcases List.mem_append.mp h1 with h2 | h2
      · exact hn h2
      · exact absurd (List.mem_singleton.mp h2) (by decide)
  · obtain ⟨q, hq, rfl⟩ := List.mem_map.mp h
    obtain ⟨h1, h2⟩ := hi q hq
    intro hmem
    rcases List.mem_append.mp hmem with h3 | h3
    · exact h1 h3
    · rcases List.mem_cons.mp h3 with h4 | h4
      · exact absurd h4 (by decide)
      · exact h2 h4

/-- The lines of what `operator <<` writes for a well-formed keyfile without
comments whose names and values are those that `operator >>` can give. -/
theorem getlines_operator_insert (kf : keyfile) (hw : keyfile_well_formed kf)
    (hp : keyfile_printable kf) (hc : keyfile_without_comments kf) :
    getlines (operator_insert kf) = kf.lines := by
  rw [operator_insert_eq_unlines kf hc]
  apply getlines_unlines
  have hgroup : ∀ p ∈ kf.groups, ∀ l ∈ p.2.lines, '\n' ∉ l := by
    intro p hmem
    obtain ⟨hname, -, hkeys⟩ := hw.2.2 p hmem
    obtain ⟨-, hn, hitems⟩ := hp p hmem
    apply group_lines_no_newline
    · rw [hname]
      exact hn
    · intro q hq
      obtain ⟨-, -, -, -, h5, h6⟩ := hitems q hq
      rw [hkeys q hq]
      exact ⟨h5, h6⟩
  intro l hl
  unfold keyfile.lines at hl
  cases hg : kf.groups with
  | nil =>
    rw [hg] at hl
    cases hl
  | cons p rest =>
    rw [hg] at hl
    simp only [List.mem_append, List.mem_flatMap, List.mem_cons] at hl
    rcases hl with h | ⟨q, hq, h | h⟩
    · exact hgroup p (by rw [hg]; exact List.mem_cons_self _ _) l h
    · rw [h]
      exact List.not_mem_nil _
    · exact hgroup q (by rw [hg]; exact List.mem_cons_of_mem _ hq) l h
theorem printable_set_group (kf : keyfile) (g c : List Char) (hp : keyfile_printable kf)
    (h1 : ']' ∉ g) (h2 : '\n' ∉ g) : keyfile_printable (kf.set_group g c) := by
  cases h : kf.find_group g with
  | some grp =>
    rw [set_group_of_present kf g c grp h]
    exact hp
  | none =>
    rw [set_group_of_absent kf g c h]
    intro p hmem
    rcases map_mem_insert g _ kf.groups p hmem with hq | hq
    · rw [hq]
      refine ⟨h1, h2, ?_⟩
      intro q hq0
      cases hq0
    · exact hp p hq

theorem printable_set_value (kf : keyfile) (g k v c : List Char)
    (hk : kf.find_item g k = none) (hp : keyfile_printable kf)
    (h1 : ']' ∉ g) (h2 : '\n' ∉ g)
    (hkey : k ≠ [] ∧ k.head? ≠ some '#' ∧ k.head? ≠ some '[' ∧ '=' ∉ k ∧ '\n' ∉ k)
    (hv : '\n' ∉ v) : keyfile_printable (kf.set_value g k v c) := by
  obtain ⟨found, hf, -, -⟩ := find_group_after_set_group kf g
  have hk1 := find_item_eq_none_found kf g k found hf hk
  rw [set_value_of_new_key kf g k v c found hf hk1]
  have hp1 := printable_set_group kf g [] hp h1 h2
  have hmem : (g, found) ∈ (kf.set_group g []).groups := map_find_mem g found _ hf
  obtain ⟨f1, f2, f3⟩ := hp1 (g, found) hmem
  intro p hpm
  rcases map_mem_assign g _ _ p hpm with hq | hq
  · rw [hq]
    refine ⟨h1, h2, ?_⟩
    intro q hq1
    rcases map_mem_insert k _ found.items q hq1 with h | h
    · rw [h]
      obtain ⟨k1, k2, k3, k4, k5⟩ := hkey
      exact ⟨k1, k2, k3, k4, k5, hv⟩
    · exact f3 q h
  · exact hp1 p hq

theorem head_append_of_ne_nil (a b : List Char) (h : a ≠ []) : (a ++ b).head? = a.head? := by
  cases a with
  | nil => exact absurd rfl h
  | cons x xs => rfl

/-- A line without a newline that is accepted leaves in the keyfile only names
and values that can be written back and read again. -/
theorem parse_line_printable (st st1 : parse_state) (l : List Char)
    (h : parse_line st l = .ok st1) (hl : '\n' ∉ l) (hp : keyfile_printable st.tmp)
    (h1 : ']' ∉ st.group) (h2 : '\n' ∉ st.group) :
    keyfile_printable st1.tmp ∧ ']' ∉ st1.group ∧ '\n' ∉ st1.group := by
  rcases parse_line_ok_forms st st1 l h with hf | hf | ⟨g, tail, hform, hg, ht⟩ |
    ⟨key, value, hform, hne, hk1, hk2, heq⟩
  · rw [parse_line_comment st l hf] at h
    cases h
    exact ⟨hp, h1, h2⟩
  · subst hf
    rw [parse_line_blank st] at h
    cases h
    exact ⟨hp, h1, h2⟩
  · subst hform
    have hgn : '\n' ∉ g := by
      intro hmem
      exact hl (List.mem_cons_of_mem _ (List.mem_append_left _ hmem))
    rw [parse_line_group_ok st g tail hg ht] at h
    cases h
    refine ⟨?_, hg, hgn⟩
    simp only
    split_ifs
    · exact hp
    · exact printable_set_group st.tmp g st.comment hp hg hgn
  · subst hform
    have hkn : '\n' ∉ key := fun hmem => hl (List.mem_append_left _ hmem)
    have hvn : '\n' ∉ value := fun hmem =>
      hl (List.mem_append_right _ (List.mem_cons_of_mem _ hmem))
    rw [parse_line_item_ok st key value hne hk1 hk2 heq] at h
    cases h
    refine ⟨?_, h1, h2⟩
    simp only
    cases hh : st.tmp.has_key st.group key with
    | true =>
      simp only [if_true]
      exact hp
    | false =>
      simp only [Bool.false_eq_true, if_false]
      exact printable_set_value st.tmp st.group key value st.comment
        (find_item_none_of_has_key _ _ _ hh) hp h1 h2 ⟨hne, hk1, hk2, heq, hkn⟩ hvn

theorem parse_lines_printable (lines : List (List Char)) (st st1 : parse_state)
    (h : parse_lines lines st = .ok st1) (hl : ∀ l ∈ lines, '\n' ∉ l)
    (hp : keyfile_printable st.tmp) (h1 : ']' ∉ st.group) (h2 : '\n' ∉ st.group) :
    keyfile_printable st1.tmp := by
  induction lines generalizing st with
  | nil =>
    simp only [parse_lines] at h
    cases h
    exact hp
  | cons l rest ih =>
    simp only [parse_lines] at h
    cases hx : parse_line st l with
    | error e =>
      rw [hx] at h
      cases h
    | ok stm =>
      rw [hx] at h
      simp only at h
      obtain ⟨p1, p2, p3⟩ := parse_line_printable st stm l hx
        (hl l (List.mem_cons_self _ _)) hp h1 h2
      exact ih stm h (fun x hxm => hl x (List.mem_cons_of_mem _ hxm)) p1 p2 p3

/-- The keyfile parsed from a text holds only names and values that can be
written back and read again. -/
theorem keyfile_from_stream_printable (stream : List Char) (kf : keyfile)
    (h : keyfile_from_stream stream = .ok kf) : keyfile_printable kf := by
  rw [keyfile_from_stream_eq] at h
  obtain ⟨st, hst, hkst, -⟩ := keyfile_of_lines_ok _ kf h
  rw [hkst]
  refine parse_lines_printable _ parse_start st hst (getlines_no_newline stream) ?_ ?_ ?_
  · intro p hmem
    cases hmem
  · exact List.not_mem_nil _
  · exact List.not_mem_nil _
theorem map_sorted_prefix {β : Type} (a b : List (List Char × β))
    (hs : map_sorted (a ++ b)) : map_sorted a := by
  unfold map_sorted at hs ⊢
  rw [List.map_append] at hs
  exact (List.pairwise_append.mp hs).1

/-- The item lines written for the items of a group, read back in the state
in which the group is the last one of the keyfile, put the items into the
group. -/
theorem parse_item_lines (done : group_map_type) (g : List Char)
    (hgd : g ∉ done.map Prod.fst) (itodo : item_map_type) :
    ∀ (idone : item_map_type) (st : parse_state),
      st.tmp = { groups := done ++ [(g, { name := g, items := idone, comment := [] })],
                 separator := ',' } →
      st.group = g → st.comment = [] →
      map_sorted (idone ++ itodo) →
      (∀ q ∈ itodo, q.2.key = q.1 ∧ q.2.comment = [] ∧ q.1 ≠ [] ∧
        q.1.head? ≠ some '#' ∧ q.1.head? ≠ some '[' ∧ '=' ∉ q.1) →
      ∃ st1, parse_lines (itodo.map (fun it => it.2.key ++ '=' :: it.2.value)) st = .ok st1 ∧
        st1.tmp = { groups := done ++ [(g, { name := g, items := idone ++ itodo,
                                             comment := [] })],
                    separator := ',' } ∧
        st1.group = g ∧ st1.comment = [] := by
  induction itodo with
  | nil =>
    intro idone st htmp hgroup hcomment _ _
    refine ⟨st, rfl, ?_, hgroup, hcomment⟩
    rw [htmp, List.append_nil]
  | cons q rest ih =>
    intro idone st htmp hgroup hcomment hs hq
    obtain ⟨qk, qc, qne, q1, q2, qeq⟩ := hq q (List.mem_cons_self _ _)
    have hsplit : idone ++ q :: rest = (idone ++ [q]) ++ rest := by simp
    have hs1 : map_sorted (idone ++ [q]) := by
      rw [hsplit] at hs
      exact map_sorted_prefix _ _ hs
    have hless := map_sorted_before idone rest q.1 q.2 hs
    have hnot : q.1 ∉ idone.map Prod.fst := not_mem_of_all_less q.1 _ hless
    have hfg : st.tmp.find_group g = some { name := g, items := idone, comment := [] } := by
      rw [htmp]
      exact map_find_append_end g _ done hgd
    have hfi : st.tmp.find_item g q.1 = none := by
      unfold keyfile.find_item
      rw [hfg]
      exact (map_find_none_iff q.1 idone).mpr hnot
    have hhas : st.tmp.has_key st.group q.2.key = false := by
      rw [hgroup, qk]
      unfold keyfile.has_key
      rw [hfi]
      rfl
    have hline := parse_line_item_ok st q.2.key q.2.value (by rw [qk]; exact qne)
      (by rw [qk]; exact q1) (by rw [qk]; exact q2) (by rw [qk]; exact qeq)
    rw [hhas] at hline
    simp only [Bool.false_eq_true, if_false] at hline
    have hset : st.tmp.set_value st.group q.2.key q.2.value st.comment
        = { groups := done ++ [(g, { name := g, items := idone ++ [q], comment := [] })],
            separator := ',' } := by
      have h := add_items_in_order done g [] ',' hgd [q] idone hs1
        (by
          intro x hx
          rw [List.mem_singleton] at hx
          rw [hx]
          exact qk)
      simp only [List.foldl_cons, List.foldl_nil] at h
      rw [qc] at h
      rw [htmp, hgroup, hcomment]
      exact h
    rw [hset] at hline
    obtain ⟨st1, hp, ht, hg1, hc1⟩ := ih (idone ++ [q])
      { st with tmp := { groups := done ++ [(g, { name := g, items := idone ++ [q],
                                                  comment := [] })],
                         separator := ',' },
                linecount := st.linecount + 1, comment := [] }
      rfl hgroup rfl (by rw [← hsplit]; exact hs)
      (fun x hx => hq x (List.mem_cons_of_mem _ hx))
    refine ⟨st1, ?_, ?_, hg1, hc1⟩
    · simp only [List.map_cons, parse_lines, hline]
      exact hp
    · rw [ht, hsplit]

/-- The lines written for a group, read back in a state whose keyfile holds
only groups with smaller names, add the group to the keyfile. -/
theorem parse_group_lines (done : group_map_type) (p : List Char × group_type)
    (st : parse_state)
    (htmp : st.tmp = { groups := done, separator := ',' }) (hcomment : st.comment = [])
    (hs : map_sorted (done ++ [p])) (hname : p.2.name = p.1) (hc : p.2.comment = [])
    (hg : ']' ∉ p.1) (hsi : map_sorted p.2.items)
    (hq : ∀ q ∈ p.2.items, q.2.key = q.1 ∧ q.2.comment = [] ∧ q.1 ≠ [] ∧
      q.1.head? ≠ some '#' ∧ q.1.head? ≠ some '[' ∧ '=' ∉ q.1) :
    ∃ st1, parse_lines p.2.lines st = .ok st1 ∧
      st1.tmp = { groups := done ++ [p], separator := ',' } ∧ st1.comment = [] := by
  obtain ⟨g, grp⟩ := p
  simp only at hname hc hg hsi hq ⊢
  have hless := map_sorted_before done [] g grp hs
  have hgd : g ∉ done.map Prod.fst := not_mem_of_all_less g _ hless
  have hfg : st.tmp.find_group g = none := by
    rw [htmp]
    exact (map_find_none_iff g done).mpr hgd
  have hhas : st.tmp.has_group g = false := by
    unfold keyfile.has_group
    rw [hfg]
    rfl
  have hline := parse_line_group_ok st g [] hg (List.not_mem_nil _)
  rw [hhas] at hline
  simp only [Bool.false_eq_true, if_false] at hline
  have hset : st.tmp.set_group g st.comment
      = { groups := done ++ [(g, { name := g, items := [], comment := [] })],
          separator := ',' } := by
    rw [set_group_of_absent st.tmp g st.comment hfg, htmp, hcomment]
    simp only
    rw [map_insert_at_end g _ done hless]
  rw [hset] at hline
  obtain ⟨st1, hp, ht, -, hc1⟩ := parse_item_lines done g hgd grp.items []
    { tmp := { groups := done ++ [(g, { name := g, items := [], comment := [] })],
               separator := ',' },
      linecount := st.linecount + 1, group := g, comment := [] }
    rfl rfl rfl (by rw [List.nil_append]; exact hsi) hq
  refine ⟨st1, ?_, ?_, hc1⟩
  · unfold group_type.lines
    rw [hname]
    simp only [parse_lines, hline]
    exact hp
  · rw [ht, List.nil_append]
    have e : ({ name := g, items := grp.items, comment := [] } : group_type) = grp := by
      cases grp
      simp only at hname hc
      rw [hname, hc]
    rw [e]

/-- The lines written for the groups after the first, each after an empty
line, read back add these groups to the keyfile. -/
theorem parse_later_groups (todo : group_map_type) :
    ∀ (done : group_map_type) (st : parse_state),
      st.tmp = { groups := done, separator := ',' } → st.comment = [] →
      map_sorted (done ++ todo) →
      (∀ p ∈ todo, p.2.name = p.1 ∧ p.2.comment = [] ∧ ']' ∉ p.1 ∧ map_sorted p.2.items ∧
        ∀ q ∈ p.2.items, q.2.key = q.1 ∧ q.2.comment = [] ∧ q.1 ≠ [] ∧
          q.1.head? ≠ some '#' ∧ q.1.head? ≠ some '[' ∧ '=' ∉ q.1) →
      ∃ st1, parse_lines (todo.flatMap (fun q => [] :: q.2.lines)) st = .ok st1 ∧
        st1.tmp = { groups := done ++ todo, separator := ',' } ∧ st1.comment = [] := by
  induction todo with
  | nil =>
    intro done st htmp hcomment _ _
    refine ⟨st, rfl, ?_, hcomment⟩
    rw [htmp, List.append_nil]
  | cons p rest ih =>
    intro done st htmp hcomment hs hall
    obtain ⟨p1, p2, p3, p4, p5⟩ := hall p (List.mem_cons_self _ _)
    have hsplit : done ++ p :: rest = (done ++ [p]) ++ rest := by simp
    have hs1 : map_sorted (done ++ [p]) := by
      rw [hsplit] at hs
      exact map_sorted_prefix _ _ hs
    obtain ⟨sta, hpa, hta, hca⟩ := parse_group_lines done p
      { st with linecount := st.linecount + 1 } htmp hcomment hs1 p1 p2 p3 p4 p5
    obtain ⟨st1, hp1, ht1, hc1⟩ := ih (done ++ [p]) sta hta hca
      (by rw [← hsplit]; exact hs) (fun x hx => hall x (List.mem_cons_of_mem _ hx))
    refine ⟨st1, ?_, ?_, hc1⟩
    · rw [List.flatMap_cons, List.cons_append]
      have e : parse_lines
          ([] :: (p.2.lines ++ rest.flatMap (fun q => [] :: q.2.lines))) st
          = parse_lines (p.2.lines ++ rest.flatMap (fun q => [] :: q.2.lines))
              { st with linecount := st.linecount + 1 } := by
        conv_lhs => unfold parse_lines
        rw [parse_line_blank]
      rw [e, parse_lines_append, hpa]
      exact hp1
    · rw [ht1, hsplit]

/-- The lines written for a well-formed keyfile without comments, read back
from the start, give the keyfile. -/
theorem parse_keyfile_lines (kf : keyfile) (hw : keyfile_well_formed kf)
    (hp : keyfile_printable kf) (hc : keyfile_without_comments kf) :
    ∃ st, parse_lines kf.lines parse_start = .ok st ∧ st.tmp = kf := by
  have hall : ∀ p ∈ kf.groups,
      p.2.name = p.1 ∧ p.2.comment = [] ∧ ']' ∉ p.1 ∧ map_sorted p.2.items ∧
        ∀ q ∈ p.2.items, q.2.key = q.1 ∧ q.2.comment = [] ∧ q.1 ≠ [] ∧
          q.1.head? ≠ some '#' ∧ q.1.head? ≠ some '[' ∧ '=' ∉ q.1 := by
    intro p hmem
    obtain ⟨w1, w2, w3⟩ := hw.2.2 p hmem
    obtain ⟨c1, c2⟩ := hc p hmem
    obtain ⟨r1, -, r3⟩ := hp p hmem
    refine ⟨w1, c1, r1, w2, ?_⟩
    intro q hq
    obtain ⟨k1, k2, k3, k4, -, -⟩ := r3 q hq
    exact ⟨w3 q hq, c2 q hq, k1, k2, k3, k4⟩
  have hsep : kf.separator = ',' := hw.1
  have hsorted : map_sorted kf.groups := hw.2.1
  obtain ⟨groups, separator⟩ := kf
  simp only at hall hsep hsorted
  subst hsep
  unfold keyfile.lines
  cases groups with
  | nil => exact ⟨parse_start, rfl, rfl⟩
  | cons p rest =>
    simp only
    obtain ⟨p1, p2, p3, p4, p5⟩ := hall p (List.mem_cons_self _ _)
    have hs1 : map_sorted ([] ++ [p]) := by
      have : p :: rest = ([] ++ [p]) ++ rest := by simp
      rw [this] at hsorted
      exact map_sorted_prefix _ _ hsorted
    obtain ⟨sta, hpa, hta, hca⟩ := parse_group_lines [] p parse_start rfl rfl hs1 p1 p2 p3 p4 p5
    obtain ⟨st1, hp1, ht1, -⟩ := parse_later_groups rest ([] ++ [p]) sta hta hca
      (by simpa using hsorted) (fun x hx => hall x (List.mem_cons_of_mem _ hx))
    refine ⟨st1, ?_, ?_⟩
    · rw [parse_lines_append, hpa]
      exact hp1
    · rw [ht1]
      simp

/-- C30. For every keyfile produced by parsing a text, in which every group
comment and every item comment is empty, parsing the text that `operator <<`
writes for it succeeds and gives the same keyfile: the same groups, keys and
values, the group with the empty name and values with `=` or spaces
included. -/
theorem parse_of_written_keyfile_without_comments (stream : List Char) (kf : keyfile)
    (h : keyfile_from_stream stream = .ok kf) (hc : keyfile_without_comments kf) :
    keyfile_from_stream (operator_insert kf) = .ok kf := by
  have hp := keyfile_from_stream_printable stream kf h
  have hw : keyfile_well_formed kf := by
    rw [keyfile_from_stream_eq] at h
    obtain ⟨_, _, _, hw⟩ := keyfile_of_lines_ok _ kf h
    exact hw
  rw [keyfile_from_stream_eq, getlines_operator_insert kf hw hp hc]
  obtain ⟨st, hst, htmp⟩ := parse_keyfile_lines kf hw hp hc
  unfold keyfile_of_lines
  rw [hst]
  simp only
  rw [htmp, add_assign_to_new kf hw]

/-- C30 (witness). The text with the lines `k=v`, `[g]` and `a= x=y ` parses
to a keyfile with the group of the empty name and the group `g`; what is
written for it is the text `[]`, `k=v`, an empty line, `[g]`, `a= x=y `, and
parsing that text gives the same keyfile. -/
theorem parse_of_written_keyfile_without_comments_witness :
    keyfile_from_stream "k=v\n[g]\na= x=y \n".toList = .ok example_keyfile_two_groups ∧
    operator_insert example_keyfile_two_groups = "[]\nk=v\n\n[g]\na= x=y \n".toList ∧
    keyfile_from_stream (operator_insert example_keyfile_two_groups)
      = .ok example_keyfile_two_groups :=
  ⟨rfl, by decide,
    parse_of_written_keyfile_without_comments "k=v\n[g]\na= x=y \n".toList
      example_keyfile_two_groups rfl (by decide)⟩

end Schroot
